import Mathlib

/-!
# DNS agent: package codec, text codec, resolver client, senders and poll loop

A shallow embedding of `Package.c`, of the base64 functions and `get_random_int` of
`Utils.c`, of the resolver clients and the operations of `Transport.c`, of the resolver
client, `dns_request_command` and `dns_send_result` of `Transport copy.c`, of
`Config.c`, of `parse_command` of `Parser.c`, of `execute_command` and `command_loop`
of `Command.c` and of `perform_checkin` of `Checkin.c`, with the properties of the
specification that concern them.

Conventions of the embedding.

* The target is 64-bit Windows (the agent reports `"arch":"x64"`): `size_t` is an
  unsigned 64-bit integer, `int` a signed 32-bit integer, `uint32_t` an unsigned
  32-bit integer.  Unsigned arithmetic is written on `Nat` with an explicit
  reduction modulo `2 ^ 32` or `2 ^ 64` where a value can leave the range; the
  conversions `int → size_t` and `int → uint32_t` are explicit.
* A buffer is a `List Byte`; a C string is the list of its bytes before the
  terminating NUL.  Its length is the length of the list.
* Reads from a caller supplied buffer are bounds checked: a read outside the
  buffer ends the run with `Exec.fault` (undefined behaviour in C).
* `malloc` is taken to succeed, formatted query names, heartbeat and registration data
  and configuration strings are taken to fit the buffers they are printed into, and the
  `int` loop counter of `dns_send_result` is taken to stay in range (results shorter
  than 2 GiB).
* The 100-byte message buffer of `execute_command` is checked, since the name printed
  into it comes from the controller: a message that does not fit makes `sprintf_s`
  call the invalid parameter handler, which ends the process (`Exec.fault`).
* What the program meets outside itself is a parameter: the outcomes of `DnsQuery_A`,
  the answers of the resolver client, the values of `rand()`, `GetTickCount()` and the
  local time, the host name, user name, time stamp and system information, the command
  functions, and the functions of `mythic.h`, which is not among the sources.
-/

namespace DnsAgent

/-! ## Machine level helpers -/

/-- One octet (`unsigned char`, or a `char` seen as its unsigned value). -/
abbrev Byte := Fin 256

/-- The cast `(unsigned char) x`. -/
def toByte (x : Nat) : Byte := ⟨x % 256, Nat.mod_lt _ (by decide)⟩

/-- A character constant such as `'='`. -/
def ch (c : Char) : Byte := toByte c.toNat

/-- A string literal such as `"ACK"`, without its terminating NUL. -/
def cstr (s : String) : List Byte := s.toList.map ch

/-- Result of running a piece of C code: it either completes with a value, or it
does not complete: it performs an access outside a buffer, or a checked library call
ends the process. -/
inductive Exec (α : Type) where
  | done (a : α)
  | fault
  deriving DecidableEq, Repr

/-- Sequencing of runs: a fault ends the run. -/
def Exec.bind {α β : Type} (x : Exec α) (f : α → Exec β) : Exec β :=
  match x with
  | .done a => f a
  | .fault => .fault

instance : Monad Exec where
  pure := Exec.done
  bind := Exec.bind

/-- The value of `buf[i]`, where `buf` has exactly `buf.length` readable bytes. -/
def readAt (buf : List Byte) (i : Nat) : Exec Byte :=
  match buf.get? i with
  | some b => .done b
  | none => .fault

/-- The bytes read by `memcpy(dst, buf + off, n)`. -/
def readRange (buf : List Byte) (off n : Nat) : Exec (List Byte) :=
  if off + n ≤ buf.length then .done ((buf.drop off).take n) else .fault

/-- The value of an `int` whose 32-bit pattern is `u` (two's complement). -/
def int_of_bits (u : Nat) : Int :=
  if u % 2 ^ 32 < 2 ^ 31 then ((u % 2 ^ 32 : Nat) : Int) else ((u % 2 ^ 32 : Nat) : Int) - 2 ^ 32

/-- The conversion of an `int` to `size_t` (64-bit, sign extending). -/
def size_t_of_int (x : Int) : Nat := (x % 2 ^ 64).toNat

/-- The conversion of an `int` to `uint32_t`. -/
def uint32_of_int (x : Int) : Nat := (x % 2 ^ 32).toNat

/-- The value of `n - k` in `size_t` arithmetic, for operands below `2 ^ 64`: the
difference wraps around when `k` exceeds `n`. -/
def size_t_sub (n k : Nat) : Nat := if k ≤ n then n - k else n + 2 ^ 64 - k

/-! ## Package.h / Package.c -/

/-- The enumeration `PackageType` of `Package.h`. -/
inductive PackageType where
  | PACKAGE_TYPE_COMMAND
  | PACKAGE_TYPE_RESULT
  | PACKAGE_TYPE_FILE
  | PACKAGE_TYPE_SYSINFO
  | PACKAGE_TYPE_ERROR
  deriving DecidableEq, Repr

/-- The integer value of an enumerator. -/
def PackageType.code : PackageType → Nat
  | .PACKAGE_TYPE_COMMAND => 0x01
  | .PACKAGE_TYPE_RESULT => 0x02
  | .PACKAGE_TYPE_FILE => 0x03
  | .PACKAGE_TYPE_SYSINFO => 0x04
  | .PACKAGE_TYPE_ERROR => 0x05

/-- The function `create_package`: the package `[TYPE(1)][LENGTH(4)][DATA(n)]` and the
value stored in `*package_len`.  `data_len` is the length of `data`. -/
def create_package (type : PackageType) (data : List Byte) : List Byte × Nat :=
  let data_len := data.length
  let package_len := (1 + 4 + data_len) % 2 ^ 64
  let package :=
    [ toByte type.code,
      toByte (data_len &&& 0xFF),
      toByte ((data_len >>> 8) &&& 0xFF),
      toByte ((data_len >>> 16) &&& 0xFF),
      toByte ((data_len >>> 24) &&& 0xFF) ] ++ data
  (package, package_len)

/-- What `parse_package` stores through its out parameters when it returns `TRUE`. -/
structure Parsed where
  /-- The value stored in `*type` (the type byte, not validated). -/
  type : Nat
  /-- The value stored in `*data_len`. -/
  data_len : Nat
  /-- The `*data_len` bytes copied to `*data`. -/
  data : List Byte
  deriving DecidableEq, Repr

/-- The function `parse_package` on a buffer of `package_len = package.length` bytes
(`none` for the buffer is the NULL pointer).  The result `none` is the return value
`FALSE`.  The length expression
`package[1] | (package[2] << 8) | (package[3] << 16) | (package[4] << 24)` has type
`int` and is converted to `size_t` by the assignment to `*data_len`. -/
def parse_package (package : Option (List Byte)) : Exec (Option Parsed) :=
  match package with
  | none => .done none
  | some package =>
    let package_len := package.length
    if package_len < 5 then .done none
    else do
      let p0 ← readAt package 0
      let p1 ← readAt package 1
      let p2 ← readAt package 2
      let p3 ← readAt package 3
      let p4 ← readAt package 4
      let type := p0.val
      let data_len :=
        size_t_of_int (int_of_bits (p1.val ||| (p2.val <<< 8) ||| (p3.val <<< 16) ||| (p4.val <<< 24)))
      if data_len > package_len - 5 then .done none
      else do
        let data ← readRange package 5 data_len
        .done (some ⟨type, data_len, data⟩)

/-! ## Utils.c: base64 -/

/-- The table `base64_table` (its 64 characters, without the terminating NUL). -/
def base64_table : List Byte :=
  cstr "ABCDEFGHIJKLMNOPQRSTUVWXYZabcdefghijklmnopqrstuvwxyz0123456789+/"

/-- The value of `base64_table[idx]`; every index used is masked with `0x3F`. -/
def table_at (idx : Nat) : Byte := base64_table.getD idx 0

/-- One pass of the encoding loop once the three octets are fixed: the `uint32_t`
value `triple` and the four characters stored in `encoded_data`. -/
def encode_group (octet_a octet_b octet_c : Nat) : List Byte :=
  let triple := ((octet_a <<< 16) + (octet_b <<< 8) + octet_c) % 2 ^ 32
  [ table_at ((triple >>> 18) &&& 0x3F),
    table_at ((triple >>> 12) &&& 0x3F),
    table_at ((triple >>> 6) &&& 0x3F),
    table_at (triple &&& 0x3F) ]

/-- The first loop of `base64_encode`, on the input bytes not yet consumed: each pass
takes `data[i++]` for up to three octets (`0` once `i` has reached `input_length`)
and appends four characters. -/
def encode_loop : List Byte → List Byte
  | [] => []
  | [a] => encode_group a.val 0 0
  | [a, b] => encode_group a.val b.val 0
  | a :: b :: c :: rest => encode_group a.val b.val c.val ++ encode_loop rest

/-- The second loop of `base64_encode`:
`for (i = 0; i < count; i++) encoded_data[*output_length - 1 - i] = '='`. -/
def pad_loop (output_length count : Nat) (encoded_data : List Byte) : List Byte :=
  (List.range count).foldl (fun buf i => buf.set (output_length - 1 - i) (ch '=')) encoded_data

/-- The function `base64_encode`: the encoded characters and the value stored in
`*output_length`. -/
def base64_encode (data : List Byte) : List Byte × Nat :=
  let input_length := data.length
  let output_length := 4 * ((input_length + 2) / 3)
  let encoded_data := encode_loop data
  let encoded_data := pad_loop output_length ((3 - input_length % 3) % 3) encoded_data
  (encoded_data, output_length)

/-- The function `base64_char_value` (returns an `int`, `-1` for a character outside
the alphabet). -/
def base64_char_value (c : Byte) : Int :=
  if ch 'A' ≤ c ∧ c ≤ ch 'Z' then (c.val : Int) - (ch 'A').val
  else if ch 'a' ≤ c ∧ c ≤ ch 'z' then (c.val : Int) - (ch 'a').val + 26
  else if ch '0' ≤ c ∧ c ≤ ch '9' then (c.val : Int) - (ch '0').val + 52
  else if c = ch '+' then 62
  else if c = ch '/' then 63
  else -1

/-- The `uint32_t` value
`data[i] == '=' ? 0 & i++ : base64_char_value(data[i++])` for the character `c = data[i]`. -/
def sextet (c : Byte) : Nat :=
  if c = ch '=' then 0 else uint32_of_int (base64_char_value c)

/-- The `uint32_t` value
`(sextet_a << 18) + (sextet_b << 12) + (sextet_c << 6) + sextet_d`. -/
def decode_triple (sextet_a sextet_b sextet_c sextet_d : Nat) : Nat :=
  ((sextet_a <<< 18) % 2 ^ 32 + (sextet_b <<< 12) % 2 ^ 32 + (sextet_c <<< 6) % 2 ^ 32
    + sextet_d) % 2 ^ 32

/-- The guarded store `if (j < *output_length) decoded_data[j++] = v`, where `j` is the
number of bytes stored so far. -/
def store_if (output_length : Nat) (decoded : List Byte) (v : Nat) : List Byte :=
  if decoded.length < output_length then decoded ++ [toByte v] else decoded

/-- The loop of `base64_decode`, on the characters not yet consumed and the bytes
stored so far.  Each pass reads four characters; a pass that starts with fewer than
four characters left would read past the input. -/
def decode_loop (output_length : Nat) : List Byte → List Byte → Exec (List Byte)
  | [], decoded => .done decoded
  | a :: b :: c :: d :: rest, decoded =>
    let triple := decode_triple (sextet a) (sextet b) (sextet c) (sextet d)
    let decoded := store_if output_length decoded ((triple >>> 16) &&& 0xFF)
    let decoded := store_if output_length decoded ((triple >>> 8) &&& 0xFF)
    let decoded := store_if output_length decoded (triple &&& 0xFF)
    decode_loop output_length rest decoded
  | _, _ => .fault

/-- The function `base64_decode` on `input_length = data.length` characters: `none` is
the return value `NULL`, otherwise the decoded bytes and the value stored in
`*output_length`.  The two reads `data[input_length - 1]` and `data[input_length - 2]`
are made whenever the length is a multiple of 4, zero included. -/
def base64_decode (data : List Byte) : Exec (Option (List Byte × Nat)) :=
  let input_length := data.length
  if input_length % 4 ≠ 0 then .done none
  else do
    let output_length := input_length / 4 * 3
    let last ← readAt data (size_t_sub input_length 1)
    let output_length := if last = ch '=' then size_t_sub output_length 1 else output_length
    let before_last ← readAt data (size_t_sub input_length 2)
    let output_length := if before_last = ch '=' then size_t_sub output_length 1 else output_length
    let decoded_data ← decode_loop output_length data []
    .done (some (decoded_data, output_length))

/-! ## Transport.c: the chunked sender -/

/-- The constant `MAX_DNS_CHUNK_SIZE` of `Transport.c`. -/
def MAX_DNS_CHUNK_SIZE : Nat := 30

/-- One call of `dns_txt_query_with_server` made by `dns_send_result`. -/
structure ChunkQuery where
  /-- The loop index `i` of the chunk. -/
  index : Nat
  /-- The raw bytes copied into `chunk`. -/
  chunk : List Byte
  /-- The query name printed into `query`. -/
  query : List Byte
  /-- The resolver address passed as `server_ip`. -/
  server_ip : List Byte
  deriving DecidableEq, Repr

/-- The name printed by
`sprintf_s(query, sizeof(query), "result.%s.%s.%s.%s", agent_id, result_id, encoded_chunk, domain)`. -/
def result_query (agent_id result_id encoded_chunk domain : List Byte) : List Byte :=
  cstr "result." ++ agent_id ++ cstr "." ++ result_id ++ cstr "." ++ encoded_chunk
    ++ cstr "." ++ domain

/-- The test `strcmp(response, "ACK") == 0` on the answer of a chunk query (`none` is
the NULL answer). -/
def acknowledged (response : Option (List Byte)) : Bool :=
  match response with
  | some r => decide (r = cstr "ACK")
  | none => false

/-- The `for` loop of `dns_send_result` from index `i`, with `todo = num_chunks - i`
passes left.  `answers k` is what `dns_txt_query_with_server` returns for the `k`-th
chunk query (`none` when it returns NULL); `sent` lists the queries already issued.
The result is the return value together with all queries issued. -/
def send_loop (agent_id result_id result domain : List Byte)
    (answers : Nat → Option (List Byte)) (num_chunks : Nat) :
    Nat → Nat → List ChunkQuery → Bool × List ChunkQuery
  | 0, _, sent => (true, sent)
  | todo + 1, i, sent =>
    let result_len := result.length
    let chunk_size :=
      if i = num_chunks - 1 then result_len - i * MAX_DNS_CHUNK_SIZE else MAX_DNS_CHUNK_SIZE
    let chunk := (result.drop (i * MAX_DNS_CHUNK_SIZE)).take chunk_size
    let encoded_chunk := (base64_encode chunk).1
    let query := result_query agent_id result_id encoded_chunk domain
    let sent := sent ++ [⟨i, chunk, query, domain⟩]
    if acknowledged (answers i) then
      send_loop agent_id result_id result domain answers num_chunks todo (i + 1) sent
    else (false, sent)

/-- The function `dns_send_result` (`none` for `result` is the NULL pointer): the
return value and the chunk queries issued, in order. -/
def dns_send_result (agent_id result_id : List Byte) (result : Option (List Byte))
    (domain : List Byte) (answers : Nat → Option (List Byte)) : Bool × List ChunkQuery :=
  match result with
  | none => (false, [])
  | some result =>
    let result_len := result.length
    let num_chunks := (result_len + MAX_DNS_CHUNK_SIZE - 1) / MAX_DNS_CHUNK_SIZE
    send_loop agent_id result_id result domain answers num_chunks num_chunks 0 []

/-! ## Definitions used to state the properties -/

/-- Spec-side reading: bytes 1..4 of a buffer as a little-endian 32-bit length. -/
def declared_length (package : List Byte) : Nat :=
  (package.getD 1 0).val + 256 * (package.getD 2 0).val + 65536 * (package.getD 3 0).val
    + 16777216 * (package.getD 4 0).val

/-- Spec-side alphabet: the 64 symbols `A–Z`, `a–z`, `0–9`, `+`, `/`. -/
def alphabet_symbol (c : Byte) : Prop :=
  (ch 'A' ≤ c ∧ c ≤ ch 'Z') ∨ (ch 'a' ≤ c ∧ c ≤ ch 'z') ∨ (ch '0' ≤ c ∧ c ≤ ch '9')
    ∨ c = ch '+' ∨ c = ch '/'

instance : DecidablePred alphabet_symbol := fun c => by
  unfold alphabet_symbol
  infer_instance

/-- The query that pass `i` of the loop of `dns_send_result` issues, as a function of
the loop index. -/
def chunk_query (agent_id result_id result domain : List Byte) (num_chunks i : Nat) :
    ChunkQuery :=
  ⟨i,
   (result.drop (i * MAX_DNS_CHUNK_SIZE)).take
     (if i = num_chunks - 1 then result.length - i * MAX_DNS_CHUNK_SIZE else MAX_DNS_CHUNK_SIZE),
   result_query agent_id result_id
     (base64_encode ((result.drop (i * MAX_DNS_CHUNK_SIZE)).take
       (if i = num_chunks - 1 then result.length - i * MAX_DNS_CHUNK_SIZE
        else MAX_DNS_CHUNK_SIZE))).1 domain,
   domain⟩

/-! ## Transport.c: the resolver client and the tasking request -/

/-- The constant `MAX_DNS_RETRIES` of `Transport.c`. -/
def MAX_DNS_RETRIES : Nat := 3

/-- The constant `DNS_RETRY_DELAY` of `Transport.c` (milliseconds). -/
def DNS_RETRY_DELAY : Nat := 1000

/-- The status `ERROR_SUCCESS` of the Windows API. -/
def ERROR_SUCCESS : Nat := 0

/-- The record type `DNS_TYPE_TEXT` of `windns.h`. -/
def DNS_TYPE_TEXT : Nat := 0x0010

/-- The head of the record list that `DnsQuery_A` stores in `dnsRecord`: its `wType`
and, for a TXT record, the `dwStringCount` strings of `Data.TXT.pStringArray`. -/
structure DnsRecord where
  /-- The field `wType`. -/
  wType : Nat
  /-- The strings `Data.TXT.pStringArray[0 .. dwStringCount)`. -/
  strings : List (List Byte)
  deriving DecidableEq, Repr

/-- The outcome of one call of `DnsQuery_A`: the returned status and the value of
`dnsRecord` after the call (`none` is NULL). -/
structure DnsReply where
  /-- The returned `DNS_STATUS`. -/
  status : Nat
  /-- The record list, if any. -/
  record : Option DnsRecord
  deriving DecidableEq, Repr

/-- What a run of `dns_txt_query_with_server` did. -/
structure TxtQueryRun where
  /-- The returned string (`none` is NULL). -/
  result : Option (List Byte)
  /-- The number of calls of `DnsQuery_A`. -/
  attempts : Nat
  /-- The total time passed to `Sleep`, in milliseconds. -/
  slept : Nat
  deriving DecidableEq, Repr

/-- The retry loop of `dns_txt_query_with_server` from attempt number `retry`, with
`todo = MAX_DNS_RETRIES - retry` passes left; `replies k` is the outcome of the `k`-th
call of `DnsQuery_A`.  A reply with status `ERROR_SUCCESS` and a record of type TXT
copies the first string, if there is one, and leaves the loop (`break`) in either
case; any other reply sleeps, unless it was the last attempt, and goes on. -/
def txt_query_loop (replies : Nat → DnsReply) : Nat → Nat → Nat → TxtQueryRun
  | 0, retry, slept => ⟨none, retry, slept⟩
  | todo + 1, retry, slept =>
    let reply := replies retry
    let again := txt_query_loop replies todo (retry + 1)
      (if retry < MAX_DNS_RETRIES - 1 then slept + DNS_RETRY_DELAY else slept)
    match reply.record with
    | some dnsRecord =>
      if reply.status = ERROR_SUCCESS ∧ dnsRecord.wType = DNS_TYPE_TEXT then
        ⟨if 0 < dnsRecord.strings.length then dnsRecord.strings.head? else none, retry + 1, slept⟩
      else again
    | none => again

/-- The function `dns_txt_query_with_server` of `Transport.c`, for the outcomes
`replies` of its successive lookups of `query` at `server_ip`. -/
def dns_txt_query_with_server (replies : Nat → DnsReply) : TxtQueryRun :=
  txt_query_loop replies MAX_DNS_RETRIES 0 0

/-- One call of `dns_txt_query_with_server`: the name looked up and the resolver
address it is sent to. -/
structure Lookup where
  /-- The query name. -/
  query : List Byte
  /-- The resolver address passed as `server_ip`. -/
  server_ip : List Byte
  deriving DecidableEq, Repr

/-- The C string held by a NUL-terminated buffer: its bytes before the first NUL. -/
def c_string (buf : List Byte) : List Byte := buf.takeWhile (fun b => b ≠ 0)

/-- The function `dns_request_command` of `Transport.c`: the lookup it makes and the
returned command (`none` is NULL).  `answer` is what `dns_txt_query_with_server`
returns for the lookup.  The returned buffer holds the `decoded_size` decoded bytes
followed by a NUL; the command is the C string in it. -/
def dns_request_command (agent_id domain : List Byte) (answer : Option (List Byte)) :
    Lookup × Exec (Option (List Byte)) :=
  let query := cstr "cmd." ++ agent_id ++ cstr "." ++ domain
  let server_ip := domain
  (⟨query, server_ip⟩,
    match answer with
    | none => .done none
    | some encoded_command =>
      match base64_decode encoded_command with
      | .fault => .fault
      | .done none => .done none
      | .done (some (decoded_command, decoded_size)) =>
        .done (some (c_string (decoded_command.take decoded_size))))

/-! ## Definitions used to state the properties of the resolver client and of the codec -/

/-- Spec-side count: the number of `'='` symbols an input ends in. -/
def trailing_pads (data : List Byte) : Nat :=
  (data.reverse.takeWhile (fun c => c = ch '=')).length

/-- Spec-side reading of a failed attempt: a resolution error, an empty answer or a
record of a type other than TXT. -/
def failed_attempt (reply : DnsReply) : Prop :=
  reply.status ≠ ERROR_SUCCESS ∨ reply.record = none ∨
    ∃ r, reply.record = some r ∧ r.wType ≠ DNS_TYPE_TEXT

/-- Spec-side reading of a TXT answer carrying the strings `strings`. -/
def txt_answer (reply : DnsReply) (strings : List (List Byte)) : Prop :=
  reply.status = ERROR_SUCCESS ∧ reply.record = some ⟨DNS_TYPE_TEXT, strings⟩

/-! ## Transport copy.c: the framework-compatible dialect -/

namespace Mythic

/-- The constant `MAX_DNS_CHUNK_SIZE` of `Transport copy.c`. -/
def MAX_DNS_CHUNK_SIZE : Nat := 15

/-- The value `INADDR_NONE` of Winsock. -/
def INADDR_NONE : Nat := 0xFFFFFFFF

/-- The function `dns_txt_query_with_server` of `Transport copy.c`; `server_addr` is the
value of `inet_addr(server_ip)`.  An address that does not parse returns NULL before
any lookup; otherwise the retry loop is that of `Transport.c` (the strings of a TXT
record are not NULL, so the extra test `pStringArray[0] != NULL` holds). -/
def dns_txt_query_with_server (server_addr : Nat) (replies : Nat → DnsReply) : TxtQueryRun :=
  if server_addr = INADDR_NONE then ⟨none, 0, 0⟩
  else txt_query_loop replies MAX_DNS_RETRIES 0 0

end Mythic

/-! ## Config.c -/

/-- The structure `AgentConfig`.  The `DWORD` fields are unsigned 32-bit integers. -/
structure AgentConfig where
  /-- The field `c2_domain`. -/
  c2_domain : List Byte
  /-- The field `sleep_interval` (milliseconds). -/
  sleep_interval : Nat
  /-- The field `agent_id`. -/
  agent_id : List Byte
  /-- The field `max_retries`. -/
  max_retries : Nat
  /-- The field `jitter_percent`. -/
  jitter_percent : Nat
  /-- The field `kill_date` (`YYYYMMDD`, 0 for none). -/
  kill_date : Nat
  /-- The field `working_dir`. -/
  working_dir : List Byte
  /-- The field `debug_flag`. -/
  debug_flag : Bool
  deriving DecidableEq, Repr

/-- The static variables `config` and `config_initialized` of `Config.c`. -/
structure ConfigState where
  /-- The variable `config`. -/
  config : AgentConfig
  /-- The variable `config_initialized`. -/
  config_initialized : Bool
  deriving DecidableEq, Repr

/-- The static variables at program start (zero initialised). -/
def ConfigState.start : ConfigState :=
  ⟨⟨[], 0, [], 0, 0, 0, [], false⟩, false⟩

/-- What `init_config` reads from the system: the value of `GetTickCount()` and the
directory stored by `GetCurrentDirectoryA`. -/
structure ConfigEnv where
  /-- The value of `GetTickCount()`. -/
  tick : Nat
  /-- The current directory. -/
  current_directory : List Byte
  deriving DecidableEq, Repr

/-- The constant `DEFAULT_C2_DOMAIN`. -/
def DEFAULT_C2_DOMAIN : List Byte := cstr "c2.local"

/-- The constant `DEFAULT_SLEEP_INTERVAL`. -/
def DEFAULT_SLEEP_INTERVAL : Nat := 10000

/-- The constant `DEFAULT_MAX_RETRIES`. -/
def DEFAULT_MAX_RETRIES : Nat := 3

/-- The constant `DEFAULT_JITTER_PERCENT`. -/
def DEFAULT_JITTER_PERCENT : Nat := 20

/-- The constant `DEFAULT_KILL_DATE`. -/
def DEFAULT_KILL_DATE : Nat := 0

/-- The text printed by the conversion `%08x` for an unsigned 32-bit value: lower-case
hexadecimal digits, padded with zeros to eight characters. -/
def hex8 (n : Nat) : List Byte :=
  let digits := (Nat.toDigits 16 (n % 2 ^ 32)).map ch
  List.replicate (8 - digits.length) (ch '0') ++ digits

/-- The function `init_config`. -/
def init_config (env : ConfigEnv) (s : ConfigState) : ConfigState :=
  if s.config_initialized then s
  else
    ⟨{ c2_domain := DEFAULT_C2_DOMAIN,
       sleep_interval := DEFAULT_SLEEP_INTERVAL,
       agent_id := cstr "agent-" ++ hex8 env.tick,
       max_retries := DEFAULT_MAX_RETRIES,
       jitter_percent := DEFAULT_JITTER_PERCENT,
       kill_date := DEFAULT_KILL_DATE,
       working_dir := env.current_directory,
       debug_flag := false }, true⟩

/-- The function `reset_config`. -/
def reset_config (env : ConfigEnv) (s : ConfigState) : ConfigState :=
  init_config env { s with config_initialized := false }

/-- The function `get_c2_domain`: the returned string and the state after the call. -/
def get_c2_domain (env : ConfigEnv) (s : ConfigState) : List Byte × ConfigState :=
  ((init_config env s).config.c2_domain, init_config env s)

/-- The function `set_c2_domain` (`none` is the NULL pointer). -/
def set_c2_domain (env : ConfigEnv) (domain : Option (List Byte)) (s : ConfigState) :
    ConfigState :=
  let s := init_config env s
  match domain with
  | some d => { s with config := { s.config with c2_domain := d } }
  | none => s

/-- The function `set_sleep_interval`. -/
def set_sleep_interval (env : ConfigEnv) (interval : Nat) (s : ConfigState) : ConfigState :=
  let s := init_config env s
  { s with config := { s.config with sleep_interval := interval } }

/-- The function `get_agent_id`: the returned string and the state after the call. -/
def get_agent_id (env : ConfigEnv) (s : ConfigState) : List Byte × ConfigState :=
  ((init_config env s).config.agent_id, init_config env s)

/-- The function `set_agent_id` (`none` is the NULL pointer). -/
def set_agent_id (env : ConfigEnv) (id : Option (List Byte)) (s : ConfigState) : ConfigState :=
  let s := init_config env s
  match id with
  | some d => { s with config := { s.config with agent_id := d } }
  | none => s

/-- The function `set_max_retries`. -/
def set_max_retries (env : ConfigEnv) (retries : Nat) (s : ConfigState) : ConfigState :=
  let s := init_config env s
  { s with config := { s.config with max_retries := retries } }

/-- The function `get_jitter_percent`: the returned value and the state after the call. -/
def get_jitter_percent (env : ConfigEnv) (s : ConfigState) : Nat × ConfigState :=
  ((init_config env s).config.jitter_percent, init_config env s)

/-- The function `set_jitter_percent`. -/
def set_jitter_percent (env : ConfigEnv) (percent : Nat) (s : ConfigState) : ConfigState :=
  let s := init_config env s
  let percent := if percent > 100 then 100 else percent
  { s with config := { s.config with jitter_percent := percent } }

/-- The function `set_kill_date`. -/
def set_kill_date (env : ConfigEnv) (date : Nat) (s : ConfigState) : ConfigState :=
  let s := init_config env s
  { s with config := { s.config with kill_date := date } }

/-- The function `set_working_dir` (`none` is the NULL pointer). -/
def set_working_dir (env : ConfigEnv) (dir : Option (List Byte)) (s : ConfigState) :
    ConfigState :=
  let s := init_config env s
  match dir with
  | some d => { s with config := { s.config with working_dir := d } }
  | none => s

/-- The function `set_debug_flag`. -/
def set_debug_flag (env : ConfigEnv) (flag : Bool) (s : ConfigState) : ConfigState :=
  let s := init_config env s
  { s with config := { s.config with debug_flag := flag } }

/-- The function `load_config`: the return value and the state after the call.  `file`
is the `AgentConfig` image that `fread` finds in the file; `none` stands for a NULL
file name, a file that cannot be opened or a file too short for one structure, which
are taken to leave the state as it was. -/
def load_config (file : Option AgentConfig) (s : ConfigState) : Bool × ConfigState :=
  match file with
  | none => (false, s)
  | some image => (true, ⟨image, true⟩)

/-- The fields of `struct tm` that `should_exit_kill_date` reads. -/
structure Tm where
  /-- Years since 1900. -/
  tm_year : Nat
  /-- Months since January. -/
  tm_mon : Nat
  /-- Day of the month. -/
  tm_mday : Nat
  deriving DecidableEq, Repr

/-- The function `should_exit_kill_date`, for the local time `tm_now`: the return value
and the state after the call. -/
def should_exit_kill_date (env : ConfigEnv) (tm_now : Tm) (s : ConfigState) :
    Bool × ConfigState :=
  let s := init_config env s
  if s.config.kill_date = 0 then (false, s)
  else
    let current_date :=
      ((tm_now.tm_year + 1900) * 10000 + (tm_now.tm_mon + 1) * 100 + tm_now.tm_mday) % 2 ^ 32
    (decide (current_date ≥ s.config.kill_date), s)

/-- The function `get_random_int` of `Utils.c`, for the value `rand` returned by `rand()`:
`min + rand() % (max - min + 1)` in `int`, with the remainder of C.  The operations stay
in range for the arguments that `get_sleep_interval` passes. -/
def get_random_int (min max : Int) (rand : Nat) : Int :=
  min + Int.tmod (rand : Int) (max - min + 1)

/-- The function `get_sleep_interval`, for the values `rand1` and `rand2` returned by
the two calls of `rand()`: the returned interval and the state after the call.  The
arithmetic on `DWORD` values is modulo `2 ^ 32`. -/
def get_sleep_interval (env : ConfigEnv) (s : ConfigState) (rand1 rand2 : Nat) :
    Nat × ConfigState :=
  let s := init_config env s
  if s.config.jitter_percent > 0 then
    let jitter_range := (s.config.sleep_interval * s.config.jitter_percent) % 2 ^ 32 / 100
    let jitter := uint32_of_int (get_random_int 0 (int_of_bits jitter_range) rand1)
    if get_random_int 0 1 rand2 = 0 then
      ((s.config.sleep_interval + 2 ^ 32 - jitter) % 2 ^ 32, s)
    else
      ((s.config.sleep_interval + jitter) % 2 ^ 32, s)
  else (s.config.sleep_interval, s)

/-- One operation of the configuration module that changes its state. -/
inductive ConfigOp where
  | reset_config
  | get (dummy : Unit)
  | set_c2_domain (domain : Option (List Byte))
  | set_sleep_interval (interval : Nat)
  | set_agent_id (id : Option (List Byte))
  | set_max_retries (retries : Nat)
  | set_jitter_percent (percent : Nat)
  | set_kill_date (date : Nat)
  | set_working_dir (dir : Option (List Byte))
  | set_debug_flag (flag : Bool)
  | load_config (file : Option AgentConfig)

/-- The state after an operation (`get` stands for any of the getters, which only
initialise the configuration). -/
def ConfigOp.run (env : ConfigEnv) : ConfigOp → ConfigState → ConfigState
  | .reset_config, s => DnsAgent.reset_config env s
  | .get _, s => init_config env s
  | .set_c2_domain d, s => DnsAgent.set_c2_domain env d s
  | .set_sleep_interval n, s => DnsAgent.set_sleep_interval env n s
  | .set_agent_id d, s => DnsAgent.set_agent_id env d s
  | .set_max_retries n, s => DnsAgent.set_max_retries env n s
  | .set_jitter_percent p, s => DnsAgent.set_jitter_percent env p s
  | .set_kill_date d, s => DnsAgent.set_kill_date env d s
  | .set_working_dir d, s => DnsAgent.set_working_dir env d s
  | .set_debug_flag f, s => DnsAgent.set_debug_flag env f s
  | .load_config file, s => (DnsAgent.load_config file s).2

/-- The state after a sequence of operations, starting from program start. -/
def run_ops (env : ConfigEnv) (ops : List ConfigOp) : ConfigState :=
  ops.foldl (fun s op => op.run env s) ConfigState.start

/-! ## Parser.c and Command.c -/

/-- The function `strchr` on a C string: the index of the first occurrence of `c`
(`none` is NULL). -/
def strchr : List Byte → Byte → Option Nat
  | [], _ => none
  | x :: rest, c => if x = c then some 0 else (strchr rest c).map (fun i => i + 1)

/-- The function `parse_command` (`none` for the argument is the NULL pointer): on
success the strings stored in `*command` and `*args`; `none` is the return value
`FALSE`. -/
def parse_command (command_str : Option (List Byte)) : Option (List Byte × List Byte) :=
  match command_str with
  | none => none
  | some s =>
    if s = [] then none
    else
      match strchr s (ch ' ') with
      | some space =>
        let command := s.take space
        let args := if s.drop (space + 1) = [] then [] else s.drop (space + 1)
        some (command, args)
      | none => some (s, [])

/-- The call `sprintf_s(buffer, size, ...)` for the formatted text `text`: the text and
its terminating NUL must fit `size` bytes; otherwise the invalid parameter handler of
the run-time library ends the process. -/
def sprintf_s (size : Nat) (text : List Byte) : Exec (List Byte) :=
  if text.length < size then .done text else .fault

/-- The command functions `cmd_cd`, `cmd_pwd`, `cmd_ls`, `cmd_cp`, `cmd_whoami` and
`cmd_mkdir`: wrappers of operating system calls that map the argument string to a
result string (`none` is NULL). -/
structure CommandFunctions where
  /-- The function `cmd_cd`. -/
  cmd_cd : List Byte → Option (List Byte)
  /-- The function `cmd_pwd`. -/
  cmd_pwd : List Byte → Option (List Byte)
  /-- The function `cmd_ls`. -/
  cmd_ls : List Byte → Option (List Byte)
  /-- The function `cmd_cp`. -/
  cmd_cp : List Byte → Option (List Byte)
  /-- The function `cmd_whoami`. -/
  cmd_whoami : List Byte → Option (List Byte)
  /-- The function `cmd_mkdir`. -/
  cmd_mkdir : List Byte → Option (List Byte)

/-- The registry `commands` of `Command.c`, without its sentinel. -/
def commands (f : CommandFunctions) : List (List Byte × (List Byte → Option (List Byte))) :=
  [ (cstr "cd", f.cmd_cd),
    (cstr "pwd", f.cmd_pwd),
    (cstr "ls", f.cmd_ls),
    (cstr "cp", f.cmd_cp),
    (cstr "whoami", f.cmd_whoami),
    (cstr "mkdir", f.cmd_mkdir) ]

/-- The function `execute_command` (`none` for the argument is the NULL pointer): the
returned string (`none` is NULL).  The registry is searched in order with `strcmp`;
the message for an unknown command is printed into a buffer of 100 bytes. -/
def execute_command (f : CommandFunctions) (command_str : Option (List Byte)) :
    Exec (Option (List Byte)) :=
  match command_str with
  | none => .done (some (cstr "Error: Empty command"))
  | some s =>
    if s = [] then .done (some (cstr "Error: Empty command"))
    else
      match parse_command (some s) with
      | none => .done (some (cstr "Error: Failed to parse command"))
      | some (command, args) =>
        match (commands f).find? (fun entry => decide (entry.1 = command)) with
        | some entry => .done (entry.2 args)
        | none =>
          match sprintf_s 100 (cstr "Error: Unknown command '" ++ command ++ cstr "'") with
          | .done result => .done (some result)
          | .fault => .fault

/-- What `command_loop` meets outside the program: the values returned by its
successive calls of `GetTickCount`, the values returned by the successive calls of
`dns_txt_query_with_server`, and the command functions. -/
structure LoopEnv where
  /-- The value returned by the `k`-th call of `GetTickCount`. -/
  tick : Nat → Nat
  /-- The value returned by the `k`-th call of `dns_txt_query_with_server`. -/
  answers : Nat → Option (List Byte)
  /-- The command functions. -/
  functions : CommandFunctions

/-- What `command_loop` does that can be observed. -/
inductive LoopEvent where
  /-- The lookup made by `dns_request_command`. -/
  | tasking (lookup : Lookup)
  /-- A call of `execute_command`. -/
  | execute (command : List Byte)
  /-- A call of `dns_send_result`: the result id, the result, the chunk queries issued
  and the return value. -/
  | send (result_id result : List Byte) (queries : List ChunkQuery) (ok : Bool)
  /-- A call of `Sleep`. -/
  | sleep (ms : Nat)
  deriving DecidableEq, Repr

/-- The progress of `command_loop`: the number of calls of `GetTickCount` and of
`dns_txt_query_with_server` made so far, and the events so far, oldest first. -/
structure LoopState where
  /-- Calls of `GetTickCount` so far. -/
  ticks : Nat
  /-- Calls of `dns_txt_query_with_server` so far. -/
  lookups : Nat
  /-- The events so far. -/
  trace : List LoopEvent
  deriving DecidableEq, Repr

/-- One pass of the `while (1)` loop of `command_loop`. -/
def command_loop_body (env : LoopEnv) (agent_id domain : List Byte) (sleep_interval : Nat)
    (st : LoopState) : Exec LoopState :=
  let request := dns_request_command agent_id domain (env.answers st.lookups)
  let lookups := st.lookups + 1
  let trace := st.trace ++ [LoopEvent.tasking request.1]
  match request.2 with
  | .fault => .fault
  | .done none => .done ⟨st.ticks, lookups, trace ++ [LoopEvent.sleep sleep_interval]⟩
  | .done (some command) =>
    if command.length > 0 then
      match execute_command env.functions (some command) with
      | .fault => .fault
      | .done none =>
        .done ⟨st.ticks, lookups,
          trace ++ [LoopEvent.execute command, LoopEvent.sleep sleep_interval]⟩
      | .done (some result) =>
        let result_id := hex8 (env.tick st.ticks)
        let sent := dns_send_result agent_id result_id (some result) domain
          (fun k => env.answers (lookups + k))
        .done ⟨st.ticks + 1, lookups + sent.2.length,
          trace ++ [LoopEvent.execute command, LoopEvent.send result_id result sent.2 sent.1,
            LoopEvent.sleep sleep_interval]⟩
    else .done ⟨st.ticks, lookups, trace ++ [LoopEvent.sleep sleep_interval]⟩

/-- The first `cycles` passes of a loop whose pass is `body`. -/
def loop_cycles (body : LoopState → Exec LoopState) : Nat → LoopState → Exec LoopState
  | 0, st => .done st
  | cycles + 1, st =>
    match body st with
    | .fault => .fault
    | .done st' => loop_cycles body cycles st'

/-- The function `command_loop`, observed for its first `cycles` passes (the loop has no
exit).  Before the loop it builds the agent id from `GetTickCount`, reads the domain
and takes one sample of `get_sleep_interval`, with draws `rand1` and `rand2`. -/
def command_loop (cenv : ConfigEnv) (env : LoopEnv) (rand1 rand2 : Nat) (s : ConfigState)
    (cycles : Nat) : Exec LoopState :=
  let agent_id := cstr "agent-" ++ hex8 (env.tick 0)
  let domain := get_c2_domain cenv s
  let sleep_interval := get_sleep_interval cenv domain.2 rand1 rand2
  loop_cycles (command_loop_body env agent_id domain.1 sleep_interval.1) cycles ⟨1, 0, []⟩

/-- Spec-side reading of the command name: the text before the first space. -/
def command_name (s : List Byte) : List Byte := s.takeWhile (fun b => b ≠ ch ' ')

/-- Spec-side reading of "no command": NULL or the empty string, the two values that
the test `command != NULL && strlen(command) > 0` of `command_loop` turns away. -/
def no_command (command : Option (List Byte)) : Prop :=
  command = none ∨ command = some []

/-- Spec-side reading of "tasking unavailable" for the answer of the tasking lookup:
no answer, an answer that `base64_decode` rejects, or an answer that it decodes to a
buffer holding the empty string. -/
def tasking_unavailable (answer : Option (List Byte)) : Prop :=
  answer = none ∨
  (∃ a, answer = some a ∧ base64_decode a = Exec.done none) ∨
  (∃ a decoded n, answer = some a ∧ base64_decode a = Exec.done (some (decoded, n)) ∧
    c_string (decoded.take n) = [])

/-! ## Transport copy.c: tasking and responses of the framework-compatible dialect -/

namespace Mythic

/-- The fields of `MythicTask` that `dns_request_command` reads. -/
structure MythicTask where
  /-- The field `id`. -/
  id : List Byte
  /-- The field `command`. -/
  command : List Byte
  /-- The field `params`. -/
  params : List Byte
  deriving DecidableEq, Repr

/-- The functions declared in `mythic.h`, which is not among the sources: the string
returned by `mythic_get_uuid`, the message built by `mythic_create_response_message`
from a task id and a result (`none` is NULL), and the task that
`mythic_parse_tasking_message` reads from a decoded answer (`none` is `FALSE`). -/
structure MythicApi where
  /-- The string returned by `mythic_get_uuid()`. -/
  mythic_get_uuid : List Byte
  /-- The function `mythic_create_response_message`. -/
  mythic_create_response_message : List Byte → List Byte → Option (List Byte)
  /-- The function `mythic_parse_tasking_message`. -/
  mythic_parse_tasking_message : List Byte → Nat → Option MythicTask

/-- The text printed by the conversion `%d` for a non-negative `int`. -/
def decimal (i : Nat) : List Byte := (Nat.toDigits 10 i).map ch

/-- The name printed by
`sprintf_s(query, sizeof(query), "response-%s-%d-%s.%s", mythic_get_uuid(), i, encoded_chunk, domain)`. -/
def response_query (uuid : List Byte) (i : Nat) (encoded_chunk domain : List Byte) : List Byte :=
  cstr "response-" ++ uuid ++ cstr "-" ++ decimal i ++ cstr "-" ++ encoded_chunk
    ++ cstr "." ++ domain

/-- The function `dns_request_command` of `Transport copy.c`, for the stored task id
`g_current_task_id`: the lookup it makes, the returned command (`none` is NULL) and the
task id stored after the call.  The source does not use its parameter `agent_id`. -/
def dns_request_command (api : MythicApi) (g_current_task_id : List Byte)
    (domain : List Byte) (answer : Option (List Byte)) :
    Lookup × Exec (Option (List Byte) × List Byte) :=
  let query := cstr "tasking-" ++ api.mythic_get_uuid ++ cstr "." ++ domain
  let server_ip := domain
  (⟨query, server_ip⟩,
    match answer with
    | none => .done (none, g_current_task_id)
    | some encoded_command =>
      match base64_decode encoded_command with
      | .fault => .fault
      | .done none => .done (none, g_current_task_id)
      | .done (some (decoded_command, decoded_size)) =>
        match api.mythic_parse_tasking_message decoded_command decoded_size with
        | some task => .done (some (task.command ++ cstr " " ++ task.params), task.id)
        | none => .done (none, g_current_task_id))

/-- The `for` loop of `dns_send_result` of `Transport copy.c` from index `i`, with
`todo = num_chunks - i` passes left, over the response message `mythic_response`. -/
def send_loop (api : MythicApi) (mythic_response domain : List Byte)
    (answers : Nat → Option (List Byte)) (num_chunks : Nat) :
    Nat → Nat → List ChunkQuery → Bool × List ChunkQuery
  | 0, _, sent => (true, sent)
  | todo + 1, i, sent =>
    let response_len := mythic_response.length
    let chunk_size :=
      if i = num_chunks - 1 then response_len - i * MAX_DNS_CHUNK_SIZE else MAX_DNS_CHUNK_SIZE
    let chunk := (mythic_response.drop (i * MAX_DNS_CHUNK_SIZE)).take chunk_size
    let encoded_chunk := (base64_encode chunk).1
    let query := response_query api.mythic_get_uuid i encoded_chunk domain
    let sent := sent ++ [⟨i, chunk, query, domain⟩]
    if acknowledged (answers i) then
      send_loop api mythic_response domain answers num_chunks todo (i + 1) sent
    else (false, sent)

/-- The function `dns_send_result` of `Transport copy.c`, for the stored task id
`g_current_task_id` (`none` for `result` is the NULL pointer): the return value and the
chunk queries issued, in order.  The source does not use its parameters `agent_id` and
`result_id`. -/
def dns_send_result (api : MythicApi) (g_current_task_id : List Byte)
    (result : Option (List Byte)) (domain : List Byte) (answers : Nat → Option (List Byte)) :
    Bool × List ChunkQuery :=
  match result with
  | none => (false, [])
  | some result =>
    match api.mythic_create_response_message g_current_task_id result with
    | none => (false, [])
    | some mythic_response =>
      let response_len := mythic_response.length
      let num_chunks := (response_len + MAX_DNS_CHUNK_SIZE - 1) / MAX_DNS_CHUNK_SIZE
      send_loop api mythic_response domain answers num_chunks num_chunks 0 []

/-- The query that pass `i` of the loop of `dns_send_result` of `Transport copy.c`
issues, as a function of the loop index. -/
def chunk_query (api : MythicApi) (mythic_response domain : List Byte) (num_chunks i : Nat) :
    ChunkQuery :=
  ⟨i,
   (mythic_response.drop (i * MAX_DNS_CHUNK_SIZE)).take
     (if i = num_chunks - 1 then mythic_response.length - i * MAX_DNS_CHUNK_SIZE
      else MAX_DNS_CHUNK_SIZE),
   response_query api.mythic_get_uuid i
     (base64_encode ((mythic_response.drop (i * MAX_DNS_CHUNK_SIZE)).take
       (if i = num_chunks - 1 then mythic_response.length - i * MAX_DNS_CHUNK_SIZE
        else MAX_DNS_CHUNK_SIZE))).1 domain,
   domain⟩

end Mythic

/-! ## Transport.c: the two resolver clients and the remaining operations; Checkin.c -/

/-- The query option `DNS_QUERY_STANDARD` of `windns.h`. -/
def DNS_QUERY_STANDARD : Nat := 0x00000000

/-- The query option `DNS_QUERY_BYPASS_CACHE` of `windns.h`. -/
def DNS_QUERY_BYPASS_CACHE : Nat := 0x00000008

/-- The arguments that a resolver client passes to each of its calls of `DnsQuery_A` and
that select what is looked up and where: the name, the options and the server list
`pExtra`.  For the server list, `none` is NULL: no list is given and the lookup goes to
the DNS servers configured in the system; otherwise it holds the address strings whose
`inet_addr` values fill the `IP4_ARRAY`. -/
structure DnsQueryArgs where
  /-- The name to query. -/
  name : List Byte
  /-- The query options. -/
  options : Nat
  /-- The server list. -/
  servers : Option (List (List Byte))
  deriving DecidableEq, Repr

/-- The arguments of the calls of `DnsQuery_A` made by `dns_txt_query(query)`:
`DNS_QUERY_STANDARD` and NULL for the server list. -/
def dns_txt_query_args (query : List Byte) : DnsQueryArgs :=
  ⟨query, DNS_QUERY_STANDARD, none⟩

/-- The arguments of the calls of `DnsQuery_A` made by
`dns_txt_query_with_server(query, server_ip)`: `DNS_QUERY_BYPASS_CACHE` and a list of
one server, `server_ip`. -/
def dns_txt_query_with_server_args (query server_ip : List Byte) : DnsQueryArgs :=
  ⟨query, DNS_QUERY_BYPASS_CACHE, some [server_ip]⟩

/-- The function `dns_txt_query` of `Transport.c`, for the outcomes `replies` of its
successive lookups: its retry loop is that of `dns_txt_query_with_server`. -/
def dns_txt_query (replies : Nat → DnsReply) : TxtQueryRun :=
  txt_query_loop replies MAX_DNS_RETRIES 0 0

/-- The arguments of `DnsQuery_A` for a recorded call of `dns_txt_query_with_server`. -/
def Lookup.args (l : Lookup) : DnsQueryArgs :=
  dns_txt_query_with_server_args l.query l.server_ip

/-- The arguments of `DnsQuery_A` for a chunk query of `dns_send_result`, which is a call
of `dns_txt_query_with_server`. -/
def ChunkQuery.args (q : ChunkQuery) : DnsQueryArgs :=
  dns_txt_query_with_server_args q.query q.server_ip

/-- The function `dns_check_server`, for the outcomes `replies` of the lookups that its
call of `dns_txt_query_with_server` makes: the lookup and the return value
`response != NULL`. -/
def dns_check_server (domain : List Byte) (replies : Nat → DnsReply) : Lookup × Bool :=
  let query := cstr "cmd.test-agent." ++ domain
  let server_ip := domain
  let response := (dns_txt_query_with_server replies).result
  (⟨query, server_ip⟩, response.isSome)

/-- The function `dns_send_heartbeat`: the arguments of the lookups it makes and the
return value.  `hostname`, `username` and `timestamp` are what `get_hostname`,
`get_username` and `get_timestamp` return (`none` is NULL); `answer` is what
`dns_txt_query` returns. -/
def dns_send_heartbeat (agent_id domain : List Byte)
    (hostname username timestamp : Option (List Byte)) (answer : Option (List Byte)) :
    List DnsQueryArgs × Bool :=
  match hostname, username, timestamp with
  | some hostname, some username, some timestamp =>
    let heartbeat_data :=
      cstr "host=" ++ hostname ++ cstr ";user=" ++ username ++ cstr ";time=" ++ timestamp
    let encoded_data := (base64_encode heartbeat_data).1
    let query := cstr "heartbeat." ++ agent_id ++ cstr "." ++ encoded_data ++ cstr "." ++ domain
    ([dns_txt_query_args query], acknowledged answer)
  | _, _, _ => ([], false)

/-- The function `dns_register_agent`: the arguments of the lookups it makes and the
returned agent id (`none` is NULL).  `hostname` and `username` are what `get_hostname`
and `get_username` return; `answer` is what `dns_txt_query` returns. -/
def dns_register_agent (domain : List Byte) (hostname username : Option (List Byte))
    (answer : Option (List Byte)) : List DnsQueryArgs × Option (List Byte) :=
  match hostname, username with
  | some hostname, some username =>
    let reg_data := cstr "host=" ++ hostname ++ cstr ";user=" ++ username
    let encoded_data := (base64_encode reg_data).1
    let query := cstr "register." ++ encoded_data ++ cstr "." ++ domain
    ([dns_txt_query_args query], answer)
  | _, _ => ([], none)

/-- The function `dns_unregister_agent`: the arguments of the lookup it makes and the
return value; `answer` is what `dns_txt_query` returns. -/
def dns_unregister_agent (agent_id domain : List Byte) (answer : Option (List Byte)) :
    List DnsQueryArgs × Bool :=
  let query := cstr "unregister." ++ agent_id ++ cstr "." ++ domain
  ([dns_txt_query_args query], acknowledged answer)

/-- The function `dns_get_config`: the arguments of the lookup it makes and the
returned configuration string (`none` is NULL); `answer` is what `dns_txt_query`
returns.  The returned buffer holds the `decoded_size` decoded bytes followed by a NUL. -/
def dns_get_config (agent_id domain : List Byte) (answer : Option (List Byte)) :
    List DnsQueryArgs × Exec (Option (List Byte)) :=
  let query := cstr "config." ++ agent_id ++ cstr "." ++ domain
  ([dns_txt_query_args query],
    match answer with
    | none => .done none
    | some encoded_config =>
      match base64_decode encoded_config with
      | .fault => .fault
      | .done none => .done none
      | .done (some (decoded_config, decoded_size)) =>
        .done (some (c_string (decoded_config.take decoded_size))))

/-- The function `perform_checkin` of `Checkin.c`: the return value, the chunk queries
issued and the configuration state after the call.  `system_info` is what
`get_system_info` returns (`none` is NULL); `answers k` is what
`dns_txt_query_with_server` returns for the `k`-th chunk query. -/
def perform_checkin (cenv : ConfigEnv) (s : ConfigState) (system_info : Option (List Byte))
    (answers : Nat → Option (List Byte)) : (Bool × List ChunkQuery) × ConfigState :=
  match system_info with
  | none => ((false, []), s)
  | some system_info =>
    let agent_id := get_agent_id cenv s
    let domain := get_c2_domain cenv agent_id.2
    let result_id := cstr "checkin"
    (dns_send_result agent_id.1 result_id (some system_info) domain.1 answers, domain.2)

/-- The function `create_package` for a `PackageType` value given by its integer value
`type`, which need not be the value of an enumerator (a C enumeration holds any value
of its underlying type; `parse_package` stores `(PackageType)package[0]`):
`package[0] = (unsigned char)type`. -/
def create_package_of_code (type : Nat) (data : List Byte) : List Byte × Nat :=
  let data_len := data.length
  let package_len := (1 + 4 + data_len) % 2 ^ 64
  let package :=
    [ toByte type,
      toByte (data_len &&& 0xFF),
      toByte ((data_len >>> 8) &&& 0xFF),
      toByte ((data_len >>> 16) &&& 0xFF),
      toByte ((data_len >>> 24) &&& 0xFF) ] ++ data
  (package, package_len)

/-! ## Definitions used to state the properties of the poll loop, the decoder and the parser -/

/-- The delays passed to `Sleep` in a trace of `command_loop`, oldest first. -/
def sleeps (trace : List LoopEvent) : List Nat :=
  trace.filterMap (fun e => match e with
    | LoopEvent.sleep ms => some ms
    | _ => none)

/-- The tasking lookups in a trace of `command_loop`, oldest first. -/
def tasking_lookups (trace : List LoopEvent) : List Lookup :=
  trace.filterMap (fun e => match e with
    | LoopEvent.tasking lookup => some lookup
    | _ => none)

/-- The result queries in a trace of `command_loop`, oldest first. -/
def result_queries (trace : List LoopEvent) : List ChunkQuery :=
  (trace.filterMap (fun e => match e with
    | LoopEvent.send _ _ queries _ => some queries
    | _ => none)).flatten

/-- Spec-side reading of a delay jittered afresh for cycle `k`: the value of a sample of
`get_sleep_interval` taken for that cycle, which consumes the values number `2 k` and
`2 k + 1` of `rand()`. -/
def fresh_sleep (cenv : ConfigEnv) (s : ConfigState) (rand : Nat → Nat) (k : Nat) : Nat :=
  (get_sleep_interval cenv s (rand (2 * k)) (rand (2 * k + 1))).1

/-- Spec-side substitution: every character outside the alphabet and other than `'='`
is replaced by `'A'`. -/
def replace_invalid (data : List Byte) : List Byte :=
  data.map (fun c => if alphabet_symbol c ∨ c = ch '=' then c else ch 'A')

/-- Spec-side value of a character of a group: its index in the alphabet, `0` for `'='`,
and `-1` for every other character. -/
def symbol_value (c : Byte) : Int :=
  if c = ch '=' then 0 else base64_char_value c

/-- Spec-side reading of the three bytes of a group of four characters: the low 24 bits
of `v_a * 2^18 + v_b * 2^12 + v_c * 2^6 + v_d`, most significant byte first. -/
def group_bytes (a b c d : Byte) : List Byte :=
  let g := ((symbol_value a * 2 ^ 18 + symbol_value b * 2 ^ 12 + symbol_value c * 2 ^ 6
    + symbol_value d) % 2 ^ 24).toNat
  [toByte (g / 65536), toByte (g / 256), toByte g]

/-- Spec-side reading of the decoded bytes of all groups of an input, before the cut at
the output length. -/
def decoded_groups : List Byte → List Byte
  | a :: b :: c :: d :: rest => group_bytes a b c d ++ decoded_groups rest
  | _ => []

/-- Spec-side reading of a date written as the number `YYYYMMDD`: calendar year, month
counted from 1 and day of the month. -/
def yyyymmdd (year month day : Nat) : Nat :=
  year * 10000 + month * 100 + day

/-- Spec-side reading of the arguments: the text after the first space (empty when there
is no space). -/
def after_first_space (s : List Byte) : List Byte :=
  (s.dropWhile (fun b => b ≠ ch ' ')).drop 1

/-! ## Machine arithmetic and `parse_package` -/

theorem or_shift_bytes (a b c d : Nat) (ha : a < 256) (hb : b < 256) (hc : c < 256) :
    a ||| (b <<< 8) ||| (c <<< 16) ||| (d <<< 24) = a + 256 * b + 65536 * c + 16777216 * d := by
  have h1 : a ||| (b <<< 8) = 2 ^ 8 * b + a := by
    rw [Nat.shiftLeft_eq, Nat.lor_comm, Nat.mul_comm b]
    exact (Nat.mul_add_lt_is_or (by omega) b).symm
  have h2 : (2 ^ 8 * b + a) ||| (c <<< 16) = 2 ^ 16 * c + (2 ^ 8 * b + a) := by
    rw [Nat.shiftLeft_eq, Nat.lor_comm, Nat.mul_comm c]
    exact (Nat.mul_add_lt_is_or (by omega) c).symm
  have h3 : (2 ^ 16 * c + (2 ^ 8 * b + a)) ||| (d <<< 24) = 2 ^ 24 * d + (2 ^ 16 * c + (2 ^ 8 * b + a)) := by
    rw [Nat.shiftLeft_eq, Nat.lor_comm, Nat.mul_comm d]
    exact (Nat.mul_add_lt_is_or (by omega) d).symm
  rw [h1, h2, h3]
  omega

theorem mask_byte (x : Nat) : x &&& 0xFF = x % 256 := by
  have := Nat.and_pow_two_sub_one_eq_mod x 8
  simpa using this

theorem mask_sextet (x : Nat) : x &&& 0x3F = x % 64 := by
  have := Nat.and_pow_two_sub_one_eq_mod x 6
  simpa using this

/-- The length expression of `parse_package`, as a function of the four length bytes. -/
theorem length_field_nat (a b c d : Nat) (ha : a < 256) (hb : b < 256) (hc : c < 256)
    (hd : d < 256) :
    size_t_of_int (int_of_bits (a ||| (b <<< 8) ||| (c <<< 16) ||| (d <<< 24)))
      = if d < 128 then a + 256 * b + 65536 * c + 16777216 * d
        else a + 256 * b + 65536 * c + 16777216 * d + (2 ^ 64 - 2 ^ 32) := by
  rw [or_shift_bytes _ _ _ _ ha hb hc]
  unfold size_t_of_int int_of_bits
  split_ifs with h1 h2 h2
  · omega
  · omega
  · omega
  · omega

theorem length_field_value (p1 p2 p3 p4 : Byte) :
    size_t_of_int (int_of_bits (p1.val ||| (p2.val <<< 8) ||| (p3.val <<< 16) ||| (p4.val <<< 24)))
      = if p4.val < 128 then p1.val + 256 * p2.val + 65536 * p3.val + 16777216 * p4.val
        else p1.val + 256 * p2.val + 65536 * p3.val + 16777216 * p4.val + (2 ^ 64 - 2 ^ 32) :=
  length_field_nat _ _ _ _ p1.isLt p2.isLt p3.isLt p4.isLt

/-- The run of `parse_package` on a buffer of at least five bytes. -/
theorem parse_package_cons (p0 p1 p2 p3 p4 : Byte) (rest : List Byte) :
    parse_package (some (p0 :: p1 :: p2 :: p3 :: p4 :: rest))
      = if size_t_of_int (int_of_bits (p1.val ||| (p2.val <<< 8) ||| (p3.val <<< 16) ||| (p4.val <<< 24)))
            > rest.length then .done none
        else .done (some ⟨p0.val,
          size_t_of_int (int_of_bits (p1.val ||| (p2.val <<< 8) ||| (p3.val <<< 16) ||| (p4.val <<< 24))),
          rest.take (size_t_of_int (int_of_bits (p1.val ||| (p2.val <<< 8) ||| (p3.val <<< 16) ||| (p4.val <<< 24))))⟩) := by
  have h5 : ¬ (rest.length + 1 + 1 + 1 + 1 + 1 < 5) := by omega
  simp only [parse_package, List.length_cons, readAt, List.get?_cons_zero, List.get?_cons_succ,
    if_neg h5, bind, Exec.bind, readRange, Nat.add_sub_cancel, List.drop_succ_cons, List.drop_zero]
  generalize size_t_of_int (int_of_bits (p1.val ||| (p2.val <<< 8) ||| (p3.val <<< 16) ||| (p4.val <<< 24))) = n
  by_cases hn : n > rest.length
  · simp [hn]
  · have : 5 + n ≤ rest.length + 1 + 1 + 1 + 1 + 1 := by omega
    simp [hn, this]

/-! ## Properties of the package codec -/

theorem code_lt (T : PackageType) : T.code < 256 := by
  cases T <;> decide

/-- The run of `parse_package` on the output of `create_package`, for a payload whose
length fits the 4-byte length field. -/
theorem parse_create_package (T : PackageType) (b : List Byte) (h : b.length < 2 ^ 32) :
    parse_package (some (create_package T b).1)
      = if b.length < 2 ^ 31 then .done (some ⟨T.code, b.length, b⟩) else .done none := by
  have hc := code_lt T
  simp only [create_package, List.cons_append, List.nil_append, parse_package_cons,
    mask_byte, Nat.shiftRight_eq_div_pow, toByte]
  rw [length_field_nat _ _ _ _ (Nat.mod_lt _ (by decide)) (Nat.mod_lt _ (by decide))
    (Nat.mod_lt _ (by decide)) (Nat.mod_lt _ (by decide))]
  have e4 : b.length / 2 ^ 24 % 256 % 256 < 128 ↔ b.length < 2 ^ 31 := by omega
  have e5 : b.length % 256 % 256 + 256 * (b.length / 2 ^ 8 % 256 % 256)
      + 65536 * (b.length / 2 ^ 16 % 256 % 256) + 16777216 * (b.length / 2 ^ 24 % 256 % 256)
      = b.length := by omega
  simp only [e4, e5]
  by_cases hlt : b.length < 2 ^ 31
  · simp only [if_pos hlt, gt_iff_lt, Nat.lt_irrefl, if_false, List.take_length]
    congr 3
    omega
  · have : b.length + (2 ^ 64 - 2 ^ 32) > b.length := by omega
    simp only [if_neg hlt, this, if_true]

/-- C1 (package round trip), evaluated at a payload of `2 ^ 31` bytes: the length byte
`package[4]` is `0x80`, the `int` length expression is negative and sign-extends to
`0xFFFFFFFF80000000` in `*data_len`, so `parse_package` returns `FALSE` on the package
that `create_package` built. -/
theorem parse_package_create_package_two_gib :
    parse_package (some (create_package PackageType.PACKAGE_TYPE_COMMAND
      (List.replicate (2 ^ 31) 0)).1) = Exec.done none := by
  have hlen : (List.replicate (2 ^ 31) (0 : Byte)).length = 2 ^ 31 := List.length_replicate _ _
  rw [parse_create_package _ _ (by rw [hlen]; norm_num), hlen]
  rfl

/-- C6: `parse_package` returns `FALSE` (stores no payload) on every buffer shorter than
5 bytes and on every buffer of `n ≥ 5` bytes whose bytes 1..4, read as a little-endian
32-bit length, declare more than `n - 5` payload bytes.  The run ends with `Exec.done`,
so no byte at an index `≥ n` is read. -/
theorem parse_package_rejects (package : List Byte)
    (h : package.length < 5 ∨
      (5 ≤ package.length ∧ declared_length package > package.length - 5)) :
    parse_package (some package) = Exec.done none := by
  rcases h with h | ⟨h5, hd⟩
  · simp [parse_package, h]
  · match package, h5, hd with
    | p0 :: p1 :: p2 :: p3 :: p4 :: rest, _, hd =>
      rw [parse_package_cons, length_field_value]
      simp only [declared_length, List.getD_cons_succ, List.getD_cons_zero, List.length_cons,
        Nat.add_sub_cancel] at hd
      have hgt : (if p4.val < 128 then p1.val + 256 * p2.val + 65536 * p3.val + 16777216 * p4.val
          else p1.val + 256 * p2.val + 65536 * p3.val + 16777216 * p4.val + (2 ^ 64 - 2 ^ 32))
          > rest.length := by
        split_ifs <;> omega
      rw [if_pos hgt]

/-- Witness for C6: a 3-byte buffer, and a 6-byte buffer that declares 9 payload bytes. -/
theorem parse_package_rejects_witness :
    parse_package (some [1, 2, 3]) = Exec.done none ∧
    parse_package (some [1, 9, 0, 0, 0, 7]) = Exec.done none :=
  ⟨parse_package_rejects [1, 2, 3] (Or.inl (by decide)),
   parse_package_rejects [1, 9, 0, 0, 0, 7] (Or.inr (by decide))⟩

/-- C7: for a payload `b` of at most `2 ^ 32 - 1` bytes, `create_package` reports the
length `5 + len b` and returns a buffer of that length whose byte 0 is the type code
(`0x01` command, `0x02` result, `0x03` file, `0x04` sysinfo, `0x05` error), whose bytes
1..4 are `len b` in little-endian order and whose bytes from index 5 on are `b`. -/
theorem create_package_layout (T : PackageType) (b : List Byte) (h : b.length ≤ 2 ^ 32 - 1) :
    (create_package T b).2 = 5 + b.length ∧
    (create_package T b).1.length = 5 + b.length ∧
    ((create_package T b).1.get? 0).map Fin.val = some T.code ∧
    (∃ l0 l1 l2 l3 : Byte,
      (create_package T b).1.get? 1 = some l0 ∧ (create_package T b).1.get? 2 = some l1 ∧
      (create_package T b).1.get? 3 = some l2 ∧ (create_package T b).1.get? 4 = some l3 ∧
      l0.val = b.length % 256 ∧ l1.val = b.length / 256 % 256 ∧
      l2.val = b.length / 256 ^ 2 % 256 ∧ l3.val = b.length / 256 ^ 3 % 256 ∧
      l0.val + 256 * l1.val + 256 ^ 2 * l2.val + 256 ^ 3 * l3.val = b.length) ∧
    (create_package T b).1.drop 5 = b ∧
    (PackageType.PACKAGE_TYPE_COMMAND.code = 0x01 ∧ PackageType.PACKAGE_TYPE_RESULT.code = 0x02 ∧
      PackageType.PACKAGE_TYPE_FILE.code = 0x03 ∧ PackageType.PACKAGE_TYPE_SYSINFO.code = 0x04 ∧
      PackageType.PACKAGE_TYPE_ERROR.code = 0x05) := by
  have hc := code_lt T
  refine ⟨?_, ?_, ?_, ?_, ?_, ⟨rfl, rfl, rfl, rfl, rfl⟩⟩
  · simp only [create_package]
    omega
  · simp only [create_package, List.cons_append, List.nil_append, List.length_cons]
    omega
  · simp only [create_package, List.cons_append, List.nil_append, List.get?_cons_zero,
      Option.map_some', toByte]
    congr 1
    omega
  · refine ⟨toByte (b.length &&& 0xFF), toByte ((b.length >>> 8) &&& 0xFF),
      toByte ((b.length >>> 16) &&& 0xFF), toByte ((b.length >>> 24) &&& 0xFF),
      rfl, rfl, rfl, rfl, ?_⟩
    simp only [toByte, mask_byte, Nat.shiftRight_eq_div_pow]
    omega
  · simp [create_package]

/-- Witness for C7: the error package of the three bytes `1, 2, 3`. -/
theorem create_package_layout_witness :
    (create_package PackageType.PACKAGE_TYPE_ERROR [1, 2, 3]).2 = 5 + 3 ∧
    (create_package PackageType.PACKAGE_TYPE_ERROR [1, 2, 3]).1 = [5, 3, 0, 0, 0, 1, 2, 3] :=
  ⟨(create_package_layout PackageType.PACKAGE_TYPE_ERROR [1, 2, 3] (by decide)).1, by decide⟩

/-! ## The encoding loops -/

theorem encode_group_length (a b c : Nat) : (encode_group a b c).length = 4 := rfl

theorem encode_loop_length : ∀ data : List Byte,
    (encode_loop data).length = 4 * ((data.length + 2) / 3)
  | [] => rfl
  | [_] => by simp [encode_loop, encode_group]
  | [_, _] => by simp [encode_loop, encode_group]
  | _ :: _ :: _ :: rest => by
    rw [encode_loop, List.length_append, encode_group_length, encode_loop_length rest]
    simp only [List.length_cons]
    omega

theorem pad_loop_succ (L k : Nat) (buf : List Byte) :
    pad_loop L (k + 1) buf = (pad_loop L k buf).set (L - 1 - k) (ch '=') := by
  simp [pad_loop, List.range_succ, List.foldl_append]

theorem pad_loop_eq (L : Nat) (buf : List Byte) (hL : buf.length = L) :
    ∀ k, k ≤ L → pad_loop L k buf = buf.take (L - k) ++ List.replicate k (ch '=')
  | 0, _ => by simp [pad_loop, ← hL]
  | k + 1, hk => by
    rw [pad_loop_succ, pad_loop_eq L buf hL k (by omega)]
    have hlen : (buf.take (L - k)).length = L - k := by
      rw [List.length_take]; omega
    rw [List.set_append_left _ _ (by rw [hlen]; omega)]
    rw [List.set_eq_take_append_cons_drop, if_pos (by rw [hlen]; omega)]
    have e1 : L - 1 - k = L - (k + 1) := by omega
    have e2 : (buf.take (L - k)).drop (L - (k + 1) + 1) = [] := by
      apply List.drop_eq_nil_of_le
      rw [hlen]; omega
    have e3 : (buf.take (L - k)).take (L - (k + 1)) = buf.take (L - (k + 1)) := by
      rw [List.take_take]
      congr 1
      omega
    rw [e1, e2, e3, List.replicate_succ]
    simp

set_option maxRecDepth 100000 in
theorem table_at_fin : ∀ i : Fin 64,
    alphabet_symbol (table_at i.val) ∧ table_at i.val ≠ ch '=' ∧
      sextet (table_at i.val) = i.val := by
  decide

theorem table_at_spec (i : Nat) (h : i < 64) :
    alphabet_symbol (table_at i) ∧ table_at i ≠ ch '=' ∧ sextet (table_at i) = i :=
  table_at_fin ⟨i, h⟩

set_option maxRecDepth 100000 in
theorem alphabet_symbol_ne_pad (c : Byte) (h : alphabet_symbol c) : c ≠ ch '=' := by
  revert c
  decide

theorem encode_group_alphabet (a b c : Nat) : ∀ x ∈ encode_group a b c, alphabet_symbol x := by
  intro x hx
  simp only [encode_group, mask_sextet, List.mem_cons, List.mem_singleton, List.not_mem_nil,
    or_false] at hx
  rcases hx with h | h | h | h <;> rw [h] <;> exact (table_at_spec _ (Nat.mod_lt _ (by decide))).1

theorem encode_loop_alphabet : ∀ data : List Byte, ∀ x ∈ encode_loop data, alphabet_symbol x
  | [], x, hx => by simp [encode_loop] at hx
  | [_], x, hx => encode_group_alphabet _ _ _ x (by simpa [encode_loop] using hx)
  | [_, _], x, hx => encode_group_alphabet _ _ _ x (by simpa [encode_loop] using hx)
  | _ :: _ :: _ :: rest, x, hx => by
    rw [encode_loop, List.mem_append] at hx
    rcases hx with h | h
    · exact encode_group_alphabet _ _ _ x h
    · exact encode_loop_alphabet rest x h

/-- The padding count is at most the output length. -/
theorem pad_count_le (n : Nat) : (3 - n % 3) % 3 ≤ 4 * ((n + 2) / 3) := by omega

/-- The output of `base64_encode`: the characters of the first loop with the last
`(3 - n % 3) % 3` of them replaced by `'='`. -/
theorem base64_encode_fst (data : List Byte) :
    (base64_encode data).1
      = (encode_loop data).take (4 * ((data.length + 2) / 3) - (3 - data.length % 3) % 3)
          ++ List.replicate ((3 - data.length % 3) % 3) (ch '=') := by
  simp only [base64_encode]
  exact pad_loop_eq _ _ (encode_loop_length data) _ (pad_count_le _)

theorem ceil_div_three (n : Nat) : ⌈(n : ℚ) / 3⌉₊ = (n + 2) / 3 := by
  rcases Nat.eq_zero_or_pos ((n + 2) / 3) with h0 | hpos
  · have hn : n = 0 := by omega
    subst hn
    simp
  · rw [Nat.ceil_eq_iff (by omega)]
    have h1 : 3 * ((n + 2) / 3 - 1) < n := by omega
    have h2 : n ≤ 3 * ((n + 2) / 3) := by omega
    constructor
    · rw [lt_div_iff₀ (by norm_num)]
      exact_mod_cast (by omega : ((n + 2) / 3 - 1) * 3 < n)
    · rw [div_le_iff₀ (by norm_num)]
      exact_mod_cast (by omega : n ≤ ((n + 2) / 3) * 3)

/-! ## Decoding what was encoded -/

theorem toByte_val (a : Byte) : toByte a.val = a := by
  apply Fin.ext
  simp only [toByte]
  exact Nat.mod_eq_of_lt a.isLt

theorem toByte_eq (x : Nat) (a : Byte) (h : x = a.val) : toByte x = a := by
  rw [h, toByte_val]

theorem decode_loop_cons4 (n : Nat) (x0 x1 x2 x3 : Byte) (rest out : List Byte) :
    decode_loop n (x0 :: x1 :: x2 :: x3 :: rest) out
      = decode_loop n rest
          (store_if n (store_if n (store_if n out
            ((decode_triple (sextet x0) (sextet x1) (sextet x2) (sextet x3) >>> 16) &&& 0xFF))
            ((decode_triple (sextet x0) (sextet x1) (sextet x2) (sextet x3) >>> 8) &&& 0xFF))
            (decode_triple (sextet x0) (sextet x1) (sextet x2) (sextet x3) &&& 0xFF)) := by
  simp only [decode_loop]

theorem sextet_pad : sextet (ch '=') = 0 := by decide

theorem sextet_table (i : Nat) (h : i < 64) : sextet (table_at i) = i :=
  (table_at_spec i h).2.2

/-- The four characters of a pass of the encoding loop, with shifts and masks written as
division and remainder. -/
theorem encode_group_eq (a b c : Nat) (ha : a < 256) (hb : b < 256) (hc : c < 256) :
    encode_group a b c
      = [ table_at ((a * 65536 + b * 256 + c) / 262144 % 64),
          table_at ((a * 65536 + b * 256 + c) / 4096 % 64),
          table_at ((a * 65536 + b * 256 + c) / 64 % 64),
          table_at ((a * 65536 + b * 256 + c) % 64) ] := by
  have hT : (a <<< 16 + b <<< 8 + c) % 2 ^ 32 = a * 65536 + b * 256 + c := by
    simp only [Nat.shiftLeft_eq]
    omega
  simp only [encode_group, hT, mask_sextet, Nat.shiftRight_eq_div_pow]

theorem decode_triple_eq (s0 s1 s2 s3 : Nat) (h0 : s0 < 64) (h1 : s1 < 64) (h2 : s2 < 64)
    (h3 : s3 < 64) :
    decode_triple s0 s1 s2 s3 = s0 * 262144 + s1 * 4096 + s2 * 64 + s3 := by
  simp only [decode_triple, Nat.shiftLeft_eq]
  omega

/-- Decoding the four characters of a full pass of the encoding loop stores the three
octets back, when there is room for them. -/
theorem decode_loop_group (n : Nat) (a b c : Byte) (rest out : List Byte)
    (hroom : out.length + 3 ≤ n) :
    decode_loop n (encode_group a.val b.val c.val ++ rest) out
      = decode_loop n rest (out ++ [a, b, c]) := by
  have ha := a.isLt
  have hb := b.isLt
  have hc := c.isLt
  rw [encode_group_eq _ _ _ ha hb hc]
  simp only [List.cons_append, List.nil_append, decode_loop_cons4]
  rw [sextet_table _ (Nat.mod_lt _ (by decide)), sextet_table _ (Nat.mod_lt _ (by decide)),
    sextet_table _ (Nat.mod_lt _ (by decide)), sextet_table _ (Nat.mod_lt _ (by decide)),
    decode_triple_eq _ _ _ _ (Nat.mod_lt _ (by decide)) (Nat.mod_lt _ (by decide))
      (Nat.mod_lt _ (by decide)) (Nat.mod_lt _ (by decide))]
  simp only [mask_byte, Nat.shiftRight_eq_div_pow]
  have e1 : toByte (((a.val * 65536 + b.val * 256 + c.val) / 262144 % 64 * 262144
      + (a.val * 65536 + b.val * 256 + c.val) / 4096 % 64 * 4096
      + (a.val * 65536 + b.val * 256 + c.val) / 64 % 64 * 64
      + (a.val * 65536 + b.val * 256 + c.val) % 64) / 2 ^ 16 % 256) = a :=
    toByte_eq _ _ (by omega)
  have e2 : toByte (((a.val * 65536 + b.val * 256 + c.val) / 262144 % 64 * 262144
      + (a.val * 65536 + b.val * 256 + c.val) / 4096 % 64 * 4096
      + (a.val * 65536 + b.val * 256 + c.val) / 64 % 64 * 64
      + (a.val * 65536 + b.val * 256 + c.val) % 64) / 2 ^ 8 % 256) = b :=
    toByte_eq _ _ (by omega)
  have e3 : toByte (((a.val * 65536 + b.val * 256 + c.val) / 262144 % 64 * 262144
      + (a.val * 65536 + b.val * 256 + c.val) / 4096 % 64 * 4096
      + (a.val * 65536 + b.val * 256 + c.val) / 64 % 64 * 64
      + (a.val * 65536 + b.val * 256 + c.val) % 64) % 256) = c :=
    toByte_eq _ _ (by omega)
  have s1 : store_if n out (((a.val * 65536 + b.val * 256 + c.val) / 262144 % 64 * 262144
      + (a.val * 65536 + b.val * 256 + c.val) / 4096 % 64 * 4096
      + (a.val * 65536 + b.val * 256 + c.val) / 64 % 64 * 64
      + (a.val * 65536 + b.val * 256 + c.val) % 64) / 2 ^ 16 % 256) = out ++ [a] := by
    rw [store_if, if_pos (by omega), e1]
  have s2 : store_if n (out ++ [a]) (((a.val * 65536 + b.val * 256 + c.val) / 262144 % 64 * 262144
      + (a.val * 65536 + b.val * 256 + c.val) / 4096 % 64 * 4096
      + (a.val * 65536 + b.val * 256 + c.val) / 64 % 64 * 64
      + (a.val * 65536 + b.val * 256 + c.val) % 64) / 2 ^ 8 % 256) = out ++ [a] ++ [b] := by
    rw [store_if, if_pos (by simp only [List.length_append, List.length_singleton]; omega), e2]
  have s3 : store_if n (out ++ [a] ++ [b]) (((a.val * 65536 + b.val * 256 + c.val) / 262144 % 64 * 262144
      + (a.val * 65536 + b.val * 256 + c.val) / 4096 % 64 * 4096
      + (a.val * 65536 + b.val * 256 + c.val) / 64 % 64 * 64
      + (a.val * 65536 + b.val * 256 + c.val) % 64) % 256) = out ++ [a] ++ [b] ++ [c] := by
    rw [store_if, if_pos (by simp only [List.length_append, List.length_singleton]; omega), e3]
  rw [s1, s2, s3]
  simp

theorem base64_encode_nil : (base64_encode []).1 = [] := by decide

theorem base64_encode_one (a : Byte) :
    (base64_encode [a]).1
      = [ table_at (a.val * 65536 / 262144 % 64), table_at (a.val * 65536 / 4096 % 64),
          ch '=', ch '=' ] := by
  rw [base64_encode_fst, encode_loop, encode_group_eq _ _ _ a.isLt (by decide) (by decide)]
  simp [List.replicate]

theorem base64_encode_two (a b : Byte) :
    (base64_encode [a, b]).1
      = [ table_at ((a.val * 65536 + b.val * 256) / 262144 % 64),
          table_at ((a.val * 65536 + b.val * 256) / 4096 % 64),
          table_at ((a.val * 65536 + b.val * 256) / 64 % 64), ch '=' ] := by
  rw [base64_encode_fst, encode_loop, encode_group_eq _ _ _ a.isLt b.isLt (by decide)]
  simp [List.replicate]

theorem base64_encode_cons3 (a b c : Byte) (rest : List Byte) :
    (base64_encode (a :: b :: c :: rest)).1
      = encode_group a.val b.val c.val ++ (base64_encode rest).1 := by
  rw [base64_encode_fst, base64_encode_fst, encode_loop]
  have hk : (3 - (a :: b :: c :: rest).length % 3) % 3 = (3 - rest.length % 3) % 3 := by
    simp only [List.length_cons]
    omega
  have hL : 4 * (((a :: b :: c :: rest).length + 2) / 3) - (3 - rest.length % 3) % 3
      = 4 + (4 * ((rest.length + 2) / 3) - (3 - rest.length % 3) % 3) := by
    simp only [List.length_cons]
    omega
  rw [hk, hL, List.take_append_eq_append_take, encode_group_length,
    List.take_of_length_le (by rw [encode_group_length]; omega), Nat.add_sub_cancel_left,
    List.append_assoc]

/-- Decoding the output of `base64_encode` stores the input bytes back, when the output
length leaves room for exactly them. -/
theorem decode_loop_encode : ∀ (data out : List Byte),
    decode_loop (out.length + data.length) (base64_encode data).1 out = Exec.done (out ++ data)
  | [], out => by
    rw [base64_encode_nil]
    simp [decode_loop]
  | [a], out => by
    have ha := a.isLt
    rw [base64_encode_one, decode_loop_cons4, sextet_pad,
      sextet_table _ (Nat.mod_lt _ (by decide)), sextet_table _ (Nat.mod_lt _ (by decide)),
      decode_triple_eq _ _ _ _ (Nat.mod_lt _ (by decide)) (Nat.mod_lt _ (by decide))
        (by decide) (by decide)]
    simp only [mask_byte, Nat.shiftRight_eq_div_pow, List.length_singleton]
    have e1 : toByte ((a.val * 65536 / 262144 % 64 * 262144 + a.val * 65536 / 4096 % 64 * 4096
        + 0 * 64 + 0) / 2 ^ 16 % 256) = a := toByte_eq _ _ (by omega)
    have s1 : store_if (out.length + 1) out
        ((a.val * 65536 / 262144 % 64 * 262144 + a.val * 65536 / 4096 % 64 * 4096
        + 0 * 64 + 0) / 2 ^ 16 % 256) = out ++ [a] := by
      rw [store_if, if_pos (by omega), e1]
    have s2 : ∀ v, store_if (out.length + 1) (out ++ [a]) v = out ++ [a] := by
      intro v
      rw [store_if, if_neg (by simp)]
    rw [s1, s2, s2]
    simp [decode_loop]
  | [a, b], out => by
    have ha := a.isLt
    have hb := b.isLt
    rw [base64_encode_two, decode_loop_cons4, sextet_pad,
      sextet_table _ (Nat.mod_lt _ (by decide)), sextet_table _ (Nat.mod_lt _ (by decide)),
      sextet_table _ (Nat.mod_lt _ (by decide)),
      decode_triple_eq _ _ _ _ (Nat.mod_lt _ (by decide)) (Nat.mod_lt _ (by decide))
        (Nat.mod_lt _ (by decide)) (by decide)]
    simp only [mask_byte, Nat.shiftRight_eq_div_pow, List.length_cons, List.length_nil]
    have e1 : toByte (((a.val * 65536 + b.val * 256) / 262144 % 64 * 262144
        + (a.val * 65536 + b.val * 256) / 4096 % 64 * 4096
        + (a.val * 65536 + b.val * 256) / 64 % 64 * 64 + 0) / 2 ^ 16 % 256) = a :=
      toByte_eq _ _ (by omega)
    have e2 : toByte (((a.val * 65536 + b.val * 256) / 262144 % 64 * 262144
        + (a.val * 65536 + b.val * 256) / 4096 % 64 * 4096
        + (a.val * 65536 + b.val * 256) / 64 % 64 * 64 + 0) / 2 ^ 8 % 256) = b :=
      toByte_eq _ _ (by omega)
    have s1 : store_if (out.length + (0 + 1 + 1)) out
        (((a.val * 65536 + b.val * 256) / 262144 % 64 * 262144
        + (a.val * 65536 + b.val * 256) / 4096 % 64 * 4096
        + (a.val * 65536 + b.val * 256) / 64 % 64 * 64 + 0) / 2 ^ 16 % 256) = out ++ [a] := by
      rw [store_if, if_pos (by omega), e1]
    have s2 : store_if (out.length + (0 + 1 + 1)) (out ++ [a])
        (((a.val * 65536 + b.val * 256) / 262144 % 64 * 262144
        + (a.val * 65536 + b.val * 256) / 4096 % 64 * 4096
        + (a.val * 65536 + b.val * 256) / 64 % 64 * 64 + 0) / 2 ^ 8 % 256)
        = out ++ [a] ++ [b] := by
      rw [store_if, if_pos (by simp), e2]
    have s3 : ∀ v, store_if (out.length + (0 + 1 + 1)) (out ++ [a] ++ [b]) v
        = out ++ [a] ++ [b] := by
      intro v
      rw [store_if, if_neg (by simp)]
    rw [s1, s2, s3]
    simp [decode_loop]
  | a :: b :: c :: rest, out => by
    rw [base64_encode_cons3, decode_loop_group _ _ _ _ _ _ (by simp only [List.length_cons]; omega)]
    have hn : out.length + (a :: b :: c :: rest).length = (out ++ [a, b, c]).length + rest.length := by
      simp only [List.length_cons, List.length_append, List.length_nil]
      omega
    rw [hn, decode_loop_encode rest (out ++ [a, b, c])]
    simp

theorem base64_encode_length (data : List Byte) :
    (base64_encode data).1.length = 4 * ((data.length + 2) / 3) := by
  rw [base64_encode_fst, List.length_append, List.length_take, List.length_replicate,
    encode_loop_length]
  omega

theorem base64_encode_mem (data : List Byte) :
    ∀ c ∈ (base64_encode data).1, alphabet_symbol c ∨ c = ch '=' := by
  intro c hc
  rw [base64_encode_fst, List.mem_append] at hc
  rcases hc with h | h
  · exact Or.inl (encode_loop_alphabet data c (List.mem_of_mem_take h))
  · exact Or.inr (List.eq_of_mem_replicate h)

/-- In the output of `base64_encode` the character `'='` stands exactly at the last
`(3 - n % 3) % 3` positions. -/
theorem base64_encode_pad_position (data : List Byte) (i : Nat) (c : Byte)
    (h : (base64_encode data).1[i]? = some c) :
    c = ch '=' ↔ 4 * ((data.length + 2) / 3) - (3 - data.length % 3) % 3 ≤ i := by
  rw [base64_encode_fst] at h
  have hlen : ((encode_loop data).take
      (4 * ((data.length + 2) / 3) - (3 - data.length % 3) % 3)).length
      = 4 * ((data.length + 2) / 3) - (3 - data.length % 3) % 3 := by
    rw [List.length_take, encode_loop_length]
    omega
  by_cases hi : i < 4 * ((data.length + 2) / 3) - (3 - data.length % 3) % 3
  · rw [List.getElem?_append_left (by rw [hlen]; exact hi)] at h
    have hmem : c ∈ encode_loop data := List.mem_of_mem_take (List.getElem?_mem h)
    have hne := alphabet_symbol_ne_pad c (encode_loop_alphabet data c hmem)
    constructor
    · intro hc
      exact absurd hc hne
    · intro hle
      omega
  · rw [List.getElem?_append_right (by rw [hlen]; omega)] at h
    have hmem : c ∈ List.replicate ((3 - data.length % 3) % 3) (ch '=') :=
      List.getElem?_mem h
    constructor
    · intro _
      omega
    · intro _
      exact List.eq_of_mem_replicate hmem

theorem readAt_of_lt (buf : List Byte) (i : Nat) (h : i < buf.length) :
    ∃ c, buf[i]? = some c ∧ readAt buf i = Exec.done c := by
  refine ⟨buf[i], List.getElem?_eq_getElem h, ?_⟩
  simp [readAt, List.getElem?_eq_getElem h]

/-- Decoding what `base64_encode` produced for a non-empty input gives the input back. -/
theorem base64_decode_encode (data : List Byte) (h : data ≠ []) :
    base64_decode (base64_encode data).1 = Exec.done (some (data, data.length)) := by
  have hn : 0 < data.length := List.length_pos.mpr h
  have hlen := base64_encode_length data
  obtain ⟨c1, hc1, hr1⟩ := readAt_of_lt (base64_encode data).1 (4 * ((data.length + 2) / 3) - 1)
    (by rw [hlen]; omega)
  obtain ⟨c2, hc2, hr2⟩ := readAt_of_lt (base64_encode data).1 (4 * ((data.length + 2) / 3) - 2)
    (by rw [hlen]; omega)
  have p1 := base64_encode_pad_position data _ c1 hc1
  have p2 := base64_encode_pad_position data _ c2 hc2
  have hs1 : size_t_sub (4 * ((data.length + 2) / 3)) 1 = 4 * ((data.length + 2) / 3) - 1 := by
    rw [size_t_sub, if_pos (by omega)]
  have hs2 : size_t_sub (4 * ((data.length + 2) / 3)) 2 = 4 * ((data.length + 2) / 3) - 2 := by
    rw [size_t_sub, if_pos (by omega)]
  have hmod : ¬ (4 * ((data.length + 2) / 3) % 4 ≠ 0) := by omega
  have hout : (if c2 = ch '=' then
        size_t_sub (if c1 = ch '=' then size_t_sub (4 * ((data.length + 2) / 3) / 4 * 3) 1
          else 4 * ((data.length + 2) / 3) / 4 * 3) 1
      else (if c1 = ch '=' then size_t_sub (4 * ((data.length + 2) / 3) / 4 * 3) 1
          else 4 * ((data.length + 2) / 3) / 4 * 3)) = data.length := by
    by_cases h1 : c1 = ch '=' <;> by_cases h2 : c2 = ch '='
    · have := p1.mp h1
      have := p2.mp h2
      simp only [if_pos h1, if_pos h2, size_t_sub]
      split_ifs <;> omega
    · have := p1.mp h1
      have := mt p2.mpr h2
      simp only [if_pos h1, if_neg h2, size_t_sub]
      split_ifs <;> omega
    · have := mt p1.mpr h1
      have := p2.mp h2
      omega
    · have := mt p1.mpr h1
      have := mt p2.mpr h2
      simp only [if_neg h1, if_neg h2]
      omega
  have hloop := decode_loop_encode data []
  simp only [List.length_nil, Nat.zero_add, List.nil_append] at hloop
  simp only [base64_decode, hlen, if_neg hmod, hs1, hs2, hr1, hr2, bind, Exec.bind, hout, hloop]

/-! ## Properties of the text codec -/

/-- Every input whose length is not a multiple of 4 is rejected by the length guard. -/
theorem base64_decode_rejects_length (data : List Byte) (h : data.length % 4 ≠ 0) :
    base64_decode data = Exec.done none := by
  simp [base64_decode, h]

/-- The decoding loop completes on every input whose length is a multiple of 4. -/
theorem decode_loop_completes (n : Nat) : ∀ (k : Nat) (data out : List Byte),
    data.length = 4 * k → ∃ res, decode_loop n data out = Exec.done res
  | 0, data, out, h => by
    have : data = [] := List.length_eq_zero.mp (by omega)
    subst this
    exact ⟨out, by simp [decode_loop]⟩
  | k + 1, data, out, h => by
    match data, h with
    | x0 :: x1 :: x2 :: x3 :: rest, h =>
      rw [decode_loop_cons4]
      exact decode_loop_completes n k rest _ (by simp only [List.length_cons] at h; omega)

/-- An input whose length is a positive multiple of 4 is never rejected, whatever
characters it holds: the function returns a buffer. -/
theorem base64_decode_returns_buffer (data : List Byte) (h4 : data.length % 4 = 0)
    (hne : data ≠ []) :
    ∃ decoded output_length, base64_decode data = Exec.done (some (decoded, output_length)) := by
  have hpos : 0 < data.length := List.length_pos.mpr hne
  obtain ⟨c1, _, hr1⟩ := readAt_of_lt data (data.length - 1) (by omega)
  obtain ⟨c2, _, hr2⟩ := readAt_of_lt data (data.length - 2) (by omega)
  have hs1 : size_t_sub data.length 1 = data.length - 1 := by
    rw [size_t_sub, if_pos (by omega)]
  have hs2 : size_t_sub data.length 2 = data.length - 2 := by
    rw [size_t_sub, if_pos (by omega)]
  have hmod : ¬ (data.length % 4 ≠ 0) := by omega
  simp only [base64_decode, if_neg hmod, hs1, hs2, hr1, hr2, bind, Exec.bind]
  obtain ⟨res, hres⟩ := decode_loop_completes
    (if c2 = ch '=' then
        size_t_sub (if c1 = ch '=' then size_t_sub (data.length / 4 * 3) 1
          else data.length / 4 * 3) 1
      else (if c1 = ch '=' then size_t_sub (data.length / 4 * 3) 1 else data.length / 4 * 3))
    (data.length / 4) data [] (by omega)
  rw [hres]
  exact ⟨_, _, rfl⟩

/-- C2, at the empty sequence: `base64_encode` gives the empty string, and on it
`base64_decode` passes the length guard (`0 % 4 == 0`) and reads `data[input_length - 1]`
outside the buffer, so it does not complete with the empty sequence and length 0. -/
theorem base64_roundtrip_empty_fails :
    base64_decode (base64_encode []).1 = Exec.fault ∧
    base64_decode (base64_encode []).1 ≠ Exec.done (some ([], 0)) := by
  decide

/-- C2 (amended): for every non-empty byte sequence `b`, `base64_decode` applied to the
output of `base64_encode b` succeeds and returns exactly `b`, with reported output
length `len b`. -/
theorem base64_roundtrip_nonempty (b : List Byte) (h : b ≠ []) :
    base64_decode (base64_encode b).1 = Exec.done (some (b, b.length)) :=
  base64_decode_encode b h

/-- Witness for C2 (amended): the round trip of the string `pwd`. -/
theorem base64_roundtrip_nonempty_witness :
    cstr "pwd" ≠ [] ∧
    base64_decode (base64_encode (cstr "pwd")).1 = Exec.done (some (cstr "pwd", 3)) :=
  ⟨by decide, base64_roundtrip_nonempty (cstr "pwd") (by decide)⟩

/-- C8, at the zero-length input: the guard `input_length % 4 != 0` lets it through, the
function is not left with `NULL` and the next statement reads `data[input_length - 1]`
outside the buffer. -/
theorem base64_decode_zero_length_not_rejected :
    base64_decode [] ≠ Exec.done none ∧ base64_decode [] = Exec.fault := by
  decide

/-- C9, at the input `QU!D`: the character `!` is outside the alphabet,
`base64_char_value` returns `-1` for it, and `base64_decode` still returns three decoded
bytes instead of failing. -/
theorem base64_decode_accepts_invalid_character :
    base64_char_value (ch '!') = -1 ∧
    base64_decode (cstr "QU!D") = Exec.done (some ([65, 63, 195], 3)) := by
  decide

/-- C10: for every byte sequence of length `n`, `base64_encode` reports the output length
`4 * ceil(n / 3)`, which is the number of characters it produced; every character is
one of the 64 alphabet symbols or `'='`; and `'='` stands exactly at the last
`(3 - n % 3) % 3` positions, every other position holding an alphabet symbol. -/
theorem base64_encode_shape (data : List Byte) :
    (base64_encode data).2 = 4 * ⌈(data.length : ℚ) / 3⌉₊ ∧
    (base64_encode data).1.length = (base64_encode data).2 ∧
    (∀ c ∈ (base64_encode data).1, alphabet_symbol c ∨ c = ch '=') ∧
    (∀ (i : Nat) (c : Byte), (base64_encode data).1[i]? = some c →
      ((c = ch '=' ↔ (base64_encode data).2 - (3 - data.length % 3) % 3 ≤ i) ∧
       (i < (base64_encode data).2 - (3 - data.length % 3) % 3 → alphabet_symbol c))) := by
  have h2 : (base64_encode data).2 = 4 * ((data.length + 2) / 3) := rfl
  refine ⟨?_, ?_, base64_encode_mem data, ?_⟩
  · rw [ceil_div_three, h2]
  · rw [base64_encode_length, h2]
  · intro i c hic
    have hp := base64_encode_pad_position data i c hic
    rw [h2]
    refine ⟨hp, fun hlt => ?_⟩
    rcases base64_encode_mem data c (List.getElem?_mem hic) with ha | hpad
    · exact ha
    · have := hp.mp hpad
      omega

/-! ## The sending loop -/

theorem acknowledged_iff (a : Option (List Byte)) :
    acknowledged a = true ↔ a = some (cstr "ACK") := by
  cases a with
  | none => simp [acknowledged]
  | some r => simp [acknowledged]

theorem send_loop_succ (agent_id result_id result domain : List Byte)
    (answers : Nat → Option (List Byte)) (n todo i : Nat) (sent : List ChunkQuery) :
    send_loop agent_id result_id result domain answers n (todo + 1) i sent
      = if acknowledged (answers i) then
          send_loop agent_id result_id result domain answers n todo (i + 1)
            (sent ++ [chunk_query agent_id result_id result domain n i])
        else (false, sent ++ [chunk_query agent_id result_id result domain n i]) := rfl

/-- The loop when every remaining chunk is acknowledged: all of them are sent. -/
theorem send_loop_all_ack (agent_id result_id result domain : List Byte)
    (answers : Nat → Option (List Byte)) (n : Nat) :
    ∀ (todo i : Nat) (sent : List ChunkQuery),
      (∀ k, i ≤ k → k < i + todo → answers k = some (cstr "ACK")) →
      send_loop agent_id result_id result domain answers n todo i sent
        = (true, sent ++ (List.range' i todo).map (chunk_query agent_id result_id result domain n))
  | 0, i, sent, _ => by simp [send_loop]
  | todo + 1, i, sent, h => by
    have hi : acknowledged (answers i) = true :=
      (acknowledged_iff _).mpr (h i (Nat.le_refl _) (by omega))
    rw [send_loop_succ, if_pos hi,
      send_loop_all_ack agent_id result_id result domain answers n todo (i + 1) _
        (fun k h1 h2 => h k (by omega) (by omega))]
    simp [List.range'_succ]

/-- The loop when chunk `k` is the first one not acknowledged: it stops after query `k`. -/
theorem send_loop_first_nack (agent_id result_id result domain : List Byte)
    (answers : Nat → Option (List Byte)) (n k : Nat) :
    ∀ (todo i : Nat) (sent : List ChunkQuery),
      i ≤ k → k < i + todo →
      (∀ j, i ≤ j → j < k → answers j = some (cstr "ACK")) →
      answers k ≠ some (cstr "ACK") →
      send_loop agent_id result_id result domain answers n todo i sent
        = (false, sent ++ (List.range' i (k + 1 - i)).map
            (chunk_query agent_id result_id result domain n))
  | 0, i, sent, h1, h2, _, _ => by omega
  | todo + 1, i, sent, h1, h2, hack, hnack => by
    rw [send_loop_succ]
    by_cases hik : i = k
    · subst hik
      have hi : ¬ acknowledged (answers i) = true := fun h => hnack ((acknowledged_iff _).mp h)
      rw [if_neg hi]
      simp [List.range'_succ]
    · have hi : acknowledged (answers i) = true :=
        (acknowledged_iff _).mpr (hack i (Nat.le_refl _) (by omega))
      rw [if_pos hi,
        send_loop_first_nack agent_id result_id result domain answers n k todo (i + 1) _
          (by omega) (by omega) (fun j h3 h4 => hack j (by omega) h4) hnack]
      have e : k + 1 - i = (k + 1 - (i + 1)) + 1 := by omega
      rw [e, List.range'_succ]
      simp

theorem ceil_div_chunk (n : Nat) :
    ⌈(n : ℚ) / (MAX_DNS_CHUNK_SIZE : ℚ)⌉₊ = (n + MAX_DNS_CHUNK_SIZE - 1) / MAX_DNS_CHUNK_SIZE := by
  simp only [MAX_DNS_CHUNK_SIZE]
  rcases Nat.eq_zero_or_pos ((n + 30 - 1) / 30) with h0 | hpos
  · have hn : n = 0 := by omega
    subst hn
    simp
  · rw [Nat.ceil_eq_iff (by omega)]
    constructor
    · rw [lt_div_iff₀ (by norm_num)]
      exact_mod_cast (by omega : ((n + 30 - 1) / 30 - 1) * 30 < n)
    · rw [div_le_iff₀ (by norm_num)]
      exact_mod_cast (by omega : n ≤ ((n + 30 - 1) / 30) * 30)

/-- The run of `dns_send_result` when every chunk is acknowledged. -/
theorem dns_send_result_all_ack (agent_id result_id result domain : List Byte)
    (answers : Nat → Option (List Byte))
    (h : ∀ k, k * MAX_DNS_CHUNK_SIZE < result.length → answers k = some (cstr "ACK")) :
    dns_send_result agent_id result_id (some result) domain answers
      = (true, (List.range ((result.length + MAX_DNS_CHUNK_SIZE - 1) / MAX_DNS_CHUNK_SIZE)).map
          (chunk_query agent_id result_id result domain
            ((result.length + MAX_DNS_CHUNK_SIZE - 1) / MAX_DNS_CHUNK_SIZE))) := by
  simp only [dns_send_result]
  rw [send_loop_all_ack, List.range_eq_range']
  · simp
  · intro k _ hk
    apply h
    simp only [MAX_DNS_CHUNK_SIZE] at hk ⊢
    omega

/-- The run of `dns_send_result` when chunk `k` is the first one not acknowledged. -/
theorem dns_send_result_first_nack (agent_id result_id result domain : List Byte)
    (answers : Nat → Option (List Byte)) (k : Nat)
    (hk : k * MAX_DNS_CHUNK_SIZE < result.length)
    (hack : ∀ j, j < k → answers j = some (cstr "ACK"))
    (hnack : answers k ≠ some (cstr "ACK")) :
    dns_send_result agent_id result_id (some result) domain answers
      = (false, (List.range (k + 1)).map
          (chunk_query agent_id result_id result domain
            ((result.length + MAX_DNS_CHUNK_SIZE - 1) / MAX_DNS_CHUNK_SIZE))) := by
  simp only [dns_send_result]
  rw [send_loop_first_nack agent_id result_id result domain answers _ k _ 0 []
    (Nat.zero_le _) (by simp only [MAX_DNS_CHUNK_SIZE] at hk ⊢; omega)
    (fun j _ hj => hack j hj) hnack, List.range_eq_range']
  simp

/-- Every chunk but the last has exactly `MAX_DNS_CHUNK_SIZE` bytes. -/
theorem chunk_query_full (agent_id result_id result domain : List Byte) (i : Nat)
    (hi : i + 1 < (result.length + MAX_DNS_CHUNK_SIZE - 1) / MAX_DNS_CHUNK_SIZE) :
    (chunk_query agent_id result_id result domain
      ((result.length + MAX_DNS_CHUNK_SIZE - 1) / MAX_DNS_CHUNK_SIZE) i).chunk
      = (result.drop (i * MAX_DNS_CHUNK_SIZE)).take MAX_DNS_CHUNK_SIZE ∧
    (chunk_query agent_id result_id result domain
      ((result.length + MAX_DNS_CHUNK_SIZE - 1) / MAX_DNS_CHUNK_SIZE) i).chunk.length
      = MAX_DNS_CHUNK_SIZE := by
  have hne : ¬ (i = (result.length + MAX_DNS_CHUNK_SIZE - 1) / MAX_DNS_CHUNK_SIZE - 1) := by omega
  simp only [chunk_query, if_neg hne, List.length_take, List.length_drop, true_and]
  simp only [MAX_DNS_CHUNK_SIZE] at hi ⊢
  omega

/-- The last chunk is the remainder of the result. -/
theorem chunk_query_last (agent_id result_id result domain : List Byte) (i : Nat)
    (hi : i + 1 = (result.length + MAX_DNS_CHUNK_SIZE - 1) / MAX_DNS_CHUNK_SIZE) :
    (chunk_query agent_id result_id result domain
      ((result.length + MAX_DNS_CHUNK_SIZE - 1) / MAX_DNS_CHUNK_SIZE) i).chunk
      = result.drop (i * MAX_DNS_CHUNK_SIZE) := by
  have he : i = (result.length + MAX_DNS_CHUNK_SIZE - 1) / MAX_DNS_CHUNK_SIZE - 1 := by omega
  simp only [chunk_query, if_pos he]
  apply List.take_of_length_le
  rw [List.length_drop]

/-- Chunk `i` is the slice of the result that starts at byte `i * MAX_DNS_CHUNK_SIZE` and
has at most `MAX_DNS_CHUNK_SIZE` bytes. -/
theorem chunk_query_slice (agent_id result_id result domain : List Byte) (i : Nat)
    (hi : i < (result.length + MAX_DNS_CHUNK_SIZE - 1) / MAX_DNS_CHUNK_SIZE) :
    (chunk_query agent_id result_id result domain
      ((result.length + MAX_DNS_CHUNK_SIZE - 1) / MAX_DNS_CHUNK_SIZE) i).chunk
      = (result.drop (i * MAX_DNS_CHUNK_SIZE)).take MAX_DNS_CHUNK_SIZE := by
  by_cases hlast : i + 1 = (result.length + MAX_DNS_CHUNK_SIZE - 1) / MAX_DNS_CHUNK_SIZE
  · rw [chunk_query_last agent_id result_id result domain i hlast]
    symm
    apply List.take_of_length_le
    rw [List.length_drop]
    simp only [MAX_DNS_CHUNK_SIZE] at hlast ⊢
    omega
  · exact (chunk_query_full agent_id result_id result domain i (by omega)).1

/-- The chunks of the first `m` passes, none of them the last, make up the first
`m * MAX_DNS_CHUNK_SIZE` bytes of the result. -/
theorem chunks_flatten_take (agent_id result_id result domain : List Byte) :
    ∀ m, m < (result.length + MAX_DNS_CHUNK_SIZE - 1) / MAX_DNS_CHUNK_SIZE →
      (((List.range m).map (chunk_query agent_id result_id result domain
          ((result.length + MAX_DNS_CHUNK_SIZE - 1) / MAX_DNS_CHUNK_SIZE))).map
        ChunkQuery.chunk).flatten = result.take (m * MAX_DNS_CHUNK_SIZE)
  | 0, _ => by simp
  | m + 1, h => by
    rw [List.range_succ, List.map_append, List.map_append, List.flatten_append,
      chunks_flatten_take agent_id result_id result domain m (by omega)]
    simp only [List.map_cons, List.map_nil, List.flatten_cons, List.flatten_nil, List.append_nil]
    rw [(chunk_query_full agent_id result_id result domain m h).1, Nat.add_mul, Nat.one_mul,
      List.take_add]

/-- The chunks of all passes, in order, make up the result. -/
theorem chunks_flatten (agent_id result_id result domain : List Byte) :
    (((List.range ((result.length + MAX_DNS_CHUNK_SIZE - 1) / MAX_DNS_CHUNK_SIZE)).map
        (chunk_query agent_id result_id result domain
          ((result.length + MAX_DNS_CHUNK_SIZE - 1) / MAX_DNS_CHUNK_SIZE))).map
      ChunkQuery.chunk).flatten = result := by
  rcases Nat.eq_zero_or_pos ((result.length + MAX_DNS_CHUNK_SIZE - 1) / MAX_DNS_CHUNK_SIZE)
    with h0 | hpos
  · have hlen : result.length = 0 := by
      simp only [MAX_DNS_CHUNK_SIZE] at h0
      omega
    rw [h0, List.length_eq_zero.mp hlen]
    simp
  · obtain ⟨m, hm⟩ : ∃ m, m + 1 = (result.length + MAX_DNS_CHUNK_SIZE - 1) / MAX_DNS_CHUNK_SIZE :=
      ⟨(result.length + MAX_DNS_CHUNK_SIZE - 1) / MAX_DNS_CHUNK_SIZE - 1, by omega⟩
    have hlast := chunk_query_last agent_id result_id result domain m hm
    have htake := chunks_flatten_take agent_id result_id result domain m (by omega)
    rw [← hm] at hlast htake ⊢
    rw [List.range_succ, List.map_append, List.map_append, List.flatten_append, htake]
    simp only [List.map_cons, List.map_nil, List.flatten_cons, List.flatten_nil, List.append_nil]
    rw [hlast, List.take_append_drop]

theorem chunk_query_index (agent_id result_id result domain : List Byte) (n i : Nat) :
    (chunk_query agent_id result_id result domain n i).index = i := rfl

theorem getElem?_map_range {α : Type} (f : Nat → α) (m i : Nat) (a : α)
    (h : ((List.range m).map f)[i]? = some a) : i < m ∧ a = f i := by
  rw [List.getElem?_map] at h
  by_cases hi : i < m
  · rw [List.getElem?_range hi] at h
    simp only [Option.map_some', Option.some.injEq] at h
    exact ⟨hi, h.symm⟩
  · rw [List.getElem?_eq_none (by simpa using hi)] at h
    simp at h

/-- Either every chunk is acknowledged, or there is a first chunk that is not. -/
theorem all_ack_or_first_nack (answers : Nat → Option (List Byte)) (len : Nat) :
    (∀ k, k * MAX_DNS_CHUNK_SIZE < len → answers k = some (cstr "ACK")) ∨
    (∃ k, k * MAX_DNS_CHUNK_SIZE < len ∧ (∀ j, j < k → answers j = some (cstr "ACK")) ∧
      answers k ≠ some (cstr "ACK")) := by
  by_cases hall : ∀ k, k * MAX_DNS_CHUNK_SIZE < len → answers k = some (cstr "ACK")
  · exact Or.inl hall
  · right
    have hex : ∃ k, k * MAX_DNS_CHUNK_SIZE < len ∧ answers k ≠ some (cstr "ACK") := by
      by_contra hno
      apply hall
      intro k hk
      by_contra hne
      exact hno ⟨k, hk, hne⟩
    classical
    refine ⟨Nat.find hex, (Nat.find_spec hex).1, ?_, (Nat.find_spec hex).2⟩
    intro j hj
    by_contra hne
    have hjlt : j * MAX_DNS_CHUNK_SIZE < len := by
      have h1 := (Nat.find_spec hex).1
      have h2 : j * MAX_DNS_CHUNK_SIZE ≤ Nat.find hex * MAX_DNS_CHUNK_SIZE :=
        Nat.mul_le_mul_right _ (Nat.le_of_lt hj)
      omega
    exact Nat.find_min hex hj ⟨hjlt, hne⟩

/-! ## Properties of the chunked sender -/

/-- C3 (chunking completeness): when every chunk query is answered with `ACK`,
`dns_send_result` succeeds after exactly `ceil(L / C)` chunk queries, `C = 30` being
`MAX_DNS_CHUNK_SIZE` and `L` the length of the result; query number `i` carries chunk
`i`, encoded, in its name; chunk `i` is the slice of at most `C` bytes that starts at
byte `i * C`; every chunk but the last has exactly `C` bytes; and the chunks,
concatenated in issue order, are the result. -/
theorem dns_send_result_chunking (agent_id result_id result domain : List Byte)
    (answers : Nat → Option (List Byte))
    (hack : ∀ k, k * MAX_DNS_CHUNK_SIZE < result.length → answers k = some (cstr "ACK")) :
    (dns_send_result agent_id result_id (some result) domain answers).1 = true ∧
    (dns_send_result agent_id result_id (some result) domain answers).2.length
      = ⌈(result.length : ℚ) / (MAX_DNS_CHUNK_SIZE : ℚ)⌉₊ ∧
    MAX_DNS_CHUNK_SIZE = 30 ∧
    (∀ (i : Nat) (q : ChunkQuery),
      (dns_send_result agent_id result_id (some result) domain answers).2[i]? = some q →
      q.index = i ∧
      q.query = result_query agent_id result_id (base64_encode q.chunk).1 domain ∧
      q.chunk = (result.drop (i * MAX_DNS_CHUNK_SIZE)).take MAX_DNS_CHUNK_SIZE ∧
      (i + 1 < (dns_send_result agent_id result_id (some result) domain answers).2.length →
        q.chunk.length = MAX_DNS_CHUNK_SIZE)) ∧
    ((dns_send_result agent_id result_id (some result) domain answers).2.map
      ChunkQuery.chunk).flatten = result := by
  rw [dns_send_result_all_ack agent_id result_id result domain answers hack]
  refine ⟨rfl, ?_, rfl, ?_, chunks_flatten agent_id result_id result domain⟩
  · rw [ceil_div_chunk]
    simp
  · intro i q hq
    obtain ⟨hi, rfl⟩ := getElem?_map_range _ _ _ _ hq
    refine ⟨rfl, rfl, chunk_query_slice agent_id result_id result domain i hi, fun hlast => ?_⟩
    simp only [List.length_map, List.length_range] at hlast
    exact (chunk_query_full agent_id result_id result domain i hlast).2

/-- Witness for C3: a result of 61 bytes is sent in three acknowledged chunks. -/
theorem dns_send_result_chunking_witness :
    (∀ k : Nat, k * MAX_DNS_CHUNK_SIZE < (List.replicate 61 (ch 'x')).length →
      (fun _ : Nat => some (cstr "ACK")) k = some (cstr "ACK")) ∧
    (dns_send_result (cstr "a1") (cstr "r1") (some (List.replicate 61 (ch 'x')))
      (cstr "10.0.0.5") (fun _ => some (cstr "ACK"))).1 = true ∧
    ((dns_send_result (cstr "a1") (cstr "r1") (some (List.replicate 61 (ch 'x')))
      (cstr "10.0.0.5") (fun _ => some (cstr "ACK"))).2.map ChunkQuery.chunk).flatten
      = List.replicate 61 (ch 'x') :=
  ⟨fun _ _ => rfl,
   (dns_send_result_chunking (cstr "a1") (cstr "r1") (List.replicate 61 (ch 'x'))
      (cstr "10.0.0.5") (fun _ => some (cstr "ACK")) (fun _ _ => rfl)).1,
   (dns_send_result_chunking (cstr "a1") (cstr "r1") (List.replicate 61 (ch 'x'))
      (cstr "10.0.0.5") (fun _ => some (cstr "ACK")) (fun _ _ => rfl)).2.2.2.2⟩

/-- C4 (abort on nack): when the first chunk answer different from `ACK` (or missing)
is the answer to chunk `k`, `dns_send_result` returns `FALSE` and has issued exactly
the `k + 1` queries of the chunks `0, …, k`; no query for a chunk after `k` is issued. -/
theorem dns_send_result_abort_on_nack (agent_id result_id result domain : List Byte)
    (answers : Nat → Option (List Byte)) (k : Nat)
    (hk : k * MAX_DNS_CHUNK_SIZE < result.length)
    (hack : ∀ j, j < k → answers j = some (cstr "ACK"))
    (hnack : answers k ≠ some (cstr "ACK")) :
    (dns_send_result agent_id result_id (some result) domain answers).1 = false ∧
    (dns_send_result agent_id result_id (some result) domain answers).2.length = k + 1 ∧
    (dns_send_result agent_id result_id (some result) domain answers).2.map ChunkQuery.index
      = List.range (k + 1) ∧
    (∀ q ∈ (dns_send_result agent_id result_id (some result) domain answers).2,
      q.index ≤ k) := by
  rw [dns_send_result_first_nack agent_id result_id result domain answers k hk hack hnack]
  refine ⟨rfl, by simp, ?_, ?_⟩
  · rw [List.map_map]
    have : (ChunkQuery.index ∘ chunk_query agent_id result_id result domain
        ((result.length + MAX_DNS_CHUNK_SIZE - 1) / MAX_DNS_CHUNK_SIZE)) = id := rfl
    rw [this, List.map_id]
  · intro q hq
    simp only [List.mem_map, List.mem_range] at hq
    obtain ⟨i, hi, rfl⟩ := hq
    rw [chunk_query_index]
    omega

/-- Witness for C4: a result of 61 bytes (three chunks) whose second chunk is answered
with `NAK`: the send fails after two queries. -/
theorem dns_send_result_abort_on_nack_witness :
    (dns_send_result (cstr "a1") (cstr "r1") (some (List.replicate 61 (ch 'x')))
      (cstr "10.0.0.5")
      (fun k => if k = 1 then some (cstr "NAK") else some (cstr "ACK"))).1 = false ∧
    (dns_send_result (cstr "a1") (cstr "r1") (some (List.replicate 61 (ch 'x')))
      (cstr "10.0.0.5")
      (fun k => if k = 1 then some (cstr "NAK") else some (cstr "ACK"))).2.length = 1 + 1 :=
  ⟨(dns_send_result_abort_on_nack (cstr "a1") (cstr "r1") (List.replicate 61 (ch 'x'))
      (cstr "10.0.0.5") (fun k => if k = 1 then some (cstr "NAK") else some (cstr "ACK")) 1
      (by decide) (by decide) (by decide)).1,
   (dns_send_result_abort_on_nack (cstr "a1") (cstr "r1") (List.replicate 61 (ch 'x'))
      (cstr "10.0.0.5") (fun k => if k = 1 then some (cstr "NAK") else some (cstr "ACK")) 1
      (by decide) (by decide) (by decide)).2.1⟩

/-- C5: for a non-null result, `dns_send_result` returns `TRUE` if and only if every
chunk query it issued received an answer equal to the string `ACK`, and if and only if
every chunk of the result, in order, is so answered.  The queries are issued in the
order of the chunk indices.  A missing answer and the strings `ack` and `ACK` followed
by a blank are not acknowledgments. -/
theorem dns_send_result_true_iff_all_ack (agent_id result_id result domain : List Byte)
    (answers : Nat → Option (List Byte)) :
    ((dns_send_result agent_id result_id (some result) domain answers).1 = true ↔
      ∀ q ∈ (dns_send_result agent_id result_id (some result) domain answers).2,
        answers q.index = some (cstr "ACK")) ∧
    ((dns_send_result agent_id result_id (some result) domain answers).1 = true ↔
      ∀ k, k * MAX_DNS_CHUNK_SIZE < result.length → answers k = some (cstr "ACK")) ∧
    ((dns_send_result agent_id result_id (some result) domain answers).2.map ChunkQuery.index
      = List.range (dns_send_result agent_id result_id (some result) domain answers).2.length) ∧
    acknowledged none = false ∧
    acknowledged (some (cstr "ack")) = false ∧
    acknowledged (some (cstr "ACK ")) = false ∧
    acknowledged (some (cstr "ACK")) = true := by
  have hidx : ∀ m, ((List.range m).map (chunk_query agent_id result_id result domain
        ((result.length + MAX_DNS_CHUNK_SIZE - 1) / MAX_DNS_CHUNK_SIZE))).map ChunkQuery.index
      = List.range m := by
    intro m
    rw [List.map_map]
    have : (ChunkQuery.index ∘ chunk_query agent_id result_id result domain
        ((result.length + MAX_DNS_CHUNK_SIZE - 1) / MAX_DNS_CHUNK_SIZE)) = id := rfl
    rw [this, List.map_id]
  refine ⟨?_, ?_, ?_, by decide, by decide, by decide, by decide⟩
  · rcases all_ack_or_first_nack answers result.length with hall | ⟨k, hk, hack, hnack⟩
    · rw [dns_send_result_all_ack agent_id result_id result domain answers hall]
      refine ⟨fun _ q hq => ?_, fun _ => rfl⟩
      simp only [List.mem_map, List.mem_range] at hq
      obtain ⟨i, hi, rfl⟩ := hq
      rw [chunk_query_index]
      apply hall
      simp only [MAX_DNS_CHUNK_SIZE] at hi ⊢
      omega
    · rw [dns_send_result_first_nack agent_id result_id result domain answers k hk hack hnack]
      refine ⟨fun h => by simp at h, fun h => ?_⟩
      exfalso
      apply hnack
      have := h (chunk_query agent_id result_id result domain
        ((result.length + MAX_DNS_CHUNK_SIZE - 1) / MAX_DNS_CHUNK_SIZE) k)
        (List.mem_map.mpr ⟨k, List.mem_range.mpr (Nat.lt_succ_self k), rfl⟩)
      exact this
  · rcases all_ack_or_first_nack answers result.length with hall | ⟨k, hk, hack, hnack⟩
    · rw [dns_send_result_all_ack agent_id result_id result domain answers hall]
      exact ⟨fun _ => hall, fun _ => rfl⟩
    · rw [dns_send_result_first_nack agent_id result_id result domain answers k hk hack hnack]
      exact ⟨fun h => by simp at h, fun h => absurd (h k hk) hnack⟩
  · rcases all_ack_or_first_nack answers result.length with hall | ⟨k, hk, hack, hnack⟩
    · rw [dns_send_result_all_ack agent_id result_id result domain answers hall, hidx]
      simp
    · rw [dns_send_result_first_nack agent_id result_id result domain answers k hk hack hnack,
        hidx]
      simp

/-! ## The reported output length of `base64_decode` -/

/-- The output length that `base64_decode` reports on an input whose length is a
positive multiple of 4: one less than `n / 4 * 3` for each of the last two characters
that is `'='`. -/
theorem base64_decode_reported_length (data : List Byte) (h4 : data.length % 4 = 0)
    (hpos : 0 < data.length) (c1 c2 : Byte)
    (hc1 : data[data.length - 1]? = some c1) (hc2 : data[data.length - 2]? = some c2) :
    ∃ decoded, base64_decode data = Exec.done (some (decoded,
      data.length / 4 * 3 - (if c1 = ch '=' then 1 else 0) - (if c2 = ch '=' then 1 else 0))) := by
  have hr1 : readAt data (data.length - 1) = Exec.done c1 := by
    simp [readAt, hc1]
  have hr2 : readAt data (data.length - 2) = Exec.done c2 := by
    simp [readAt, hc2]
  have hs1 : size_t_sub data.length 1 = data.length - 1 := by
    rw [size_t_sub, if_pos (by omega)]
  have hs2 : size_t_sub data.length 2 = data.length - 2 := by
    rw [size_t_sub, if_pos (by omega)]
  have hmod : ¬ (data.length % 4 ≠ 0) := by omega
  have hout : (if c2 = ch '=' then
        size_t_sub (if c1 = ch '=' then size_t_sub (data.length / 4 * 3) 1
          else data.length / 4 * 3) 1
      else (if c1 = ch '=' then size_t_sub (data.length / 4 * 3) 1 else data.length / 4 * 3))
      = data.length / 4 * 3 - (if c1 = ch '=' then 1 else 0) - (if c2 = ch '=' then 1 else 0) := by
    by_cases h1 : c1 = ch '=' <;> by_cases h2 : c2 = ch '=' <;>
      simp only [if_pos, if_neg, h1, h2, size_t_sub, not_false_eq_true] <;>
      (try split_ifs) <;> omega
  simp only [base64_decode, if_neg hmod, hs1, hs2, hr1, hr2, bind, Exec.bind, hout]
  obtain ⟨res, hres⟩ := decode_loop_completes
    (data.length / 4 * 3 - (if c1 = ch '=' then 1 else 0) - (if c2 = ch '=' then 1 else 0))
    (data.length / 4) data [] (by omega)
  rw [hres]
  exact ⟨_, rfl⟩

/-- The last two characters of an input of at least two characters, read from its
reversal. -/
theorem last_two_of_reverse (data : List Byte) (a b : Byte) (rest : List Byte)
    (h : data.reverse = a :: b :: rest) :
    data[data.length - 1]? = some a ∧ data[data.length - 2]? = some b := by
  have hlen : data.length = rest.length + 2 := by
    have := congrArg List.length h
    simpa using this
  have h0 : data.reverse[0]? = data[data.length - 1 - 0]? :=
    List.getElem?_reverse (by omega)
  have h1 : data.reverse[1]? = data[data.length - 1 - 1]? :=
    List.getElem?_reverse (by omega)
  rw [h] at h0 h1
  constructor
  · simpa using h0.symm
  · have e : data.length - 1 - 1 = data.length - 2 := by omega
    rw [e] at h1
    simpa using h1.symm

/-- The reported output length in terms of the number of trailing `'='` symbols. -/
theorem base64_decode_length_of_pads (data : List Byte) (p : Nat)
    (h4 : data.length % 4 = 0) (hpos : 0 < data.length)
    (hp : trailing_pads data = p) (hp2 : p ≤ 2)
    (h0 : p = 0 → data[data.length - 2]? ≠ some (ch '=')) :
    ∃ decoded, base64_decode data = Exec.done (some (decoded, data.length / 4 * 3 - p)) := by
  have hrlen : data.reverse.length = data.length := List.length_reverse data
  match hrev : data.reverse, hrlen with
  | [], hl => simp at hl; omega
  | [_], hl => simp at hl; omega
  | a :: b :: rest, _ =>
    obtain ⟨hc1, hc2⟩ := last_two_of_reverse data a b rest hrev
    obtain ⟨decoded, hd⟩ := base64_decode_reported_length data h4 hpos a b hc1 hc2
    refine ⟨decoded, ?_⟩
    rw [hd]
    simp only [trailing_pads, hrev] at hp
    by_cases ha : a = ch '='
    · by_cases hb : b = ch '='
      · simp only [List.takeWhile_cons, ha, hb, decide_True, if_true, List.length_cons] at hp
        have : p = 2 := by omega
        subst this
        simp [ha, hb]
        omega
      · simp only [List.takeWhile_cons, ha, hb, decide_True, decide_False, if_true,
          List.length_cons, List.length_nil] at hp
        subst hp
        simp [ha, hb]
    · simp only [List.takeWhile_cons, ha, decide_False, List.length_nil] at hp
      have hp0 : p = 0 := by simpa using hp.symm
      have hb : b ≠ ch '=' := by
        intro hb
        apply h0 hp0
        rw [hc2, hb]
      subst hp0
      simp [ha, hb]

/-- C11, at the input `QU=D`: it ends in no `'='`, so the claimed output length is
`4 / 4 * 3 - 0 = 3`, but its next-to-last character is `'='` and `base64_decode`
reports the length 2. -/
theorem base64_decode_length_pad_before_last :
    (cstr "QU=D").length = 4 ∧ trailing_pads (cstr "QU=D") = 0 ∧
    base64_decode (cstr "QU=D") = Exec.done (some ([65, 64], 2)) ∧
    (2 : Nat) ≠ (cstr "QU=D").length / 4 * 3 - 0 := by
  decide

/-- C11 (amended): for every input of length `n` that is a positive multiple of 4 and
ends in `p` trailing `'='` symbols with `p` in `{0, 1, 2}`, and whose next-to-last
character is not `'='` when `p = 0`, `base64_decode` returns a buffer and reports an
output length of exactly `n / 4 * 3 - p`. -/
theorem base64_decode_output_length (data : List Byte) (p : Nat)
    (h4 : data.length % 4 = 0) (hpos : 0 < data.length)
    (hp : trailing_pads data = p) (hp2 : p ≤ 2)
    (h0 : p = 0 → data[data.length - 2]? ≠ some (ch '=')) :
    ∃ decoded, base64_decode data = Exec.done (some (decoded, data.length / 4 * 3 - p)) :=
  base64_decode_length_of_pads data p h4 hpos hp hp2 h0

/-- Witness for C11 (amended): `YQ==` ends in two `'='` and decodes to one byte. -/
theorem base64_decode_output_length_witness :
    trailing_pads (cstr "YQ==") = 2 ∧
    ∃ decoded, base64_decode (cstr "YQ==") = Exec.done (some (decoded, 4 / 4 * 3 - 2)) :=
  ⟨by decide,
   base64_decode_output_length (cstr "YQ==") 2 (by decide) (by decide) (by decide) (by decide)
     (by decide)⟩

/-! ## The retry loop of the resolver client -/

theorem failed_or_txt (reply : DnsReply) :
    failed_attempt reply ∨ ∃ strings, txt_answer reply strings := by
  by_cases hs : reply.status = ERROR_SUCCESS
  · cases hr : reply.record with
    | none => exact Or.inl (Or.inr (Or.inl hr))
    | some r =>
      by_cases ht : r.wType = DNS_TYPE_TEXT
      · right
        refine ⟨r.strings, hs, ?_⟩
        rw [hr, ← ht]
      · exact Or.inl (Or.inr (Or.inr ⟨r, hr, ht⟩))
  · exact Or.inl (Or.inl hs)

/-- A failed attempt is followed by a sleep, unless it was the last one, and by the
next attempt. -/
theorem txt_query_loop_failed (replies : Nat → DnsReply) (todo retry slept : Nat)
    (h : failed_attempt (replies retry)) :
    txt_query_loop replies (todo + 1) retry slept
      = txt_query_loop replies todo (retry + 1)
          (if retry < MAX_DNS_RETRIES - 1 then slept + DNS_RETRY_DELAY else slept) := by
  rw [txt_query_loop]
  rcases h with h | h | ⟨r, hr, ht⟩
  · cases hrec : (replies retry).record with
    | none => rfl
    | some r => simp [h]
  · simp [h]
  · simp [hr, ht]

/-- A TXT answer ends the loop with its first string, if it has one. -/
theorem txt_query_loop_txt (replies : Nat → DnsReply) (todo retry slept : Nat)
    (strings : List (List Byte)) (h : txt_answer (replies retry) strings) :
    txt_query_loop replies (todo + 1) retry slept = ⟨strings.head?, retry + 1, slept⟩ := by
  rw [txt_query_loop]
  obtain ⟨hs, hr⟩ := h
  cases strings with
  | nil => simp [hs, hr]
  | cons s rest => simp [hs, hr]

/-- The three possible courses of `dns_txt_query_with_server`. -/
theorem dns_txt_query_with_server_cases (replies : Nat → DnsReply) :
    (∃ k strings, k < 3 ∧ (∀ j, j < k → failed_attempt (replies j)) ∧
      txt_answer (replies k) strings ∧
      dns_txt_query_with_server replies = ⟨strings.head?, k + 1, k * DNS_RETRY_DELAY⟩) ∨
    ((∀ j, j < 3 → failed_attempt (replies j)) ∧
      dns_txt_query_with_server replies = ⟨none, 3, 2 * DNS_RETRY_DELAY⟩) := by
  simp only [dns_txt_query_with_server, MAX_DNS_RETRIES]
  rcases failed_or_txt (replies 0) with f0 | ⟨s0, t0⟩
  · rcases failed_or_txt (replies 1) with f1 | ⟨s1, t1⟩
    · rcases failed_or_txt (replies 2) with f2 | ⟨s2, t2⟩
      · right
        refine ⟨fun j hj => ?_, ?_⟩
        · have : j = 0 ∨ j = 1 ∨ j = 2 := by omega
          rcases this with h | h | h <;> subst h <;> assumption
        · rw [txt_query_loop_failed _ _ _ _ f0, txt_query_loop_failed _ _ _ _ f1,
            txt_query_loop_failed _ _ _ _ f2]
          simp [txt_query_loop, MAX_DNS_RETRIES, DNS_RETRY_DELAY]
      · left
        refine ⟨2, s2, by omega, fun j hj => ?_, t2, ?_⟩
        · have : j = 0 ∨ j = 1 := by omega
          rcases this with h | h <;> subst h <;> assumption
        · rw [txt_query_loop_failed _ _ _ _ f0, txt_query_loop_failed _ _ _ _ f1,
            txt_query_loop_txt _ _ _ _ _ t2]
          simp [MAX_DNS_RETRIES, DNS_RETRY_DELAY]
    · left
      refine ⟨1, s1, by omega, fun j hj => ?_, t1, ?_⟩
      · have : j = 0 := by omega
        subst this
        assumption
      · rw [txt_query_loop_failed _ _ _ _ f0, txt_query_loop_txt _ _ _ _ _ t1]
        simp [MAX_DNS_RETRIES, DNS_RETRY_DELAY]
  · left
    refine ⟨0, s0, by omega, fun j hj => by omega, t0, ?_⟩
    rw [txt_query_loop_txt _ _ _ _ _ t0]
    simp

theorem not_failed_of_txt (reply : DnsReply) (strings : List (List Byte))
    (h : txt_answer reply strings) : ¬ failed_attempt reply := by
  obtain ⟨hs, hr⟩ := h
  rintro (h | h | ⟨r, hr2, ht⟩)
  · exact h hs
  · rw [hr] at h
    cases h
  · rw [hr] at hr2
    cases hr2
    exact ht rfl

/-- The run of `dns_txt_query_with_server` when attempt `k` is the first one answered
by a TXT record. -/
theorem dns_txt_query_with_server_first_txt (replies : Nat → DnsReply) (k : Nat)
    (strings : List (List Byte)) (hk : k < 3)
    (hfail : ∀ j, j < k → failed_attempt (replies j)) (htxt : txt_answer (replies k) strings) :
    dns_txt_query_with_server replies = ⟨strings.head?, k + 1, k * DNS_RETRY_DELAY⟩ := by
  rcases dns_txt_query_with_server_cases replies with ⟨k2, s2, hk2, hf2, ht2, hrun⟩ | ⟨hall, _⟩
  · have hkk : k2 = k := by
      rcases Nat.lt_trichotomy k2 k with h | h | h
      · exact absurd (hfail k2 h) (not_failed_of_txt _ _ ht2)
      · exact h
      · exact absurd (hf2 k h) (not_failed_of_txt _ _ htxt)
    subst hkk
    have hss : s2 = strings := by
      have h1 := ht2.2
      have h2 := htxt.2
      rw [h1] at h2
      simpa using h2
    rw [hrun, hss]
  · exact absurd (hall k hk) (not_failed_of_txt _ _ htxt)

/-- C12, for a first attempt answered by a TXT record with zero strings and a second
one that would return `ACK`: `dns_txt_query_with_server` leaves the retry loop after
the first attempt and returns NULL; it neither retries nor reaches three attempts. -/
theorem dns_txt_query_zero_strings_no_retry :
    dns_txt_query_with_server
      (fun k => if k = 0 then ⟨ERROR_SUCCESS, some ⟨DNS_TYPE_TEXT, []⟩⟩
        else ⟨ERROR_SUCCESS, some ⟨DNS_TYPE_TEXT, [cstr "ACK"]⟩⟩)
      = ⟨none, 1, 0⟩ := by
  decide

/-- C12 (amended): for every sequence of resolver outcomes, `dns_txt_query_with_server`
makes at least one and at most 3 lookup attempts; it retries, after a delay of 1000 ms,
after every attempt that failed by a resolution error, an empty answer or a record of
another type; the first attempt answered by a TXT record ends the loop and the
function returns the first string of that record, or no result when the record has
zero strings; otherwise it returns no result after 3 failed attempts.  The variant of
`Transport copy.c` behaves the same when the resolver address parses, and makes no
attempt when it does not. -/
theorem dns_txt_query_retry_policy (replies : Nat → DnsReply) :
    1 ≤ (dns_txt_query_with_server replies).attempts ∧
    (dns_txt_query_with_server replies).attempts ≤ 3 ∧
    (∀ (k : Nat) (strings : List (List Byte)), k < 3 →
      (∀ j, j < k → failed_attempt (replies j)) → txt_answer (replies k) strings →
      dns_txt_query_with_server replies = ⟨strings.head?, k + 1, k * 1000⟩) ∧
    ((∀ j, j < 3 → failed_attempt (replies j)) →
      dns_txt_query_with_server replies = ⟨none, 3, 2000⟩) ∧
    (∀ s, (dns_txt_query_with_server replies).result = some s →
      ∃ k rest, k < 3 ∧ (∀ j, j < k → failed_attempt (replies j)) ∧
        txt_answer (replies k) (s :: rest)) ∧
    (∀ server_addr, server_addr ≠ Mythic.INADDR_NONE →
      Mythic.dns_txt_query_with_server server_addr replies = dns_txt_query_with_server replies) ∧
    Mythic.dns_txt_query_with_server Mythic.INADDR_NONE replies = ⟨none, 0, 0⟩ := by
  refine ⟨?_, ?_, ?_, ?_, ?_, ?_, ?_⟩
  · rcases dns_txt_query_with_server_cases replies with ⟨k, s, hk, _, _, hrun⟩ | ⟨_, hrun⟩ <;>
      rw [hrun] <;> simp
  · rcases dns_txt_query_with_server_cases replies with ⟨k, s, hk, _, _, hrun⟩ | ⟨_, hrun⟩
    · rw [hrun]
      simp only
      omega
    · rw [hrun]
  · intro k strings hk hfail htxt
    rw [dns_txt_query_with_server_first_txt replies k strings hk hfail htxt]
    simp [DNS_RETRY_DELAY]
  · intro hall
    rcases dns_txt_query_with_server_cases replies with ⟨k, s, hk, _, ht, _⟩ | ⟨_, hrun⟩
    · exact absurd (hall k hk) (not_failed_of_txt _ _ ht)
    · rw [hrun]
      simp [DNS_RETRY_DELAY]
  · intro s hs
    rcases dns_txt_query_with_server_cases replies with ⟨k, strings, hk, hf, ht, hrun⟩ | ⟨_, hrun⟩
    · rw [hrun] at hs
      simp only at hs
      cases strings with
      | nil => simp at hs
      | cons s0 rest =>
        simp only [List.head?_cons, Option.some.injEq] at hs
        subst hs
        exact ⟨k, rest, hk, hf, ht⟩
    · rw [hrun] at hs
      simp at hs
  · intro addr ha
    simp [Mythic.dns_txt_query_with_server, ha, dns_txt_query_with_server]
  · simp [Mythic.dns_txt_query_with_server]

/-- Witness for C12 (amended): a resolution error followed by a TXT answer `ACK`. -/
theorem dns_txt_query_retry_policy_witness :
    dns_txt_query_with_server
      (fun k => if k = 0 then ⟨9003, none⟩ else ⟨ERROR_SUCCESS, some ⟨DNS_TYPE_TEXT, [cstr "ACK"]⟩⟩)
      = ⟨some (cstr "ACK"), 1 + 1, 1 * 1000⟩ :=
  (dns_txt_query_retry_policy
    (fun k => if k = 0 then ⟨9003, none⟩
      else ⟨ERROR_SUCCESS, some ⟨DNS_TYPE_TEXT, [cstr "ACK"]⟩⟩)).2.2.1 1 [cstr "ACK"]
    (by decide) (fun j hj => by
      have : j = 0 := by omega
      subst this
      exact Or.inl (by decide)) ⟨rfl, rfl⟩

/-! ## The tasking request and the names of the result queries -/

theorem c_string_of_no_nul (c : List Byte) (h : ∀ b ∈ c, b ≠ 0) : c_string c = c := by
  unfold c_string
  rw [List.takeWhile_eq_self_iff]
  intro b hb
  simpa using h b hb

/-- The command returned for an answer that is the encoding of a non-empty string
without NUL. -/
theorem dns_request_command_encoded (agent_id domain c : List Byte) (hc : c ≠ [])
    (hnul : ∀ b ∈ c, b ≠ 0) :
    (dns_request_command agent_id domain (some (base64_encode c).1)).2
      = Exec.done (some c) := by
  simp only [dns_request_command, base64_decode_encode c hc, List.take_length,
    c_string_of_no_nul c hnul]

/-- Every query that `dns_send_result` issues is the query of some pass of its loop. -/
theorem dns_send_result_queries (agent_id result_id result domain : List Byte)
    (answers : Nat → Option (List Byte)) :
    ∀ q ∈ (dns_send_result agent_id result_id (some result) domain answers).2,
      ∃ i, q = chunk_query agent_id result_id result domain
        ((result.length + MAX_DNS_CHUNK_SIZE - 1) / MAX_DNS_CHUNK_SIZE) i := by
  intro q hq
  rcases all_ack_or_first_nack answers result.length with hall | ⟨k, hk, hack, hnack⟩
  · rw [dns_send_result_all_ack agent_id result_id result domain answers hall] at hq
    simp only [List.mem_map, List.mem_range] at hq
    obtain ⟨i, _, rfl⟩ := hq
    exact ⟨i, rfl⟩
  · rw [dns_send_result_first_nack agent_id result_id result domain answers k hk hack hnack] at hq
    simp only [List.mem_map, List.mem_range] at hq
    obtain ⟨i, _, rfl⟩ := hq
    exact ⟨i, rfl⟩

/-- A non-empty result of at most `MAX_DNS_CHUNK_SIZE` bytes is sent as one query that
carries the whole result. -/
theorem dns_send_result_single (agent_id result_id result domain : List Byte)
    (answers : Nat → Option (List Byte)) (hne : result ≠ [])
    (hlen : result.length ≤ MAX_DNS_CHUNK_SIZE) :
    dns_send_result agent_id result_id (some result) domain answers
      = (acknowledged (answers 0),
         [⟨0, result, result_query agent_id result_id (base64_encode result).1 domain, domain⟩]) := by
  have hpos : 0 < result.length := List.length_pos.mpr hne
  have hn : (result.length + MAX_DNS_CHUNK_SIZE - 1) / MAX_DNS_CHUNK_SIZE = 1 := by
    simp only [MAX_DNS_CHUNK_SIZE] at hlen ⊢
    omega
  simp only [dns_send_result, hn, send_loop, Nat.sub_self, Nat.zero_mul, Nat.sub_zero,
    List.drop_zero, List.take_length, List.nil_append, if_true]
  cases acknowledged (answers 0) <;> simp

/-- C13: for every agent id `A` and address `D` whose query name fits the 256-byte
buffer, `dns_request_command` looks up exactly the name `cmd.A.D` at the resolver `D`,
and when the answer is the text encoding of a command string `c` (non-empty, without
NUL) it returns `c`. -/
theorem dns_request_command_tasking (A D c : List Byte) (answer : Option (List Byte))
    (_hfit : (cstr "cmd." ++ A ++ cstr "." ++ D).length < 256)
    (hc : c ≠ []) (hnul : ∀ b ∈ c, b ≠ 0) :
    (dns_request_command A D answer).1 = ⟨cstr "cmd." ++ A ++ cstr "." ++ D, D⟩ ∧
    (answer = some (base64_encode c).1 →
      (dns_request_command A D answer).2 = Exec.done (some c)) := by
  refine ⟨rfl, fun h => ?_⟩
  rw [h]
  exact dns_request_command_encoded A D c hc hnul

set_option maxRecDepth 100000 in
/-- Witness for C13: agent `agent-00000001`, resolver `10.0.0.5`, answer `cHdk`, the
encoding of `pwd`. -/
theorem dns_request_command_tasking_witness :
    (dns_request_command (cstr "agent-00000001") (cstr "10.0.0.5") (some (cstr "cHdk"))).1
      = ⟨cstr "cmd.agent-00000001.10.0.0.5", cstr "10.0.0.5"⟩ ∧
    (dns_request_command (cstr "agent-00000001") (cstr "10.0.0.5") (some (cstr "cHdk"))).2
      = Exec.done (some (cstr "pwd")) :=
  ⟨(dns_request_command_tasking (cstr "agent-00000001") (cstr "10.0.0.5") (cstr "pwd")
      (some (cstr "cHdk")) (by decide) (by decide) (by decide)).1,
   (dns_request_command_tasking (cstr "agent-00000001") (cstr "10.0.0.5") (cstr "pwd")
      (some (cstr "cHdk")) (by decide) (by decide) (by decide)).2 (by decide)⟩

/-- C14, for the empty result: it is no longer than the chunk size, yet
`dns_send_result` issues no query at all (and returns `TRUE`). -/
theorem dns_send_result_empty_no_query :
    dns_send_result (cstr "agent-00000001") (cstr "0000beef") (some []) (cstr "10.0.0.5")
      (fun _ => some (cstr "ACK")) = (true, []) := by
  decide

/-- C14 (amended): every query that `dns_send_result` issues for a chunk `c` has exactly
the name `result.A.R.` followed by `base64_encode(c)`, `.` and `D`, and goes to the
resolver `D`; a non-empty result `r` of at most 30 bytes is sent as exactly one such
query carrying `base64_encode(r)`, and an `ACK` answer to it yields `TRUE`. -/
theorem dns_send_result_query_names (A R D r : List Byte)
    (answers : Nat → Option (List Byte)) :
    (∀ q ∈ (dns_send_result A R (some r) D answers).2,
      q.query = cstr "result." ++ A ++ cstr "." ++ R ++ cstr "." ++ (base64_encode q.chunk).1
        ++ cstr "." ++ D ∧ q.server_ip = D) ∧
    (r ≠ [] → r.length ≤ 30 →
      (dns_send_result A R (some r) D answers).2
        = [⟨0, r, cstr "result." ++ A ++ cstr "." ++ R ++ cstr "." ++ (base64_encode r).1
            ++ cstr "." ++ D, D⟩] ∧
      (answers 0 = some (cstr "ACK") → (dns_send_result A R (some r) D answers).1 = true)) := by
  refine ⟨fun q hq => ?_, fun hne hlen => ?_⟩
  · obtain ⟨i, rfl⟩ := dns_send_result_queries A R r D answers q hq
    exact ⟨rfl, rfl⟩
  · rw [dns_send_result_single A R r D answers hne hlen]
    refine ⟨rfl, fun hack => ?_⟩
    exact (acknowledged_iff _).mpr hack

/-- Witness for C14 (amended): the result `C:\work` is sent in one query. -/
theorem dns_send_result_query_names_witness :
    (dns_send_result (cstr "agent-00000001") (cstr "0000beef") (some (cstr "C:\\work"))
      (cstr "10.0.0.5") (fun _ => some (cstr "ACK"))).2
      = [⟨0, cstr "C:\\work", cstr "result.agent-00000001.0000beef.Qzpcd29yaw==.10.0.0.5",
          cstr "10.0.0.5"⟩] ∧
    (dns_send_result (cstr "agent-00000001") (cstr "0000beef") (some (cstr "C:\\work"))
      (cstr "10.0.0.5") (fun _ => some (cstr "ACK"))).1 = true :=
  ⟨((dns_send_result_query_names (cstr "agent-00000001") (cstr "0000beef") (cstr "10.0.0.5")
      (cstr "C:\\work") (fun _ => some (cstr "ACK"))).2 (by decide) (by decide)).1,
   ((dns_send_result_query_names (cstr "agent-00000001") (cstr "0000beef") (cstr "10.0.0.5")
      (cstr "C:\\work") (fun _ => some (cstr "ACK"))).2 (by decide) (by decide)).2 rfl⟩

/-! ## The configuration module -/

theorem init_config_initialized (env : ConfigEnv) (s : ConfigState)
    (h : s.config_initialized = true) : init_config env s = s := by
  simp [init_config, h]

theorem init_config_is_initialized (env : ConfigEnv) (s : ConfigState) :
    (init_config env s).config_initialized = true := by
  unfold init_config
  split_ifs with h
  · exact h
  · rfl

/-- The value of `get_random_int(0, max)` lies between 0 and `max`. -/
theorem get_random_int_range (max rand : Nat) :
    ∃ j : Nat, get_random_int 0 (max : Int) rand = (j : Int) ∧ j ≤ max := by
  refine ⟨rand % (max + 1), ?_, ?_⟩
  · unfold get_random_int
    have h1 : ((max : Int) - 0 + 1) = ((max + 1 : Nat) : Int) := by push_cast; ring
    rw [h1, Int.zero_add]
    exact (Int.ofNat_tmod rand (max + 1)).symm
  · have := Nat.mod_lt rand (by omega : 0 < max + 1)
    omega

/-- The interval returned by `get_sleep_interval`, as long as the sum of the interval and
the largest jitter stays below `2 ^ 32`. -/
theorem get_sleep_interval_bounds (env : ConfigEnv) (s : ConfigState) (rand1 rand2 : Nat)
    (hinit : s.config_initialized = true)
    (hJ : s.config.jitter_percent ≤ 100)
    (hB : s.config.sleep_interval * (100 + s.config.jitter_percent) < 100 * 2 ^ 32) :
    s.config.sleep_interval * (100 - s.config.jitter_percent)
        ≤ 100 * (get_sleep_interval env s rand1 rand2).1 ∧
      100 * (get_sleep_interval env s rand1 rand2).1
        ≤ s.config.sleep_interval * (100 + s.config.jitter_percent) := by
  obtain ⟨⟨dom, B, aid, mr, J, kd, wd, dbg⟩, ini⟩ := s
  simp only at hinit hJ hB
  subst hinit
  simp only [get_sleep_interval, init_config, if_true, Nat.reducePow] at hB ⊢
  have hX : B * (100 + J) = 100 * B + B * J := by ring
  have hY : B * (100 - J) + B * J = 100 * B := by
    rw [← Nat.mul_add, Nat.sub_add_cancel hJ, Nat.mul_comm]
  have hBJ : B * J ≤ 100 * B := by
    calc B * J ≤ B * 100 := Nat.mul_le_mul_left B hJ
      _ = 100 * B := Nat.mul_comm _ _
  rw [hX] at hB ⊢
  clear hX
  generalize B * J = X at hB hY hBJ ⊢
  generalize B * (100 - J) = Y at hY ⊢
  by_cases hJ0 : J > 0
  · rw [if_pos hJ0]
    have hjr : X % 4294967296 / 100 < 2147483648 := by omega
    have hjrX : X % 4294967296 / 100 * 100 ≤ X := by omega
    generalize X % 4294967296 / 100 = jr at hjr hjrX ⊢
    have hbits : int_of_bits jr = (jr : Int) := by
      unfold int_of_bits
      simp only [Nat.reducePow]
      have hlt : jr % 4294967296 < 2147483648 := by omega
      have heq : jr % 4294967296 = jr := by omega
      rw [if_pos hlt, heq]
    obtain ⟨j, hj, hjle⟩ := get_random_int_range jr rand1
    rw [hbits, hj]
    have hu : uint32_of_int (j : Int) = j := by
      unfold uint32_of_int
      omega
    rw [hu]
    clear hbits hj hu
    split_ifs
    · constructor <;> omega
    · constructor <;> omega
  · rw [if_neg hJ0]
    have : J = 0 := by omega
    subst this
    constructor <;> omega

/-- The value that `set_jitter_percent` stores. -/
theorem set_jitter_percent_stores (env : ConfigEnv) (p : Nat) (s : ConfigState) :
    (set_jitter_percent env p s).config.jitter_percent = min p 100 := by
  simp only [set_jitter_percent]
  split_ifs with h
  · omega
  · omega

/-- An operation other than `load_config` keeps `jitter_percent` at most 100. -/
theorem jitter_invariant_step (env : ConfigEnv) (op : ConfigOp) (s : ConfigState)
    (hop : ∀ file, op ≠ ConfigOp.load_config file)
    (hs : s.config.jitter_percent ≤ 100) :
    (op.run env s).config.jitter_percent ≤ 100 := by
  have hinit : (init_config env s).config.jitter_percent ≤ 100 := by
    unfold init_config
    split_ifs
    · exact hs
    · show DEFAULT_JITTER_PERCENT ≤ 100
      decide
  cases op with
  | reset_config => simp [ConfigOp.run, reset_config, init_config, DEFAULT_JITTER_PERCENT]
  | get _ => exact hinit
  | set_c2_domain d => cases d <;> simpa [ConfigOp.run, set_c2_domain] using hinit
  | set_sleep_interval n => simpa [ConfigOp.run, set_sleep_interval] using hinit
  | set_agent_id d => cases d <;> simpa [ConfigOp.run, set_agent_id] using hinit
  | set_max_retries n => simpa [ConfigOp.run, set_max_retries] using hinit
  | set_jitter_percent p =>
    show (set_jitter_percent env p s).config.jitter_percent ≤ 100
    rw [set_jitter_percent_stores]
    omega
  | set_kill_date d => simpa [ConfigOp.run, set_kill_date] using hinit
  | set_working_dir d => cases d <;> simpa [ConfigOp.run, set_working_dir] using hinit
  | set_debug_flag f => simpa [ConfigOp.run, set_debug_flag] using hinit
  | load_config file => exact absurd rfl (hop file)

/-- Without `load_config`, every reachable state has `jitter_percent` at most 100. -/
theorem jitter_invariant_without_load (env : ConfigEnv) (ops : List ConfigOp)
    (hops : ∀ op ∈ ops, ∀ file, op ≠ ConfigOp.load_config file) :
    (run_ops env ops).config.jitter_percent ≤ 100 := by
  unfold run_ops
  have hgen : ∀ (l : List ConfigOp) (s : ConfigState),
      (∀ op ∈ l, ∀ file, op ≠ ConfigOp.load_config file) →
      s.config.jitter_percent ≤ 100 →
      (l.foldl (fun s op => op.run env s) s).config.jitter_percent ≤ 100 := by
    intro l
    induction l with
    | nil => intro s _ hs; exact hs
    | cons op rest ih =>
      intro s hl hs
      rw [List.foldl_cons]
      exact ih _ (fun o ho => hl o (List.mem_cons_of_mem _ ho))
        (jitter_invariant_step env op s (hl op (List.mem_cons_self _ _)) hs)
  exact hgen ops _ hops (by decide)

/-- C15, for the base interval `2 ^ 32 - 1` and a jitter of 1 percent, when the draws
give a jitter of 1 and the sign `+`: the `DWORD` sum wraps around and
`get_sleep_interval` returns 0, far below the lower bound. -/
theorem get_sleep_interval_wraps :
    (get_sleep_interval ⟨0, []⟩ ⟨⟨[], 4294967295, [], 0, 1, 0, [], false⟩, true⟩ 1 1).1 = 0 ∧
    ¬ (4294967295 * (100 - 1)
        ≤ 100 * (get_sleep_interval ⟨0, []⟩ ⟨⟨[], 4294967295, [], 0, 1, 0, [], false⟩, true⟩
            1 1).1) := by
  decide

/-- C15 (amended): for every base interval `B` and jitter percentage `J` in `[0, 100]`
such that `B * (100 + J) < 100 * 2 ^ 32` (the upper bound fits a `DWORD`), and for every
outcome of the random draws, the value `v` returned by `get_sleep_interval` satisfies
`B * (100 - J) ≤ 100 * v ≤ B * (100 + J)`. -/
theorem get_sleep_interval_jitter_bound (env : ConfigEnv) (s : ConfigState)
    (rand1 rand2 : Nat) (hinit : s.config_initialized = true)
    (hJ : s.config.jitter_percent ≤ 100)
    (hB : s.config.sleep_interval * (100 + s.config.jitter_percent) < 100 * 2 ^ 32) :
    s.config.sleep_interval * (100 - s.config.jitter_percent)
        ≤ 100 * (get_sleep_interval env s rand1 rand2).1 ∧
      100 * (get_sleep_interval env s rand1 rand2).1
        ≤ s.config.sleep_interval * (100 + s.config.jitter_percent) :=
  get_sleep_interval_bounds env s rand1 rand2 hinit hJ hB

/-- Witness for C15 (amended): base interval 10000 ms, jitter 20 percent, draws 1999
and 0: the returned interval is 8001 ms. -/
theorem get_sleep_interval_jitter_bound_witness :
    (get_sleep_interval ⟨0, []⟩ ⟨⟨[], 10000, [], 0, 20, 0, [], false⟩, true⟩ 1999 0).1 = 8001 ∧
    10000 * (100 - 20)
      ≤ 100 * (get_sleep_interval ⟨0, []⟩ ⟨⟨[], 10000, [], 0, 20, 0, [], false⟩, true⟩ 1999 0).1 :=
  ⟨by decide,
   (get_sleep_interval_jitter_bound ⟨0, []⟩ ⟨⟨[], 10000, [], 0, 20, 0, [], false⟩, true⟩ 1999 0
      rfl (by decide) (by decide)).1⟩

/-- C16, for a configuration file whose image holds `jitter_percent = 500`: `load_config`
stores the image as it is, so after `reset_config` and `load_config` the stored
`jitter_percent` is 500, outside `[0, 100]`. -/
theorem load_config_breaks_jitter_invariant :
    (load_config (some ⟨cstr "10.0.0.5", 10000, cstr "agent-00000001", 3, 500, 0, [], false⟩)
      (reset_config ⟨0, []⟩ ConfigState.start)).1 = true ∧
    (run_ops ⟨0, []⟩ [ConfigOp.reset_config,
      ConfigOp.load_config
        (some ⟨cstr "10.0.0.5", 10000, cstr "agent-00000001", 3, 500, 0, [], false⟩)]
      ).config.jitter_percent = 500 := by
  decide

/-! ## Command execution -/

/-- The characters before the first occurrence of `c`, in terms of `strchr`. -/
theorem strchr_takeWhile (c : Byte) : ∀ s : List Byte,
    (∀ i, strchr s c = some i → s.take i = s.takeWhile (fun b => b ≠ c)) ∧
    (strchr s c = none → s.takeWhile (fun b => b ≠ c) = s)
  | [] => by simp [strchr]
  | x :: rest => by
    obtain ⟨ih1, ih2⟩ := strchr_takeWhile c rest
    by_cases hx : x = c
    · subst hx
      constructor
      · intro i hi
        simp only [strchr, if_true, Option.some.injEq] at hi
        subst hi
        simp [List.takeWhile_cons]
      · intro h
        simp [strchr] at h
    · have hp : decide (x ≠ c) = true := by simpa using hx
      constructor
      · intro i hi
        simp only [strchr, if_neg hx, Option.map_eq_some'] at hi
        obtain ⟨j, hj, rfl⟩ := hi
        rw [List.takeWhile_cons, hp, if_pos rfl, List.take_succ_cons, ih1 j hj]
      · intro h
        simp only [strchr, if_neg hx, Option.map_eq_none'] at h
        rw [List.takeWhile_cons, hp, if_pos rfl, ih2 h]

/-- On a non-empty string `parse_command` succeeds, and the command is the text before
the first space. -/
theorem parse_command_name (s : List Byte) (hs : s ≠ []) :
    ∃ args, parse_command (some s) = some (command_name s, args) := by
  obtain ⟨h1, h2⟩ := strchr_takeWhile (ch ' ') s
  simp only [parse_command, if_neg hs, command_name]
  cases hsp : strchr s (ch ' ') with
  | none =>
    refine ⟨[], ?_⟩
    rw [h2 hsp]
  | some i =>
    refine ⟨if s.drop (i + 1) = [] then [] else s.drop (i + 1), ?_⟩
    rw [← h1 i hsp]

/-- The run of `execute_command` on a command whose name is not in the registry. -/
theorem execute_command_unknown (f : CommandFunctions) (s : List Byte) (hs : s ≠ [])
    (hname : command_name s ∉ [cstr "cd", cstr "pwd", cstr "ls", cstr "cp", cstr "whoami",
      cstr "mkdir"]) :
    execute_command f (some s)
      = match sprintf_s 100 (cstr "Error: Unknown command '" ++ command_name s ++ cstr "'") with
        | .done result => .done (some result)
        | .fault => .fault := by
  obtain ⟨args, hp⟩ := parse_command_name s hs
  simp only [List.mem_cons, List.mem_singleton, List.not_mem_nil, or_false, not_or] at hname
  obtain ⟨n1, n2, n3, n4, n5, n6⟩ := hname
  have hfind : (commands f).find? (fun entry => decide (entry.1 = command_name s)) = none := by
    simp [commands, List.find?, Ne.symm n1, Ne.symm n2, Ne.symm n3, Ne.symm n4, Ne.symm n5,
      Ne.symm n6]
  simp only [execute_command, if_neg hs, hp, hfind]

/-- C18, for a command name of 75 letters `x`: the message would need 101 bytes with its
NUL, so `sprintf_s` into the 100-byte buffer fails and `execute_command` does not
return the message. -/
theorem execute_command_long_name_fails :
    command_name (List.replicate 75 (ch 'x')) = List.replicate 75 (ch 'x') ∧
    execute_command
      ⟨fun _ => none, fun _ => none, fun _ => none, fun _ => none, fun _ => none, fun _ => none⟩
      (some (List.replicate 75 (ch 'x'))) = Exec.fault := by
  decide

/-- C18 (amended): for every non-empty command string whose command name (the text
before the first space) is at most 74 bytes long and is not one of `cd`, `pwd`, `ls`,
`cp`, `whoami`, `mkdir`, `execute_command` returns exactly the string
`Error: Unknown command '<name>'` with that name, and does not fail. -/
theorem execute_command_unknown_command (f : CommandFunctions) (s : List Byte) (hs : s ≠ [])
    (hlen : (command_name s).length ≤ 74)
    (hname : command_name s ∉ [cstr "cd", cstr "pwd", cstr "ls", cstr "cp", cstr "whoami",
      cstr "mkdir"]) :
    execute_command f (some s)
      = Exec.done (some (cstr "Error: Unknown command '" ++ command_name s ++ cstr "'")) := by
  rw [execute_command_unknown f s hs hname]
  have hfit : (cstr "Error: Unknown command '" ++ command_name s ++ cstr "'").length < 100 := by
    have h1 : (cstr "Error: Unknown command '").length = 24 := by decide
    have h2 : (cstr "'").length = 1 := by decide
    rw [List.length_append, List.length_append, h1, h2]
    omega
  simp only [sprintf_s, if_pos hfit]

/-- Witness for C18 (amended): the command string `bogus arg1 arg2`. -/
theorem execute_command_unknown_command_witness :
    execute_command
      ⟨fun _ => none, fun _ => none, fun _ => none, fun _ => none, fun _ => none, fun _ => none⟩
      (some (cstr "bogus arg1 arg2"))
      = Exec.done (some (cstr "Error: Unknown command '" ++ command_name (cstr "bogus arg1 arg2")
          ++ cstr "'")) ∧
    command_name (cstr "bogus arg1 arg2") = cstr "bogus" :=
  ⟨execute_command_unknown_command _ (cstr "bogus arg1 arg2") (by decide) (by decide)
      (by decide), by decide⟩

/-! ## The poll loop -/

/-- A pass of the loop when the tasking lookup brings no command: one lookup, then the
sleep. -/
theorem command_loop_body_no_command (env : LoopEnv) (agent_id domain : List Byte)
    (sleep_interval : Nat) (st : LoopState) (c : Option (List Byte))
    (hreq : (dns_request_command agent_id domain (env.answers st.lookups)).2 = Exec.done c)
    (hc : no_command c) :
    command_loop_body env agent_id domain sleep_interval st
      = Exec.done ⟨st.ticks, st.lookups + 1,
          st.trace ++ [LoopEvent.tasking ⟨cstr "cmd." ++ agent_id ++ cstr "." ++ domain, domain⟩,
            LoopEvent.sleep sleep_interval]⟩ := by
  have hlookup : (dns_request_command agent_id domain (env.answers st.lookups)).1
      = ⟨cstr "cmd." ++ agent_id ++ cstr "." ++ domain, domain⟩ := rfl
  rcases hc with rfl | rfl
  · simp only [command_loop_body, hreq, hlookup, List.append_assoc, List.singleton_append]
  · simp only [command_loop_body, hreq, hlookup, List.length_nil, gt_iff_lt, Nat.lt_irrefl,
      if_false, List.append_assoc, List.singleton_append]

/-- What `dns_request_command` returns when tasking is unavailable. -/
theorem dns_request_command_unavailable (agent_id domain : List Byte)
    (answer : Option (List Byte)) (h : tasking_unavailable answer) :
    ∃ c, (dns_request_command agent_id domain answer).2 = Exec.done c ∧ no_command c ∧
      (answer = none → c = none) ∧
      (∀ a, answer = some a → base64_decode a = Exec.done none → c = none) := by
  rcases h with rfl | ⟨a, rfl, hd⟩ | ⟨a, decoded, n, rfl, hd, hempty⟩
  · exact ⟨none, rfl, Or.inl rfl, fun _ => rfl, fun _ _ _ => rfl⟩
  · refine ⟨none, ?_, Or.inl rfl, fun _ => rfl, fun _ _ _ => rfl⟩
    simp only [dns_request_command, hd]
  · refine ⟨some [], ?_, Or.inr rfl, fun h => (by cases h), fun a2 h2 hd2 => ?_⟩
    · simp only [dns_request_command, hd, hempty]
    · cases h2
      rw [hd] at hd2
      cases hd2

/-- The loop goes on, one lookup per pass, as long as no lookup is answered. -/
theorem loop_cycles_no_answer (env : LoopEnv) (agent_id domain : List Byte)
    (sleep_interval : Nat) (hnone : ∀ k, env.answers k = none) :
    ∀ (cycles : Nat) (st : LoopState),
      ∃ st', loop_cycles (command_loop_body env agent_id domain sleep_interval) cycles st
          = Exec.done st' ∧ st'.lookups = st.lookups + cycles ∧
        st'.trace.length = st.trace.length + 2 * cycles
  | 0, st => ⟨st, rfl, rfl, rfl⟩
  | cycles + 1, st => by
    have hbody := command_loop_body_no_command env agent_id domain sleep_interval st none
      (by simp [dns_request_command, hnone]) (Or.inl rfl)
    obtain ⟨st', h1, h2, h3⟩ := loop_cycles_no_answer env agent_id domain sleep_interval hnone
      cycles ⟨st.ticks, st.lookups + 1,
          st.trace ++ [LoopEvent.tasking ⟨cstr "cmd." ++ agent_id ++ cstr "." ++ domain, domain⟩,
            LoopEvent.sleep sleep_interval]⟩
    refine ⟨st', ?_, ?_, ?_⟩
    · simp only [loop_cycles, hbody]
      exact h1
    · rw [h2]
      simp only
      omega
    · rw [h3]
      simp only [List.length_append, List.length_cons, List.length_nil]
      omega

/-- C17, with kill date 20200101 and current date 20250101: `should_exit_kill_date`
returns `TRUE`, but `command_loop` never calls it.  Whatever number of passes is
observed, the loop has not ended and has issued one tasking lookup in each pass. -/
theorem command_loop_ignores_kill_date :
    (should_exit_kill_date ⟨0, []⟩ ⟨125, 0, 1⟩
      (set_kill_date ⟨0, []⟩ 20200101 (reset_config ⟨0, []⟩ ConfigState.start))).1 = true ∧
    ∀ (cycles : Nat) (functions : CommandFunctions),
      ∃ st, command_loop ⟨0, []⟩ ⟨fun _ => 1, fun _ => none, functions⟩ 0 0
          (set_kill_date ⟨0, []⟩ 20200101 (reset_config ⟨0, []⟩ ConfigState.start)) cycles
          = Exec.done st ∧ st.lookups = cycles := by
  refine ⟨by decide, fun cycles functions => ?_⟩
  obtain ⟨st, h1, h2, _⟩ := loop_cycles_no_answer ⟨fun _ => 1, fun _ => none, functions⟩
    (cstr "agent-" ++ hex8 1)
    (get_c2_domain ⟨0, []⟩
      (set_kill_date ⟨0, []⟩ 20200101 (reset_config ⟨0, []⟩ ConfigState.start))).1
    (get_sleep_interval ⟨0, []⟩ (get_c2_domain ⟨0, []⟩
      (set_kill_date ⟨0, []⟩ 20200101 (reset_config ⟨0, []⟩ ConfigState.start))).2 0 0).1
    (fun _ => rfl) cycles ⟨1, 0, []⟩
  exact ⟨st, h1, by simpa using h2⟩

/-- C20: when the tasking lookup returns no answer, an answer that `base64_decode`
rejects, or an answer that it decodes to the empty string, `dns_request_command`
returns no command (NULL in the first two cases, NULL or the empty string in all), and
that pass of `command_loop` consists of the tasking lookup and the sleep alone: no
command is executed and no result query is issued; the next pass follows. -/
theorem tasking_unavailable_cycle (env : LoopEnv) (agent_id domain : List Byte)
    (sleep_interval : Nat) (st : LoopState)
    (h : tasking_unavailable (env.answers st.lookups)) :
    (∃ c, (dns_request_command agent_id domain (env.answers st.lookups)).2 = Exec.done c ∧
      no_command c ∧
      (env.answers st.lookups = none → c = none) ∧
      (∀ a, env.answers st.lookups = some a → base64_decode a = Exec.done none → c = none)) ∧
    command_loop_body env agent_id domain sleep_interval st
      = Exec.done ⟨st.ticks, st.lookups + 1,
          st.trace ++ [LoopEvent.tasking ⟨cstr "cmd." ++ agent_id ++ cstr "." ++ domain, domain⟩,
            LoopEvent.sleep sleep_interval]⟩ ∧
    (∀ cycles, loop_cycles (command_loop_body env agent_id domain sleep_interval) (cycles + 1) st
      = loop_cycles (command_loop_body env agent_id domain sleep_interval) cycles
          ⟨st.ticks, st.lookups + 1,
            st.trace ++ [LoopEvent.tasking ⟨cstr "cmd." ++ agent_id ++ cstr "." ++ domain, domain⟩,
              LoopEvent.sleep sleep_interval]⟩) := by
  obtain ⟨c, hreq, hno, h1, h2⟩ := dns_request_command_unavailable agent_id domain _ h
  have hbody := command_loop_body_no_command env agent_id domain sleep_interval st c hreq hno
  refine ⟨⟨c, hreq, hno, h1, h2⟩, hbody, fun cycles => ?_⟩
  simp only [loop_cycles, hbody]

/-- Witness for C20: the answer `====` decodes to a buffer whose string is empty; the
pass makes the tasking lookup and sleeps. -/
theorem tasking_unavailable_cycle_witness :
    command_loop_body
      ⟨fun _ => 1, fun _ => some (cstr "===="),
        ⟨fun _ => none, fun _ => none, fun _ => none, fun _ => none, fun _ => none, fun _ => none⟩⟩
      (cstr "agent-00000001") (cstr "10.0.0.5") 10000 ⟨1, 0, []⟩
      = Exec.done ⟨1, 0 + 1, [] ++ [LoopEvent.tasking
          ⟨cstr "cmd." ++ cstr "agent-00000001" ++ cstr "." ++ cstr "10.0.0.5", cstr "10.0.0.5"⟩,
          LoopEvent.sleep 10000]⟩ :=
  (tasking_unavailable_cycle
    ⟨fun _ => 1, fun _ => some (cstr "===="),
      ⟨fun _ => none, fun _ => none, fun _ => none, fun _ => none, fun _ => none, fun _ => none⟩⟩
    (cstr "agent-00000001") (cstr "10.0.0.5") 10000 ⟨1, 0, []⟩
    (Or.inr (Or.inr ⟨cstr "====", [0], 1, rfl, by decide, by decide⟩))).2.1

/-! ## The response queries of the framework-compatible dialect -/

theorem mythic_send_loop_succ (api : Mythic.MythicApi) (msg domain : List Byte)
    (answers : Nat → Option (List Byte)) (n todo i : Nat) (sent : List ChunkQuery) :
    Mythic.send_loop api msg domain answers n (todo + 1) i sent
      = if acknowledged (answers i) then
          Mythic.send_loop api msg domain answers n todo (i + 1)
            (sent ++ [Mythic.chunk_query api msg domain n i])
        else (false, sent ++ [Mythic.chunk_query api msg domain n i]) := rfl

/-- The queries issued by the loop are those of consecutive passes. -/
theorem mythic_send_loop_queries (api : Mythic.MythicApi) (msg domain : List Byte)
    (answers : Nat → Option (List Byte)) (n : Nat) :
    ∀ (todo i : Nat) (sent : List ChunkQuery),
      ∃ m, m ≤ todo ∧
        (Mythic.send_loop api msg domain answers n todo i sent).2
          = sent ++ (List.range' i m).map (Mythic.chunk_query api msg domain n)
  | 0, i, sent => ⟨0, Nat.le_refl _, by simp [Mythic.send_loop]⟩
  | todo + 1, i, sent => by
    rw [mythic_send_loop_succ]
    by_cases hack : acknowledged (answers i) = true
    · rw [if_pos hack]
      obtain ⟨m, hm, h⟩ := mythic_send_loop_queries api msg domain answers n todo (i + 1)
        (sent ++ [Mythic.chunk_query api msg domain n i])
      refine ⟨m + 1, by omega, ?_⟩
      rw [h, List.range'_succ]
      simp
    · rw [if_neg hack]
      exact ⟨1, by omega, by simp [List.range'_succ]⟩

/-- The queries issued by `dns_send_result` of `Transport copy.c` for the message
`msg`. -/
theorem mythic_dns_send_result_queries (api : Mythic.MythicApi) (g result domain msg : List Byte)
    (answers : Nat → Option (List Byte))
    (hmsg : api.mythic_create_response_message g result = some msg) :
    ∃ m, m ≤ (msg.length + Mythic.MAX_DNS_CHUNK_SIZE - 1) / Mythic.MAX_DNS_CHUNK_SIZE ∧
      (Mythic.dns_send_result api g (some result) domain answers).2
        = (List.range m).map (Mythic.chunk_query api msg domain
            ((msg.length + Mythic.MAX_DNS_CHUNK_SIZE - 1) / Mythic.MAX_DNS_CHUNK_SIZE)) := by
  obtain ⟨m, hm, h⟩ := mythic_send_loop_queries api msg domain answers
    ((msg.length + Mythic.MAX_DNS_CHUNK_SIZE - 1) / Mythic.MAX_DNS_CHUNK_SIZE)
    ((msg.length + Mythic.MAX_DNS_CHUNK_SIZE - 1) / Mythic.MAX_DNS_CHUNK_SIZE) 0 []
  refine ⟨m, hm, ?_⟩
  simp only [Mythic.dns_send_result, hmsg, h, List.nil_append, List.range_eq_range']

/-- Chunk `i` is the slice of the message that starts at byte `i * 15` and has at most
15 bytes. -/
theorem mythic_chunk_query_slice (api : Mythic.MythicApi) (msg domain : List Byte) (i : Nat)
    (hi : i < (msg.length + Mythic.MAX_DNS_CHUNK_SIZE - 1) / Mythic.MAX_DNS_CHUNK_SIZE) :
    (Mythic.chunk_query api msg domain
      ((msg.length + Mythic.MAX_DNS_CHUNK_SIZE - 1) / Mythic.MAX_DNS_CHUNK_SIZE) i).chunk
      = (msg.drop (i * Mythic.MAX_DNS_CHUNK_SIZE)).take Mythic.MAX_DNS_CHUNK_SIZE := by
  simp only [Mythic.chunk_query]
  split_ifs with hlast
  · rw [List.take_of_length_le (by rw [List.length_drop]),
      List.take_of_length_le (by
        rw [List.length_drop]
        simp only [Mythic.MAX_DNS_CHUNK_SIZE] at hlast hi ⊢
        omega)]
  · rfl

/-- C19, for an agent UUID `U1` and a task whose id `T1` the tasking parse has stored:
the response query carries `U1`, the value of `mythic_get_uuid()`, where the claim
puts the task id; the task id only enters the message that is cut into chunks. -/
theorem response_query_carries_uuid :
    (Mythic.dns_request_command
      ⟨cstr "U1", fun t r => some (t ++ cstr ":" ++ r),
        fun _ _ => some ⟨cstr "T1", cstr "pwd", []⟩⟩
      [] (cstr "10.0.0.5") (some (cstr "cHdk"))).2
      = Exec.done (some (cstr "pwd "), cstr "T1") ∧
    (Mythic.dns_send_result
      ⟨cstr "U1", fun t r => some (t ++ cstr ":" ++ r),
        fun _ _ => some ⟨cstr "T1", cstr "pwd", []⟩⟩
      (cstr "T1") (some (cstr "ok")) (cstr "10.0.0.5") (fun _ => some (cstr "ACK"))).2
      = [⟨0, cstr "T1:ok", cstr "response-U1-0-VDE6b2s=.10.0.0.5", cstr "10.0.0.5"⟩] ∧
    cstr "response-U1-0-VDE6b2s=.10.0.0.5"
      ≠ cstr "response-" ++ cstr "T1" ++ cstr "-" ++ Mythic.decimal 0 ++ cstr "-"
          ++ (base64_encode (cstr "T1:ok")).1 ++ cstr "." ++ cstr "10.0.0.5" := by
  decide

/-- C19 (amended): for every send of the framework-compatible dialect, the query issued
for the chunk with 0-based index `i` is exactly `response-` followed by `U`, `-`, the
decimal digits of `i`, `-`, `base64_encode(chunk_i)`, `.` and the address, where `U` is
the string returned by `mythic_get_uuid()` and `chunk_i` is the slice of at most 15
bytes, starting at byte `15 i`, of the message that `mythic_create_response_message`
builds from the stored task id and the result; the indices of the issued queries are
`0, 1, 2, …` in order; and the stored task id is the id of the task read by the most
recent successful tasking parse. -/
theorem response_query_names (api : Mythic.MythicApi) (g result domain : List Byte)
    (answers : Nat → Option (List Byte)) :
    ((Mythic.dns_send_result api g (some result) domain answers).2.map ChunkQuery.index
      = List.range (Mythic.dns_send_result api g (some result) domain answers).2.length) ∧
    (∀ q ∈ (Mythic.dns_send_result api g (some result) domain answers).2,
      q.query = cstr "response-" ++ api.mythic_get_uuid ++ cstr "-" ++ Mythic.decimal q.index
        ++ cstr "-" ++ (base64_encode q.chunk).1 ++ cstr "." ++ domain ∧
      ∃ msg, api.mythic_create_response_message g result = some msg ∧
        q.chunk = (msg.drop (q.index * 15)).take 15) ∧
    (∀ (g0 encoded decoded : List Byte) (n : Nat) (task : Mythic.MythicTask),
      base64_decode encoded = Exec.done (some (decoded, n)) →
      api.mythic_parse_tasking_message decoded n = some task →
      (Mythic.dns_request_command api g0 domain (some encoded)).2
        = Exec.done (some (task.command ++ cstr " " ++ task.params), task.id)) := by
  refine ⟨?_, ?_, ?_⟩
  · cases hmsg : api.mythic_create_response_message g result with
    | none => simp [Mythic.dns_send_result, hmsg]
    | some msg =>
      obtain ⟨m, _, h⟩ := mythic_dns_send_result_queries api g result domain msg answers hmsg
      rw [h, List.map_map]
      have : (ChunkQuery.index ∘ Mythic.chunk_query api msg domain
          ((msg.length + Mythic.MAX_DNS_CHUNK_SIZE - 1) / Mythic.MAX_DNS_CHUNK_SIZE)) = id := rfl
      rw [this, List.map_id]
      simp
  · intro q hq
    cases hmsg : api.mythic_create_response_message g result with
    | none => simp [Mythic.dns_send_result, hmsg] at hq
    | some msg =>
      obtain ⟨m, hm, h⟩ := mythic_dns_send_result_queries api g result domain msg answers hmsg
      rw [h] at hq
      simp only [List.mem_map, List.mem_range] at hq
      obtain ⟨i, hi, rfl⟩ := hq
      refine ⟨rfl, msg, rfl, ?_⟩
      exact mythic_chunk_query_slice api msg domain i (by omega)
  · intro g0 encoded decoded n task hd hp
    simp only [Mythic.dns_request_command, hd, hp]

/-! ## The liveness probe -/

/-- C21: for every address `D`, `dns_check_server(D)` looks up the name
`cmd.test-agent.D`, the tasking form for the agent id `test-agent`, at the resolver `D`,
and returns `TRUE` exactly when the resolver client returns an answer; the content of
the answer is not looked at (a TXT answer with any first string, the empty one
included, gives `TRUE`). -/
theorem dns_check_server_reachable (D : List Byte) (replies : Nat → DnsReply) :
    (dns_check_server D replies).1 = ⟨cstr "cmd.test-agent." ++ D, D⟩ ∧
    (∀ answer, (dns_check_server D replies).1
      = (dns_request_command (cstr "test-agent") D answer).1) ∧
    ((dns_check_server D replies).2 = true
      ↔ ∃ a, (dns_txt_query_with_server replies).result = some a) ∧
    (∀ content : List Byte, replies 0 = ⟨ERROR_SUCCESS, some ⟨DNS_TYPE_TEXT, [content]⟩⟩ →
      (dns_check_server D replies).2 = true) := by
  refine ⟨rfl, fun _ => ?_, ?_, fun content h0 => ?_⟩
  · simp only [dns_check_server, dns_request_command, List.append_assoc]
    rfl
  · simp only [dns_check_server, Option.isSome_iff_exists]
  · simp [dns_check_server, dns_txt_query_with_server, txt_query_loop, MAX_DNS_RETRIES, h0]

/-! ## The kill date -/

/-- The date computed by `should_exit_kill_date` does not leave the range of a `DWORD`
for a four-digit year. -/
theorem should_exit_kill_date_eq (env : ConfigEnv) (tm_now : Tm) (s : ConfigState)
    (hyear : tm_now.tm_year + 1900 ≤ 9999) (hmon : tm_now.tm_mon + 1 ≤ 12)
    (hday : tm_now.tm_mday ≤ 31) :
    (should_exit_kill_date env tm_now s).1
      = if (init_config env s).config.kill_date = 0 then false
        else decide (yyyymmdd (tm_now.tm_year + 1900) (tm_now.tm_mon + 1) tm_now.tm_mday
          ≥ (init_config env s).config.kill_date) := by
  have hlt : ((tm_now.tm_year + 1900) * 10000 + (tm_now.tm_mon + 1) * 100 + tm_now.tm_mday)
      % 2 ^ 32
      = (tm_now.tm_year + 1900) * 10000 + (tm_now.tm_mon + 1) * 100 + tm_now.tm_mday := by
    apply Nat.mod_eq_of_lt
    omega
  simp only [should_exit_kill_date, yyyymmdd, hlt]
  split_ifs <;> rfl

/-- C26: `should_exit_kill_date` returns `FALSE` whenever the configured kill date is 0,
and otherwise returns `TRUE` exactly when the current local date (a four-digit year,
a month and a day), written as the number `YYYYMMDD`, is greater than or equal to the
kill date. -/
theorem should_exit_kill_date_spec (env : ConfigEnv) (tm_now : Tm) (s : ConfigState)
    (hyear : tm_now.tm_year + 1900 ≤ 9999) (hmon : tm_now.tm_mon + 1 ≤ 12)
    (hday : tm_now.tm_mday ≤ 31) :
    ((init_config env s).config.kill_date = 0 →
      (should_exit_kill_date env tm_now s).1 = false) ∧
    ((init_config env s).config.kill_date ≠ 0 →
      ((should_exit_kill_date env tm_now s).1 = true ↔
        yyyymmdd (tm_now.tm_year + 1900) (tm_now.tm_mon + 1) tm_now.tm_mday
          ≥ (init_config env s).config.kill_date)) := by
  rw [should_exit_kill_date_eq env tm_now s hyear hmon hday]
  refine ⟨fun h0 => by rw [if_pos h0], fun hne => ?_⟩
  rw [if_neg hne, decide_eq_true_iff]

/-- Witness for C26: kill date 20200101 and current date 20250101 give `TRUE`; with no
kill date the answer is `FALSE`. -/
theorem should_exit_kill_date_spec_witness :
    (should_exit_kill_date ⟨0, []⟩ ⟨125, 0, 1⟩
      (set_kill_date ⟨0, []⟩ 20200101 ConfigState.start)).1 = true ∧
    (should_exit_kill_date ⟨0, []⟩ ⟨125, 0, 1⟩ ConfigState.start).1 = false :=
  ⟨((should_exit_kill_date_spec ⟨0, []⟩ ⟨125, 0, 1⟩
      (set_kill_date ⟨0, []⟩ 20200101 ConfigState.start)
      (by decide) (by decide) (by decide)).2 (by decide)).mpr (by decide),
   (should_exit_kill_date_spec ⟨0, []⟩ ⟨125, 0, 1⟩ ConfigState.start
      (by decide) (by decide) (by decide)).1 (by decide)⟩

/-! ## The size of the encoded chunks -/

/-- No pass of the loop of `dns_send_result` copies more than `MAX_DNS_CHUNK_SIZE` bytes. -/
theorem chunk_query_length_le (agent_id result_id result domain : List Byte) (i : Nat) :
    (chunk_query agent_id result_id result domain
      ((result.length + MAX_DNS_CHUNK_SIZE - 1) / MAX_DNS_CHUNK_SIZE) i).chunk.length
      ≤ MAX_DNS_CHUNK_SIZE := by
  simp only [chunk_query, List.length_take, List.length_drop, MAX_DNS_CHUNK_SIZE]
  split_ifs with h <;> omega

/-- No pass of the loop of `dns_send_result` of `Transport copy.c` copies more than
`MAX_DNS_CHUNK_SIZE` bytes. -/
theorem mythic_chunk_query_length_le (api : Mythic.MythicApi) (msg domain : List Byte) (i : Nat) :
    (Mythic.chunk_query api msg domain
      ((msg.length + Mythic.MAX_DNS_CHUNK_SIZE - 1) / Mythic.MAX_DNS_CHUNK_SIZE) i).chunk.length
      ≤ Mythic.MAX_DNS_CHUNK_SIZE := by
  simp only [Mythic.chunk_query, List.length_take, List.length_drop, Mythic.MAX_DNS_CHUNK_SIZE]
  split_ifs with h <;> omega

/-- C27: every chunk that `dns_send_result` places in a query has at most 30 raw bytes
and a text encoding of at most 40 characters in the minimal dialect, at most 15 raw
bytes and 20 characters in the framework-compatible dialect; the encoding is what the
query name carries, and it is never longer than the 63 characters of a DNS label. -/
theorem encoded_chunk_length_bound (agent_id result_id domain g : List Byte)
    (result : Option (List Byte)) (answers : Nat → Option (List Byte))
    (api : Mythic.MythicApi) :
    (∀ q ∈ (dns_send_result agent_id result_id result domain answers).2,
      q.chunk.length ≤ 30 ∧ (base64_encode q.chunk).1.length ≤ 40 ∧
      (base64_encode q.chunk).1.length ≤ 63 ∧
      q.query = result_query agent_id result_id (base64_encode q.chunk).1 domain) ∧
    (∀ q ∈ (Mythic.dns_send_result api g result domain answers).2,
      q.chunk.length ≤ 15 ∧ (base64_encode q.chunk).1.length ≤ 20 ∧
      (base64_encode q.chunk).1.length ≤ 63 ∧
      q.query = Mythic.response_query api.mythic_get_uuid q.index (base64_encode q.chunk).1
        domain) := by
  constructor
  · intro q hq
    cases result with
    | none => simp [dns_send_result] at hq
    | some result =>
      obtain ⟨i, rfl⟩ := dns_send_result_queries agent_id result_id result domain answers q hq
      have hlen := chunk_query_length_le agent_id result_id result domain i
      simp only [MAX_DNS_CHUNK_SIZE] at hlen
      rw [base64_encode_length]
      simp only [MAX_DNS_CHUNK_SIZE]
      refine ⟨hlen, by omega, by omega, rfl⟩
  · intro q hq
    cases result with
    | none => simp [Mythic.dns_send_result] at hq
    | some result =>
      cases hmsg : api.mythic_create_response_message g result with
      | none => simp [Mythic.dns_send_result, hmsg] at hq
      | some msg =>
        obtain ⟨m, _, h⟩ := mythic_dns_send_result_queries api g result domain msg answers hmsg
        rw [h] at hq
        simp only [List.mem_map, List.mem_range] at hq
        obtain ⟨i, _, rfl⟩ := hq
        have hlen := mythic_chunk_query_length_le api msg domain i
        simp only [Mythic.MAX_DNS_CHUNK_SIZE] at hlen
        rw [base64_encode_length]
        simp only [Mythic.MAX_DNS_CHUNK_SIZE]
        refine ⟨hlen, by omega, by omega, rfl⟩

/-! ## The empty result -/

/-- C30: for the empty result string, whatever the agent id, the result id, the address
and the answers of the resolver, `dns_send_result` issues no query and returns `TRUE`. -/
theorem dns_send_result_empty_result (agent_id result_id domain : List Byte)
    (answers : Nat → Option (List Byte)) :
    (dns_send_result agent_id result_id (some []) domain answers).2 = [] ∧
    (dns_send_result agent_id result_id (some []) domain answers).1 = true := by
  constructor <;> rfl

/-! ## What `parse_package` accepts -/

/-- On enumerators, `create_package_of_code` is `create_package`. -/
theorem create_package_of_code_eq (T : PackageType) (data : List Byte) :
    create_package_of_code T.code data = create_package T data := rfl

/-- The little-endian bytes of the low 32 bits of the length stored by `parse_package`
are the four length bytes of the buffer. -/
theorem length_field_bytes (p1 p2 p3 p4 : Byte) :
    toByte (size_t_of_int (int_of_bits
        (p1.val ||| (p2.val <<< 8) ||| (p3.val <<< 16) ||| (p4.val <<< 24))) &&& 0xFF) = p1 ∧
    toByte ((size_t_of_int (int_of_bits
        (p1.val ||| (p2.val <<< 8) ||| (p3.val <<< 16) ||| (p4.val <<< 24))) >>> 8) &&& 0xFF) = p2 ∧
    toByte ((size_t_of_int (int_of_bits
        (p1.val ||| (p2.val <<< 8) ||| (p3.val <<< 16) ||| (p4.val <<< 24))) >>> 16) &&& 0xFF) = p3 ∧
    toByte ((size_t_of_int (int_of_bits
        (p1.val ||| (p2.val <<< 8) ||| (p3.val <<< 16) ||| (p4.val <<< 24))) >>> 24) &&& 0xFF) = p4 := by
  rw [length_field_value]
  have h1 := p1.isLt
  have h2 := p2.isLt
  have h3 := p3.isLt
  have h4 := p4.isLt
  simp only [mask_byte, Nat.shiftRight_eq_div_pow]
  refine ⟨toByte_eq _ _ ?_, toByte_eq _ _ ?_, toByte_eq _ _ ?_, toByte_eq _ _ ?_⟩ <;>
    split_ifs <;> omega

/-- What an accepted buffer looks like: it has at least five bytes, the stored type is
its byte 0, the stored length is the length of the stored payload, and the payload is
what follows byte 4, cut at that length. -/
theorem parse_package_accepted (package : List Byte) (p : Parsed)
    (h : parse_package (some package) = Exec.done (some p)) :
    ∃ (p0 p1 p2 p3 p4 : Byte) (rest : List Byte),
      package = p0 :: p1 :: p2 :: p3 :: p4 :: rest ∧ p.type = p0.val ∧
      p.data_len = size_t_of_int (int_of_bits
        (p1.val ||| (p2.val <<< 8) ||| (p3.val <<< 16) ||| (p4.val <<< 24))) ∧
      p.data_len ≤ rest.length ∧ p.data = rest.take p.data_len ∧
      p.data.length = p.data_len := by
  match package, h with
  | [], h => simp [parse_package] at h
  | [_], h => simp [parse_package] at h
  | [_, _], h => simp [parse_package] at h
  | [_, _, _], h => simp [parse_package] at h
  | [_, _, _, _], h => simp [parse_package] at h
  | p0 :: p1 :: p2 :: p3 :: p4 :: rest, h =>
    rw [parse_package_cons] at h
    split_ifs at h with hgt
    · simp at h
    · simp only [Exec.done.injEq, Option.some.injEq] at h
      subst h
      refine ⟨p0, p1, p2, p3, p4, rest, rfl, rfl, rfl, by simpa using hgt, rfl, ?_⟩
      simp only [List.length_take]
      omega

/-- C28: for every buffer that `parse_package` accepts, with stored type `T` and payload
`d`, `create_package(T, d)` is exactly the first `5 + len d` bytes of the buffer; the
bytes after them are ignored (any other bytes in their place give the same result), and
the type byte is not validated (any other type byte is accepted as well and stored as
it is). -/
theorem parse_package_accepted_bytes (package : List Byte) (p : Parsed)
    (h : parse_package (some package) = Exec.done (some p)) :
    (create_package_of_code p.type p.data).1 = package.take (5 + p.data.length) ∧
    (∀ tail : List Byte,
      parse_package (some (package.take (5 + p.data.length) ++ tail)) = Exec.done (some p)) ∧
    (∀ t : Byte,
      parse_package (some (t :: package.drop 1))
        = Exec.done (some ⟨t.val, p.data_len, p.data⟩)) := by
  obtain ⟨p0, p1, p2, p3, p4, rest, rfl, htype, hlen, hle, hdata, hdl⟩ :=
    parse_package_accepted package p h
  obtain ⟨b1, b2, b3, b4⟩ := length_field_bytes p1 p2 p3 p4
  rw [← hlen] at b1 b2 b3 b4
  have hnot : ¬ p.data_len > rest.length := by omega
  have e : 5 + p.data_len = p.data_len + 1 + 1 + 1 + 1 + 1 := by omega
  have hp : p = ⟨p0.val, p.data_len, p.data⟩ := by
    cases p
    simp only at htype
    rw [htype]
  refine ⟨?_, fun tail => ?_, fun t => ?_⟩
  · simp only [create_package_of_code, List.cons_append, List.nil_append, hdl, b1, b2, b3, b4,
      htype, toByte_val, e, List.take_succ_cons]
    rw [← hdata]
  · have hnot2 : ¬ p.data_len > (rest.take p.data_len ++ tail).length := by
      simp only [List.length_append, List.length_take]
      omega
    simp only [hdl, e, List.take_succ_cons, List.cons_append]
    rw [parse_package_cons, ← hlen, if_neg hnot2]
    have e2 : (rest.take p.data_len ++ tail).take p.data_len = p.data := by
      rw [List.take_append_of_le_length (by simp only [List.length_take]; omega),
        List.take_take, Nat.min_self, ← hdata]
    rw [e2, ← hp]
  · simp only [List.drop_succ_cons, List.drop_zero]
    rw [parse_package_cons, ← hlen, if_neg hnot, ← hdata]

/-- Witness for C28: a buffer with type byte 9, one payload byte and two more bytes. -/
theorem parse_package_accepted_bytes_witness :
    parse_package (some [9, 1, 0, 0, 0, 65, 66, 67]) = Exec.done (some ⟨9, 1, [65]⟩) ∧
    (create_package_of_code 9 [65]).1 = [9, 1, 0, 0, 0, 65] ∧
    parse_package (some ([9, 1, 0, 0, 0, 65] ++ [])) = Exec.done (some ⟨9, 1, [65]⟩) :=
  ⟨by decide,
   (parse_package_accepted_bytes [9, 1, 0, 0, 0, 65, 66, 67] ⟨9, 1, [65]⟩ (by decide)).1,
   (parse_package_accepted_bytes [9, 1, 0, 0, 0, 65, 66, 67] ⟨9, 1, [65]⟩ (by decide)).2.1 []⟩

/-! ## The split at the first space -/

/-- The characters from the first occurrence of `c` on, in terms of `strchr`. -/
theorem strchr_dropWhile (c : Byte) : ∀ s : List Byte,
    (∀ i, strchr s c = some i → s.drop (i + 1) = (s.dropWhile (fun b => b ≠ c)).drop 1) ∧
    (strchr s c = none → (s.dropWhile (fun b => b ≠ c)).drop 1 = [])
  | [] => by simp [strchr]
  | x :: rest => by
    obtain ⟨ih1, ih2⟩ := strchr_dropWhile c rest
    by_cases hx : x = c
    · subst hx
      constructor
      · intro i hi
        simp only [strchr, if_true, Option.some.injEq] at hi
        subst hi
        simp [List.dropWhile_cons]
      · intro h
        simp [strchr] at h
    · have hp : decide (x ≠ c) = true := by simpa using hx
      constructor
      · intro i hi
        simp only [strchr, if_neg hx, Option.map_eq_some'] at hi
        obtain ⟨j, hj, rfl⟩ := hi
        rw [List.dropWhile_cons, hp, if_pos rfl, List.drop_succ_cons, ih1 j hj]
      · intro h
        simp only [strchr, if_neg hx, Option.map_eq_none'] at h
        rw [List.dropWhile_cons, hp, if_pos rfl, ih2 h]

/-- On a non-empty string `parse_command` succeeds; the command is the text before the
first space and the arguments are the text after it. -/
theorem parse_command_split (s : List Byte) (hs : s ≠ []) :
    parse_command (some s) = some (command_name s, after_first_space s) := by
  obtain ⟨h1, h2⟩ := strchr_takeWhile (ch ' ') s
  obtain ⟨h3, h4⟩ := strchr_dropWhile (ch ' ') s
  simp only [parse_command, if_neg hs, command_name, after_first_space]
  cases hsp : strchr s (ch ' ') with
  | none =>
    simp only
    rw [h2 hsp, h4 hsp]
  | some i =>
    simp only
    rw [h1 i hsp, h3 i hsp]
    split_ifs with he
    · rw [he]
    · rfl

/-- The split of a name without spaces, a space and a parameter string. -/
theorem command_name_append (c p : List Byte) (hc : ∀ b ∈ c, b ≠ ch ' ') :
    command_name (c ++ cstr " " ++ p) = c ∧ after_first_space (c ++ cstr " " ++ p) = p := by
  induction c with
  | nil =>
    constructor
    · simp [command_name, cstr, List.takeWhile_cons]
    · simp [after_first_space, cstr, List.dropWhile_cons]
  | cons x rest ih =>
    have hx : x ≠ ch ' ' := hc x (List.mem_cons_self _ _)
    have hp : decide (x ≠ ch ' ') = true := by simpa using hx
    obtain ⟨ih1, ih2⟩ := ih (fun b hb => hc b (List.mem_cons_of_mem _ hb))
    constructor
    · simp only [command_name] at ih1 ⊢
      rw [List.cons_append, List.cons_append, List.takeWhile_cons, hp, if_pos rfl, ih1]
    · simp only [after_first_space] at ih2 ⊢
      rw [List.cons_append, List.cons_append, List.dropWhile_cons, hp, if_pos rfl, ih2]

/-- C29: for every non-empty string `s`, `parse_command` succeeds with the command equal
to the longest prefix of `s` without a space and the arguments equal to everything
after the first space (empty when there is none); so for every command name `c`
without spaces and every parameter string `p`, `parse_command` of `c`, a space and `p`
returns `(c, p)`, and this is what it returns on the command string that
`dns_request_command` of the framework-compatible dialect builds from a task with
command `c` and parameters `p`. -/
theorem parse_command_first_space (s c p : List Byte) (hs : s ≠ [])
    (hc : ∀ b ∈ c, b ≠ ch ' ') :
    parse_command (some s) = some (command_name s, after_first_space s) ∧
    (∀ b ∈ command_name s, b ≠ ch ' ') ∧
    (command_name s = s ∨ ∃ rest, s = command_name s ++ cstr " " ++ rest ∧
      after_first_space s = rest) ∧
    (ch ' ' ∉ s → after_first_space s = []) ∧
    parse_command (some (c ++ cstr " " ++ p)) = some (c, p) ∧
    (∀ (api : Mythic.MythicApi) (g domain encoded decoded id : List Byte) (n : Nat),
      base64_decode encoded = Exec.done (some (decoded, n)) →
      api.mythic_parse_tasking_message decoded n = some ⟨id, c, p⟩ →
      ∃ merged, (Mythic.dns_request_command api g domain (some encoded)).2
          = Exec.done (some merged, id) ∧
        parse_command (some merged) = some (c, p)) := by
  have hmerge : parse_command (some (c ++ cstr " " ++ p)) = some (c, p) := by
    have hne : c ++ cstr " " ++ p ≠ [] := by
      cases c <;> simp [cstr]
    rw [parse_command_split _ hne, (command_name_append c p hc).1, (command_name_append c p hc).2]
  refine ⟨parse_command_split s hs, ?_, ?_, ?_, hmerge, ?_⟩
  · intro b hb
    have := List.mem_takeWhile_imp hb
    simpa using this
  · have hsplit : s = command_name s ++ s.dropWhile (fun b => b ≠ ch ' ') :=
      (List.takeWhile_append_dropWhile _ s).symm
    cases hd : s.dropWhile (fun b => b ≠ ch ' ') with
    | nil =>
      left
      rw [hd, List.append_nil] at hsplit
      exact hsplit.symm
    | cons x rest =>
      right
      have hx : x = ch ' ' := by
        have := List.head_dropWhile_not (fun b => decide (b ≠ ch ' ')) s (by rw [hd]; simp)
        simp only [hd, List.head_cons] at this
        simpa using this
      refine ⟨rest, ?_, ?_⟩
      · conv_lhs => rw [hsplit, hd, hx]
        simp [cstr]
      · simp only [after_first_space, hd, List.drop_succ_cons, List.drop_zero]
  · intro hns
    have : s.dropWhile (fun b => b ≠ ch ' ') = [] := by
      rw [List.dropWhile_eq_nil_iff]
      intro b hb
      have : b ≠ ch ' ' := fun e => hns (e ▸ hb)
      simpa using this
    simp only [after_first_space, this, List.drop_nil]
  · intro api g domain encoded decoded id n hd hp
    refine ⟨c ++ cstr " " ++ p, ?_, hmerge⟩
    simp only [Mythic.dns_request_command, hd, hp]

set_option maxRecDepth 100000 in
/-- Witness for C29: the string `ls -la /tmp` and the task `cp` with parameters `a b`. -/
theorem parse_command_first_space_witness :
    parse_command (some (cstr "ls -la /tmp")) = some (cstr "ls", cstr "-la /tmp") ∧
    parse_command (some (cstr "cp" ++ cstr " " ++ cstr "a b")) = some (cstr "cp", cstr "a b") :=
  ⟨(parse_command_first_space (cstr "ls -la /tmp") (cstr "cp") (cstr "a b")
      (by decide) (by decide)).1.trans (by decide),
   (parse_command_first_space (cstr "ls -la /tmp") (cstr "cp") (cstr "a b")
      (by decide) (by decide)).2.2.2.2.1⟩

/-! ## Where the lookups are sent -/

/-- C23, at the unregister operation for agent `agent-00000001` and address `10.0.0.5`:
the lookup is made by `dns_txt_query`, which passes NULL for the server list, so it goes
to the DNS servers configured in the system and not to `10.0.0.5`. -/
theorem dns_unregister_agent_system_resolver :
    (dns_unregister_agent (cstr "agent-00000001") (cstr "10.0.0.5") none).1
      = [⟨cstr "unregister.agent-00000001.10.0.0.5", DNS_QUERY_STANDARD, none⟩] ∧
    (dns_unregister_agent (cstr "agent-00000001") (cstr "10.0.0.5") none).1.map
      DnsQueryArgs.servers ≠ [some [cstr "10.0.0.5"]] := by
  decide

/-- C23 (amended): the lookups of the tasking request, of the result queries and of the
liveness probe are made with the explicitly supplied address `D` as the only server;
the lookups of the heartbeat, register, unregister and config operations are made by
`dns_txt_query` without a server list, that is through the DNS servers configured in
the system, the address `D` being only the last part of the name looked up. -/
theorem lookup_resolver_targets (A R D : List Byte) (result : Option (List Byte))
    (answers : Nat → Option (List Byte)) (answer : Option (List Byte))
    (replies : Nat → DnsReply) (hostname username timestamp : Option (List Byte)) :
    (dns_request_command A D answer).1.args.servers = some [D] ∧
    (∀ q ∈ (dns_send_result A R result D answers).2, q.args.servers = some [D]) ∧
    (dns_check_server D replies).1.args.servers = some [D] ∧
    (∀ a ∈ (dns_send_heartbeat A D hostname username timestamp answer).1, a.servers = none) ∧
    (∀ a ∈ (dns_register_agent D hostname username answer).1, a.servers = none) ∧
    (dns_unregister_agent A D answer).1
      = [⟨cstr "unregister." ++ A ++ cstr "." ++ D, DNS_QUERY_STANDARD, none⟩] ∧
    (dns_get_config A D answer).1
      = [⟨cstr "config." ++ A ++ cstr "." ++ D, DNS_QUERY_STANDARD, none⟩] ∧
    (∀ h u t : List Byte,
      (dns_send_heartbeat A D (some h) (some u) (some t) answer).1
        = [⟨cstr "heartbeat." ++ A ++ cstr "." ++ (base64_encode
            (cstr "host=" ++ h ++ cstr ";user=" ++ u ++ cstr ";time=" ++ t)).1 ++ cstr "." ++ D,
            DNS_QUERY_STANDARD, none⟩] ∧
      (dns_register_agent D (some h) (some u) answer).1
        = [⟨cstr "register." ++ (base64_encode (cstr "host=" ++ h ++ cstr ";user=" ++ u)).1
            ++ cstr "." ++ D, DNS_QUERY_STANDARD, none⟩]) := by
  refine ⟨rfl, ?_, rfl, ?_, ?_, rfl, rfl, fun h u t => ⟨rfl, rfl⟩⟩
  · intro q hq
    cases result with
    | none => simp [dns_send_result] at hq
    | some result =>
      obtain ⟨i, rfl⟩ := dns_send_result_queries A R result D answers q hq
      rfl
  · intro a ha
    cases hostname <;> cases username <;> cases timestamp <;>
      simp [dns_send_heartbeat, dns_txt_query_args] at ha ⊢
    rw [ha]
  · intro a ha
    cases hostname <;> cases username <;>
      simp [dns_register_agent, dns_txt_query_args] at ha ⊢
    rw [ha]

/-! ## The agent id and the delay of the poll loop -/

theorem sleeps_append (t1 t2 : List LoopEvent) : sleeps (t1 ++ t2) = sleeps t1 ++ sleeps t2 := by
  simp [sleeps, List.filterMap_append]

theorem tasking_lookups_append (t1 t2 : List LoopEvent) :
    tasking_lookups (t1 ++ t2) = tasking_lookups t1 ++ tasking_lookups t2 := by
  simp [tasking_lookups, List.filterMap_append]

/-- Every pass of the loop that completes makes one tasking lookup, for the agent id and
the address fixed before the loop, and ends with one sleep of the delay fixed before
the loop. -/
theorem command_loop_body_events (env : LoopEnv) (agent_id domain : List Byte)
    (sleep_interval : Nat) (st st' : LoopState)
    (h : command_loop_body env agent_id domain sleep_interval st = Exec.done st') :
    sleeps st'.trace = sleeps st.trace ++ [sleep_interval] ∧
    tasking_lookups st'.trace = tasking_lookups st.trace
      ++ [⟨cstr "cmd." ++ agent_id ++ cstr "." ++ domain, domain⟩] := by
  have hlookup : (dns_request_command agent_id domain (env.answers st.lookups)).1
      = ⟨cstr "cmd." ++ agent_id ++ cstr "." ++ domain, domain⟩ := rfl
  simp only [command_loop_body, hlookup] at h
  split at h
  · cases h
  · simp only [Exec.done.injEq] at h
    subst h
    simp [sleeps_append, tasking_lookups_append, sleeps, tasking_lookups]
  · split at h
    · split at h
      · cases h
      · simp only [Exec.done.injEq] at h
        subst h
        simp [sleeps_append, tasking_lookups_append, sleeps, tasking_lookups]
      · simp only [Exec.done.injEq] at h
        subst h
        simp [sleeps_append, tasking_lookups_append, sleeps, tasking_lookups]
    · simp only [Exec.done.injEq] at h
      subst h
      simp [sleeps_append, tasking_lookups_append, sleeps, tasking_lookups]

/-- The delays and the tasking lookups of the first `cycles` passes. -/
theorem loop_cycles_events (env : LoopEnv) (agent_id domain : List Byte)
    (sleep_interval : Nat) :
    ∀ (cycles : Nat) (st st' : LoopState),
      loop_cycles (command_loop_body env agent_id domain sleep_interval) cycles st
        = Exec.done st' →
      sleeps st'.trace = sleeps st.trace ++ List.replicate cycles sleep_interval ∧
      tasking_lookups st'.trace = tasking_lookups st.trace
        ++ List.replicate cycles ⟨cstr "cmd." ++ agent_id ++ cstr "." ++ domain, domain⟩
  | 0, st, st', h => by
    simp only [loop_cycles, Exec.done.injEq] at h
    subst h
    simp
  | cycles + 1, st, st', h => by
    simp only [loop_cycles] at h
    split at h
    · cases h
    · rename_i st1 hbody
      obtain ⟨h1, h2⟩ := command_loop_body_events env agent_id domain sleep_interval st st1 hbody
      obtain ⟨h3, h4⟩ := loop_cycles_events env agent_id domain sleep_interval cycles st1 st' h
      rw [h3, h1, h4, h2]
      simp [List.replicate_succ]

/-- The sample of `get_sleep_interval` taken on the state left by `get_c2_domain` is the
sample taken on the state before it. -/
theorem get_sleep_interval_after_get (cenv : ConfigEnv) (s : ConfigState) (rand1 rand2 : Nat) :
    (get_sleep_interval cenv (get_c2_domain cenv s).2 rand1 rand2).1
      = (get_sleep_interval cenv s rand1 rand2).1 := by
  have hi : init_config cenv (init_config cenv s) = init_config cenv s :=
    init_config_initialized cenv _ (init_config_is_initialized cenv s)
  simp only [get_sleep_interval, get_c2_domain, hi]

/-- The delays and the tasking lookups of `command_loop`. -/
theorem command_loop_events (cenv : ConfigEnv) (env : LoopEnv) (rand1 rand2 : Nat)
    (s : ConfigState) (cycles : Nat) (st : LoopState)
    (h : command_loop cenv env rand1 rand2 s cycles = Exec.done st) :
    sleeps st.trace = List.replicate cycles (get_sleep_interval cenv s rand1 rand2).1 ∧
    tasking_lookups st.trace = List.replicate cycles
      ⟨cstr "cmd." ++ (cstr "agent-" ++ hex8 (env.tick 0)) ++ cstr "." ++ (get_c2_domain cenv s).1,
        (get_c2_domain cenv s).1⟩ := by
  simp only [command_loop] at h
  obtain ⟨h1, h2⟩ := loop_cycles_events env _ _ _ cycles _ st h
  rw [get_sleep_interval_after_get] at h1
  constructor
  · rw [h1]
    simp [sleeps]
  · rw [h2]
    simp [tasking_lookups]

set_option maxRecDepth 100000 in
/-- C24, for the default configuration (interval 10000 ms, jitter 20 %) and the values
`0, 1, 2, 3, …` of `rand()`: the two first passes of `command_loop` both sleep 10000 ms,
the sample taken before the loop, while a sample taken afresh for the second pass would
be 10002 ms. -/
theorem command_loop_sleep_not_fresh :
    (∃ st, command_loop ⟨0, []⟩
        ⟨fun _ => 1, fun _ => none,
          ⟨fun _ => none, fun _ => none, fun _ => none, fun _ => none, fun _ => none,
            fun _ => none⟩⟩
        ((fun k => k) 0) ((fun k => k) 1) ConfigState.start 2 = Exec.done st ∧
      sleeps st.trace = [10000, 10000]) ∧
    fresh_sleep ⟨0, []⟩ ConfigState.start (fun k => k) 0 = 10000 ∧
    fresh_sleep ⟨0, []⟩ ConfigState.start (fun k => k) 1 = 10002 := by
  refine ⟨?_, by decide, by decide⟩
  obtain ⟨st, h1, _, _⟩ := loop_cycles_no_answer
    ⟨fun _ => 1, fun _ => none,
      ⟨fun _ => none, fun _ => none, fun _ => none, fun _ => none, fun _ => none, fun _ => none⟩⟩
    (cstr "agent-" ++ hex8 1) (get_c2_domain ⟨0, []⟩ ConfigState.start).1
    (get_sleep_interval ⟨0, []⟩ (get_c2_domain ⟨0, []⟩ ConfigState.start).2 0 1).1
    (fun _ => rfl) 2 ⟨1, 0, []⟩
  have h2 : command_loop ⟨0, []⟩
      ⟨fun _ => 1, fun _ => none,
        ⟨fun _ => none, fun _ => none, fun _ => none, fun _ => none, fun _ => none,
          fun _ => none⟩⟩
      0 1 ConfigState.start 2 = Exec.done st := h1
  refine ⟨st, h2, ?_⟩
  rw [(command_loop_events _ _ _ _ _ _ st h2).1]
  decide

/-- C24 (amended): in `command_loop` the delay before every next poll cycle is one and
the same value, the single sample of `get_sleep_interval` taken before the loop from the
first two values of `rand()`: when the first `cycles` passes complete, the loop has slept
`cycles` times, each time for that sample. -/
theorem command_loop_single_sample (cenv : ConfigEnv) (env : LoopEnv) (rand1 rand2 : Nat)
    (s : ConfigState) (cycles : Nat) (st : LoopState)
    (h : command_loop cenv env rand1 rand2 s cycles = Exec.done st) :
    sleeps st.trace = List.replicate cycles (get_sleep_interval cenv s rand1 rand2).1 :=
  (command_loop_events cenv env rand1 rand2 s cycles st h).1

set_option maxRecDepth 100000 in
/-- Witness for C24 (amended): three passes with an unanswered tasking lookup, default
configuration, draws 0 and 1: each pass sleeps 10000 ms. -/
theorem command_loop_single_sample_witness :
    command_loop ⟨0, []⟩
      ⟨fun _ => 1, fun _ => none,
        ⟨fun _ => none, fun _ => none, fun _ => none, fun _ => none, fun _ => none,
          fun _ => none⟩⟩
      0 1 ConfigState.start 3
      = Exec.done ⟨1, 3,
        [LoopEvent.tasking ⟨cstr "cmd.agent-00000001.c2.local", cstr "c2.local"⟩,
         LoopEvent.sleep 10000,
         LoopEvent.tasking ⟨cstr "cmd.agent-00000001.c2.local", cstr "c2.local"⟩,
         LoopEvent.sleep 10000,
         LoopEvent.tasking ⟨cstr "cmd.agent-00000001.c2.local", cstr "c2.local"⟩,
         LoopEvent.sleep 10000]⟩ ∧
    sleeps (⟨1, 3,
      [LoopEvent.tasking ⟨cstr "cmd.agent-00000001.c2.local", cstr "c2.local"⟩,
       LoopEvent.sleep 10000,
       LoopEvent.tasking ⟨cstr "cmd.agent-00000001.c2.local", cstr "c2.local"⟩,
       LoopEvent.sleep 10000,
       LoopEvent.tasking ⟨cstr "cmd.agent-00000001.c2.local", cstr "c2.local"⟩,
       LoopEvent.sleep 10000]⟩ : LoopState).trace
      = List.replicate 3 (get_sleep_interval ⟨0, []⟩ ConfigState.start 0 1).1 :=
  ⟨by decide,
   command_loop_single_sample ⟨0, []⟩
    ⟨fun _ => 1, fun _ => none,
      ⟨fun _ => none, fun _ => none, fun _ => none, fun _ => none, fun _ => none, fun _ => none⟩⟩
    0 1 ConfigState.start 3 _ (by decide)⟩

set_option maxRecDepth 100000 in
/-- C22, with the configured agent id `agent-00000001` (generated by `init_config` at
tick 1), the address `10.0.0.5`, and `GetTickCount()` returning 2 when `command_loop`
starts: `perform_checkin` sends under `agent-00000001`, the id returned by
`get_agent_id`, while the tasking query of `command_loop` is
`cmd.agent-00000002.10.0.0.5` and its result query carries `agent-00000002`, an id that
the loop builds itself. -/
theorem command_loop_own_agent_id :
    (get_agent_id ⟨1, []⟩
      (set_c2_domain ⟨1, []⟩ (some (cstr "10.0.0.5")) ConfigState.start)).1
      = cstr "agent-00000001" ∧
    (perform_checkin ⟨1, []⟩
      (set_c2_domain ⟨1, []⟩ (some (cstr "10.0.0.5")) ConfigState.start)
      (some (cstr "x")) (fun _ => some (cstr "ACK"))).1.2.map ChunkQuery.query
      = [cstr "result.agent-00000001.checkin.eA==.10.0.0.5"] ∧
    ∃ st, command_loop ⟨1, []⟩
        ⟨fun k => 2 + k, fun k => if k = 0 then some (cstr "cHdk") else some (cstr "ACK"),
          ⟨fun _ => none, fun _ => some (cstr "C:\\"), fun _ => none, fun _ => none,
            fun _ => none, fun _ => none⟩⟩
        0 0 (set_c2_domain ⟨1, []⟩ (some (cstr "10.0.0.5")) ConfigState.start) 1
        = Exec.done st ∧
      tasking_lookups st.trace = [⟨cstr "cmd.agent-00000002.10.0.0.5", cstr "10.0.0.5"⟩] ∧
      (result_queries st.trace).map ChunkQuery.query
        = [cstr "result.agent-00000002.00000003.Qzpc.10.0.0.5"] := by
  refine ⟨by decide, by decide, _, rfl, by decide, by decide⟩

/-! ## What `base64_decode` makes of a character outside the alphabet -/

theorem toByte_congr (x y : Nat) (h : x % 256 = y % 256) : toByte x = toByte y := by
  simp only [toByte]
  exact Fin.ext h

theorem uint32_of_int_cast (x : Int) : ((uint32_of_int x : Nat) : Int) = x % 4294967296 := by
  unfold uint32_of_int
  rw [Int.toNat_of_nonneg (Int.emod_nonneg _ (by norm_num))]
  norm_num

theorem triple_arith (va vb vc vd : Int) (sa sb sc sd g : Nat)
    (hsa : (sa : Int) = va % 4294967296) (hsb : (sb : Int) = vb % 4294967296)
    (hsc : (sc : Int) = vc % 4294967296) (hsd : (sd : Int) = vd % 4294967296)
    (hg : (g : Int) = (va * 262144 + vb * 4096 + vc * 64 + vd) % 16777216) :
    ((sa * 262144 % 4294967296 + sb * 4096 % 4294967296 + sc * 64 % 4294967296 + sd)
        % 4294967296) % 16777216 = g := by
  omega

set_option maxRecDepth 100000 in
theorem symbol_value_range : ∀ c : Byte, -1 ≤ symbol_value c ∧ symbol_value c ≤ 63 := by
  decide

set_option maxRecDepth 100000 in
theorem symbol_value_invalid : ∀ c : Byte,
    symbol_value c = -1 ↔ ¬ (alphabet_symbol c ∨ c = ch '=') := by
  decide

theorem sextet_eq (c : Byte) : sextet c = uint32_of_int (symbol_value c) := by
  unfold sextet symbol_value
  split_ifs
  · rfl
  · rfl

/-- The low 24 bits of the `uint32_t` value of a group. -/
theorem decode_triple_mod (a b c d : Byte) :
    decode_triple (sextet a) (sextet b) (sextet c) (sextet d) % 16777216
      = ((symbol_value a * 2 ^ 18 + symbol_value b * 2 ^ 12 + symbol_value c * 2 ^ 6
          + symbol_value d) % 2 ^ 24).toNat := by
  have hg : ((((symbol_value a * 2 ^ 18 + symbol_value b * 2 ^ 12 + symbol_value c * 2 ^ 6
      + symbol_value d) % 2 ^ 24).toNat : Nat) : Int)
      = (symbol_value a * 262144 + symbol_value b * 4096 + symbol_value c * 64
          + symbol_value d) % 16777216 := by
    rw [Int.toNat_of_nonneg (Int.emod_nonneg _ (by norm_num))]
    norm_num
  have key := triple_arith (symbol_value a) (symbol_value b) (symbol_value c) (symbol_value d)
    (sextet a) (sextet b) (sextet c) (sextet d) _
    (by rw [sextet_eq]; exact uint32_of_int_cast _) (by rw [sextet_eq]; exact uint32_of_int_cast _)
    (by rw [sextet_eq]; exact uint32_of_int_cast _) (by rw [sextet_eq]; exact uint32_of_int_cast _)
    hg
  rw [← key]
  simp only [decode_triple, Nat.shiftLeft_eq]
  norm_num

/-- The three bytes stored by a pass of the decoding loop are the low 24 bits of the sum
of the shifted character values, a character outside the alphabet counting as `-1`. -/
theorem decode_triple_bytes (a b c d : Byte) :
    toByte ((decode_triple (sextet a) (sextet b) (sextet c) (sextet d) >>> 16) &&& 0xFF)
      = toByte (((symbol_value a * 2 ^ 18 + symbol_value b * 2 ^ 12 + symbol_value c * 2 ^ 6
          + symbol_value d) % 2 ^ 24).toNat / 65536) ∧
    toByte ((decode_triple (sextet a) (sextet b) (sextet c) (sextet d) >>> 8) &&& 0xFF)
      = toByte (((symbol_value a * 2 ^ 18 + symbol_value b * 2 ^ 12 + symbol_value c * 2 ^ 6
          + symbol_value d) % 2 ^ 24).toNat / 256) ∧
    toByte (decode_triple (sextet a) (sextet b) (sextet c) (sextet d) &&& 0xFF)
      = toByte (((symbol_value a * 2 ^ 18 + symbol_value b * 2 ^ 12 + symbol_value c * 2 ^ 6
          + symbol_value d) % 2 ^ 24).toNat) := by
  have hm := decode_triple_mod a b c d
  simp only [← hm, mask_byte, Nat.shiftRight_eq_div_pow]
  generalize decode_triple (sextet a) (sextet b) (sextet c) (sextet d) = t
  refine ⟨toByte_congr _ _ ?_, toByte_congr _ _ ?_, toByte_congr _ _ ?_⟩ <;> omega

theorem take_take_append {α : Type} (n : Nat) (l m : List α) :
    (l.take n ++ m).take n = (l ++ m).take n := by
  by_cases h : l.length ≤ n
  · rw [List.take_of_length_le h]
  · rw [List.take_append_of_le_length (by simp only [List.length_take]; omega),
      List.take_append_of_le_length (by omega), List.take_take, Nat.min_self]

theorem store_if_eq (n : Nat) (out : List Byte) (v : Nat) (h : out.length ≤ n) :
    store_if n out v = (out ++ [toByte v]).take n := by
  unfold store_if
  split_ifs with hlt
  · rw [List.take_of_length_le (by simp only [List.length_append, List.length_singleton]; omega)]
  · rw [List.take_append_of_le_length (by omega), List.take_of_length_le h]

/-- The decoding loop stores the bytes of the groups, in order, up to the output
length. -/
theorem decode_loop_groups (n : Nat) : ∀ (k : Nat) (data out : List Byte),
    data.length = 4 * k → out.length ≤ n →
    decode_loop n data out = Exec.done ((out ++ decoded_groups data).take n)
  | 0, data, out, h, hout => by
    have : data = [] := List.length_eq_zero.mp (by omega)
    subst this
    simp only [decode_loop, decoded_groups, List.append_nil]
    rw [List.take_of_length_le hout]
  | k + 1, data, out, h, hout => by
    match data, h with
    | x0 :: x1 :: x2 :: x3 :: rest, h =>
      obtain ⟨hb0, hb1, hb2⟩ := decode_triple_bytes x0 x1 x2 x3
      have h1 := store_if_eq n out
        ((decode_triple (sextet x0) (sextet x1) (sextet x2) (sextet x3) >>> 16) &&& 0xFF) hout
      have l1 : ((out ++ [toByte ((decode_triple (sextet x0) (sextet x1) (sextet x2) (sextet x3)
          >>> 16) &&& 0xFF)]).take n).length ≤ n := by
        simp only [List.length_take]
        omega
      have h2 := store_if_eq n _
        ((decode_triple (sextet x0) (sextet x1) (sextet x2) (sextet x3) >>> 8) &&& 0xFF) l1
      rw [take_take_append] at h2
      have l2 : ((out ++ [toByte ((decode_triple (sextet x0) (sextet x1) (sextet x2) (sextet x3)
          >>> 16) &&& 0xFF)] ++ [toByte ((decode_triple (sextet x0) (sextet x1) (sextet x2)
          (sextet x3) >>> 8) &&& 0xFF)]).take n).length ≤ n := by
        simp only [List.length_take]
        omega
      have h3 := store_if_eq n _
        (decode_triple (sextet x0) (sextet x1) (sextet x2) (sextet x3) &&& 0xFF) l2
      rw [take_take_append] at h3
      have l3 : ((out ++ [toByte ((decode_triple (sextet x0) (sextet x1) (sextet x2) (sextet x3)
          >>> 16) &&& 0xFF)] ++ [toByte ((decode_triple (sextet x0) (sextet x1) (sextet x2)
          (sextet x3) >>> 8) &&& 0xFF)] ++ [toByte (decode_triple (sextet x0) (sextet x1)
          (sextet x2) (sextet x3) &&& 0xFF)]).take n).length ≤ n := by
        simp only [List.length_take]
        omega
      rw [decode_loop_cons4, h1, h2, h3,
        decode_loop_groups n k rest _ (by simp only [List.length_cons] at h; omega) l3,
        take_take_append, hb0, hb1, hb2]
      simp only [decoded_groups, group_bytes, List.append_assoc, List.cons_append,
        List.nil_append]

/-- The run of `base64_decode` on an input whose length is a positive multiple of 4. -/
theorem base64_decode_eq_groups (data : List Byte) (h4 : data.length % 4 = 0)
    (hpos : 0 < data.length) :
    ∃ n, base64_decode data = Exec.done (some ((decoded_groups data).take n, n)) ∧
      data.length / 4 * 3 - 2 ≤ n ∧ n ≤ data.length / 4 * 3 := by
  obtain ⟨c1, _, hr1⟩ := readAt_of_lt data (data.length - 1) (by omega)
  obtain ⟨c2, _, hr2⟩ := readAt_of_lt data (data.length - 2) (by omega)
  have hs1 : size_t_sub data.length 1 = data.length - 1 := by
    rw [size_t_sub, if_pos (by omega)]
  have hs2 : size_t_sub data.length 2 = data.length - 2 := by
    rw [size_t_sub, if_pos (by omega)]
  have hmod : ¬ (data.length % 4 ≠ 0) := by omega
  have hout : (if c2 = ch '=' then
        size_t_sub (if c1 = ch '=' then size_t_sub (data.length / 4 * 3) 1
          else data.length / 4 * 3) 1
      else (if c1 = ch '=' then size_t_sub (data.length / 4 * 3) 1 else data.length / 4 * 3))
      = data.length / 4 * 3 - (if c1 = ch '=' then 1 else 0) - (if c2 = ch '=' then 1 else 0) := by
    by_cases h1 : c1 = ch '=' <;> by_cases h2 : c2 = ch '=' <;>
      simp only [if_pos, if_neg, h1, h2, size_t_sub, not_false_eq_true] <;>
      (try split_ifs) <;> omega
  simp only [base64_decode, if_neg hmod, hs1, hs2, hr1, hr2, bind, Exec.bind, hout]
  rw [decode_loop_groups _ (data.length / 4) data [] (by omega) (Nat.zero_le _)]
  refine ⟨_, rfl, ?_, ?_⟩ <;> split_ifs <;> omega

set_option maxRecDepth 100000 in
/-- C25, at the input `QU!D`: replacing the invalid character `!` by `A` gives `QUAD`,
which decodes to the bytes 65, 64, 3, but `QU!D` itself decodes to 65, 63, 195: the
value `-1` that `base64_char_value` returns for `!` is added into the group as the
32-bit value `0xFFFFFFFF`, not as 0. -/
theorem base64_decode_invalid_not_zero :
    replace_invalid (cstr "QU!D") = cstr "QUAD" ∧
    base64_decode (replace_invalid (cstr "QU!D")) = Exec.done (some ([65, 64, 3], 3)) ∧
    base64_decode (cstr "QU!D") = Exec.done (some ([65, 63, 195], 3)) ∧
    base64_decode (cstr "QU!D") ≠ base64_decode (replace_invalid (cstr "QU!D")) := by
  decide

/-- C25 (amended): for every input whose length is a positive multiple of 4,
`base64_decode` succeeds and returns, cut at the reported output length `n` (between
`3 len / 4 - 2` and `3 len / 4`), the bytes of its groups of four characters, where a
group decodes to the low 24 bits of `v_a * 2^18 + v_b * 2^12 + v_c * 2^6 + v_d` and the
value `v` of a character is its index in the alphabet, 0 for `'='` and `-1` for every
other character. -/
theorem base64_decode_invalid_minus_one (data : List Byte) (h4 : data.length % 4 = 0)
    (hpos : 0 < data.length) :
    (∃ n, base64_decode data = Exec.done (some ((decoded_groups data).take n, n)) ∧
      data.length / 4 * 3 - 2 ≤ n ∧ n ≤ data.length / 4 * 3) ∧
    (∀ c : Byte, symbol_value c = -1 ↔ ¬ (alphabet_symbol c ∨ c = ch '=')) ∧
    (∀ i : Nat, i < 64 → symbol_value (table_at i) = i) ∧
    symbol_value (ch '=') = 0 := by
  refine ⟨base64_decode_eq_groups data h4 hpos, symbol_value_invalid, fun i hi => ?_, by decide⟩
  have hs := sextet_table i hi
  obtain ⟨h1, h2⟩ := symbol_value_range (table_at i)
  rw [sextet_eq, uint32_of_int] at hs
  omega

set_option maxRecDepth 100000 in
/-- Witness for C25 (amended): the input `QU!D`, whose group value is
`16 * 2^18 + 20 * 2^12 - 2^6 + 3`. -/
theorem base64_decode_invalid_minus_one_witness :
    (cstr "QU!D").length % 4 = 0 ∧ 0 < (cstr "QU!D").length ∧
    decoded_groups (cstr "QU!D") = [65, 63, 195] ∧
    ∃ n, base64_decode (cstr "QU!D")
        = Exec.done (some ((decoded_groups (cstr "QU!D")).take n, n)) ∧
      (cstr "QU!D").length / 4 * 3 - 2 ≤ n ∧ n ≤ (cstr "QU!D").length / 4 * 3 :=
  ⟨by decide, by decide, by decide,
   (base64_decode_invalid_minus_one (cstr "QU!D") (by decide) (by decide)).1⟩

end DnsAgent
